import Mathlib

/-!
The MIPS32 assembler and the decode engine of nanvix/simulator

A shallow embedding of `src/assembler/mips32.c` and `src/vmachine/engine.c`.

* A C string is the list of its characters before the terminating NUL.
* `strtok` keeps a saved pointer between calls; here that pointer is passed
  explicitly.
* The headers `asm/inst.h`, `asm/regs.h` and `utils.h` are not part of the
  sources at hand.  Their constants are the fields of `Header`; their helper
  routines (`check`, `error`, `atoi32`, `itoa2`, `itoa`, `substring`, `equals`)
  are modelled from the specification.
* A builder returns a word or ends without one: a failed `check`, or a step the
  C standard leaves undefined (`atoi` out of the range of `int`, a string written
  to an array that is too short for it).
-/

namespace Nanvix

/-! ## Ends without a word -/

/-- The ways a call of the encoder ends without a word.

* `CheckFailed`: the condition handed to the macro `check` does not hold.
* `Undefined`: the C standard gives the program no behaviour from there on: `atoi`
  on a number out of the range of `int`, a write past the end of an array. -/
inductive Error
  | CheckFailed
  | Undefined
deriving DecidableEq, Repr

/-! ## C library -/

/-- The characters of `const char *delim = " ,()"`. -/
def delim : List Char := [' ', ',', '(', ')']

/-- The libc `strtok`, with the saved pointer made explicit: `strtok s d` scans
from `s`, skips leading delimiters, and yields the token (`none` for `NULL`)
together with the new saved pointer. -/
def strtok (s : List Char) (d : List Char) : Option (List Char) × List Char :=
  match s.dropWhile (fun c => d.contains c) with
  | [] => (none, [])
  | c :: cs =>
    (some ((c :: cs).takeWhile (fun x => !d.contains x)),
      (((c :: cs).dropWhile (fun x => !d.contains x)).drop 1))

/-- The libc `isspace` in the C locale. -/
def isspace (c : Char) : Bool :=
  c = ' ' || (9 ≤ c.toNat && c.toNat ≤ 13)

/-- The digit loop of `atoi`. -/
def atoi_digits (acc : Nat) : List Char → Nat
  | [] => acc
  | c :: cs => if c.isDigit then atoi_digits (acc * 10 + (c.toNat - 48)) cs else acc

/-- The number `atoi` reads in a text: optional white space, optional sign,
then decimal digits; anything after the digits is ignored and text without
digits is `0`. -/
def atoi_value (s : List Char) : Int :=
  let t := s.dropWhile isspace
  if t.head? = some '-' then - (atoi_digits 0 t.tail : Int)
  else if t.head? = some '+' then (atoi_digits 0 t.tail : Int)
  else (atoi_digits 0 t : Int)

/-- The libc `atoi`.  Its result is an `int`, of 32 bits: "if the value of the
result cannot be represented, the behavior is undefined". -/
def atoi (s : List Char) : Except Error Int :=
  if -2 ^ 31 ≤ atoi_value s ∧ atoi_value s < 2 ^ 31 then Except.ok (atoi_value s)
  else Except.error Error.Undefined

/-- A string stored in an array `char buf[size]`: the characters and the
terminating NUL have to fit; a write past the end of the array is undefined. -/
def char_array (size : Nat) (text : List Char) : Except Error (List Char) :=
  if text.length + 1 ≤ size then Except.ok text else Except.error Error.Undefined

/-- The libc `strncpy(dst, src, n); dst[n] = 0` into a zeroed buffer of `n + 1`
characters. -/
def strncpy (src : List Char) (n : Nat) : List Char := src.take n

/-! ## Helpers of `utils.h` -/

/-- The `w` digits of `v` in base `b`, most significant first. -/
def to_base (b : Nat) : Nat → Nat → List Char
  | 0, _ => []
  | w + 1, v => to_base b w (v / b) ++ [Nat.digitChar (v % b)]

/-- Modelled from the spec: `itoa2` of `utils.h` is missing from the sources.
The builders read the text it writes from the offsets 27, 16 and 6 as the 5, 16
and 26 low-order bits, so it writes 32 digits; the specification asks for the
"low-order bits of its binary representation", which "must correctly represent
negative displacements": the value is taken as a 32-bit two's-complement word.
With the terminating NUL the text takes 33 characters of the array it is written
to (`char_array`). -/
def itoa2 (value : Int) (base : Nat) : List Char :=
  to_base base 32 (value % 2 ^ 32).toNat

/-- The value of a string of binary digits, most significant first. -/
def binary_value (s : List Char) : Nat :=
  s.foldl (fun acc c => 2 * acc + (if c = '1' then 1 else 0)) 0

/-- Modelled from the spec: `atoi32` of `utils.h` is missing from the sources.
It parses "that 32-bit string as an unsigned binary integer" into a `uint32_t`
(the test has `atoi32("00011") == 3`). -/
def atoi32 (s : List Char) : Nat := binary_value s % 2 ^ 32

/-- Modelled from the spec: the macro `check` of `utils.h` is missing from the
sources.  It is handed a condition, here a pointer compared with `NULL`, and
nothing else.  A check that fails ends the encoding without a word ("Any lookup
or parse failure at this stage is an `Error`"). -/
def check {α : Type} (x : Option α) : Except Error α :=
  match x with
  | some v => Except.ok v
  | none => Except.error Error.CheckFailed

/-- Modelled from the spec: `error` of `utils.h` is missing from the sources.
"The source returns 0 on unknown mnemonic with a printed warning": `error`
prints its message and returns to its caller.  Its value here is what it
prints. -/
def error (msg : String) : List String := [msg]

/-! ## Constants of `asm/regs.h` and `asm/inst.h` -/

/-- The registers, in the order of the table `registers`. -/
inductive Register
  | ZERO | AT | V0 | V1 | A0 | A1 | A2 | A3
  | T0 | T1 | T2 | T3 | T4 | T5 | T6 | T7
  | S0 | S1 | S2 | S3 | S4 | S5 | S6 | S7
  | T8 | T9 | K0 | K1 | GP | SP | FP | RA
deriving DecidableEq, Repr

/-- The instructions, in the order of the table `instructions`. -/
inductive Mnemonic
  | ADD | ADDI | SUB | MULT | DIV | AND | ANDI | OR | ORI | XOR | NOR
  | SLT | SLTI | SLL | SRL | LW | SW | BEQ | BNE | J | JR | JAL
deriving DecidableEq, Repr

/-- The constants the sources take from the missing headers.  `REG_x_NUM r`
stands for the macro `REG_<r>_NUM`, `INST_NAME_x m` for `INST_NAME_<m>`, and so
on; `R_OPCODE` is the opcode text the engine compares with. -/
structure Header where
  REG_x_NUM : Register → Nat
  REG_x_NUM_STR : Register → List Char
  REG_x_NAME : Register → List Char
  INST_NAME_x : Mnemonic → List Char
  INST_x_OPCODE : Mnemonic → Nat
  INST_x_OPCODE_STR : Mnemonic → List Char
  INST_x_FUNCT : Mnemonic → Nat
  INST_x_FUNCT_STR : Mnemonic → List Char
  R_OPCODE : List Char

/-- The number of registers, `REG_NUM`. -/
def REG_NUM : Nat := 32

/-! ## `src/assembler/mips32.c` -/

/-- An entry of the register table: `struct reg`. -/
structure reg where
  code : List Char
  name : List Char

/-- The encoding functions an entry of the instruction table points to. -/
inductive Encoder
  | encode_add | encode_addi | encode_sub | encode_mult | encode_div
  | encode_and | encode_andi | encode_or | encode_ori | encode_xor
  | encode_nor | encode_slt | encode_slti | encode_sll | encode_srl
  | encode_lw | encode_sw | encode_beq | encode_bne | encode_j
  | encode_jr | encode_jal
deriving DecidableEq, Repr

/-- An entry of the instruction table: `struct inst`. -/
structure inst where
  name : List Char
  opcode : List Char
  funct : List Char
  encode : Encoder

/-- Lookup table of registers. -/
def registers (h : Header) : List reg :=
  [ ⟨h.REG_x_NUM_STR .ZERO, h.REG_x_NAME .ZERO⟩,
    ⟨h.REG_x_NUM_STR .AT, h.REG_x_NAME .AT⟩,
    ⟨h.REG_x_NUM_STR .V0, h.REG_x_NAME .V0⟩,
    ⟨h.REG_x_NUM_STR .V1, h.REG_x_NAME .V1⟩,
    ⟨h.REG_x_NUM_STR .A0, h.REG_x_NAME .A0⟩,
    ⟨h.REG_x_NUM_STR .A1, h.REG_x_NAME .A1⟩,
    ⟨h.REG_x_NUM_STR .A2, h.REG_x_NAME .A2⟩,
    ⟨h.REG_x_NUM_STR .A3, h.REG_x_NAME .A3⟩,
    ⟨h.REG_x_NUM_STR .T0, h.REG_x_NAME .T0⟩,
    ⟨h.REG_x_NUM_STR .T1, h.REG_x_NAME .T1⟩,
    ⟨h.REG_x_NUM_STR .T2, h.REG_x_NAME .T2⟩,
    ⟨h.REG_x_NUM_STR .T3, h.REG_x_NAME .T3⟩,
    ⟨h.REG_x_NUM_STR .T4, h.REG_x_NAME .T4⟩,
    ⟨h.REG_x_NUM_STR .T5, h.REG_x_NAME .T5⟩,
    ⟨h.REG_x_NUM_STR .T6, h.REG_x_NAME .T6⟩,
    ⟨h.REG_x_NUM_STR .T7, h.REG_x_NAME .T7⟩,
    ⟨h.REG_x_NUM_STR .S0, h.REG_x_NAME .S0⟩,
    ⟨h.REG_x_NUM_STR .S1, h.REG_x_NAME .S1⟩,
    ⟨h.REG_x_NUM_STR .S2, h.REG_x_NAME .S2⟩,
    ⟨h.REG_x_NUM_STR .S3, h.REG_x_NAME .S3⟩,
    ⟨h.REG_x_NUM_STR .S4, h.REG_x_NAME .S4⟩,
    ⟨h.REG_x_NUM_STR .S5, h.REG_x_NAME .S5⟩,
    ⟨h.REG_x_NUM_STR .S6, h.REG_x_NAME .S6⟩,
    ⟨h.REG_x_NUM_STR .S7, h.REG_x_NAME .S7⟩,
    ⟨h.REG_x_NUM_STR .T8, h.REG_x_NAME .T8⟩,
    ⟨h.REG_x_NUM_STR .T9, h.REG_x_NAME .T9⟩,
    ⟨h.REG_x_NUM_STR .K0, h.REG_x_NAME .K0⟩,
    ⟨h.REG_x_NUM_STR .K1, h.REG_x_NAME .K1⟩,
    ⟨h.REG_x_NUM_STR .GP, h.REG_x_NAME .GP⟩,
    ⟨h.REG_x_NUM_STR .SP, h.REG_x_NAME .SP⟩,
    ⟨h.REG_x_NUM_STR .FP, h.REG_x_NAME .FP⟩,
    ⟨h.REG_x_NUM_STR .RA, h.REG_x_NAME .RA⟩ ]

/-- Lookup table of instructions; the end of the list is the `NULL` entry. -/
def instructions (h : Header) : List inst :=
  [ ⟨h.INST_NAME_x .ADD, h.INST_x_OPCODE_STR .ADD, h.INST_x_FUNCT_STR .ADD, .encode_add⟩,
    ⟨h.INST_NAME_x .ADDI, h.INST_x_OPCODE_STR .ADDI, [], .encode_addi⟩,
    ⟨h.INST_NAME_x .SUB, h.INST_x_OPCODE_STR .SUB, h.INST_x_FUNCT_STR .SUB, .encode_sub⟩,
    ⟨h.INST_NAME_x .MULT, h.INST_x_OPCODE_STR .MULT, h.INST_x_FUNCT_STR .MULT, .encode_mult⟩,
    ⟨h.INST_NAME_x .DIV, h.INST_x_OPCODE_STR .DIV, h.INST_x_FUNCT_STR .DIV, .encode_div⟩,
    ⟨h.INST_NAME_x .AND, h.INST_x_OPCODE_STR .AND, h.INST_x_FUNCT_STR .AND, .encode_and⟩,
    ⟨h.INST_NAME_x .ANDI, h.INST_x_OPCODE_STR .ANDI, [], .encode_andi⟩,
    ⟨h.INST_NAME_x .OR, h.INST_x_OPCODE_STR .OR, h.INST_x_FUNCT_STR .OR, .encode_or⟩,
    ⟨h.INST_NAME_x .ORI, h.INST_x_OPCODE_STR .ORI, [], .encode_ori⟩,
    ⟨h.INST_NAME_x .XOR, h.INST_x_OPCODE_STR .XOR, h.INST_x_FUNCT_STR .XOR, .encode_xor⟩,
    ⟨h.INST_NAME_x .NOR, h.INST_x_OPCODE_STR .NOR, h.INST_x_FUNCT_STR .NOR, .encode_nor⟩,
    ⟨h.INST_NAME_x .SLT, h.INST_x_OPCODE_STR .SLT, h.INST_x_FUNCT_STR .SLT, .encode_slt⟩,
    ⟨h.INST_NAME_x .SLTI, h.INST_x_OPCODE_STR .SLTI, [], .encode_slti⟩,
    ⟨h.INST_NAME_x .SLL, h.INST_x_OPCODE_STR .SLL, h.INST_x_FUNCT_STR .SLL, .encode_sll⟩,
    ⟨h.INST_NAME_x .SRL, h.INST_x_OPCODE_STR .SRL, h.INST_x_FUNCT_STR .SRL, .encode_srl⟩,
    ⟨h.INST_NAME_x .LW, h.INST_x_OPCODE_STR .LW, [], .encode_lw⟩,
    ⟨h.INST_NAME_x .SW, h.INST_x_OPCODE_STR .SW, [], .encode_sw⟩,
    ⟨h.INST_NAME_x .BEQ, h.INST_x_OPCODE_STR .BEQ, [], .encode_beq⟩,
    ⟨h.INST_NAME_x .BNE, h.INST_x_OPCODE_STR .BNE, [], .encode_bne⟩,
    ⟨h.INST_NAME_x .J, h.INST_x_OPCODE_STR .J, [], .encode_j⟩,
    ⟨h.INST_NAME_x .JR, h.INST_x_OPCODE_STR .JR, h.INST_x_FUNCT_STR .JR, .encode_jr⟩,
    ⟨h.INST_NAME_x .JAL, h.INST_x_OPCODE_STR .JAL, [], .encode_jal⟩ ]

/-- Lookups the code of a register; `none` is the null pointer. -/
def register_lookup (h : Header) (regname : Option (List Char)) : Option (List Char) :=
  match regname with
  | none => none
  | some n => ((registers h).find? (fun r => r.name = n)).map reg.code

/-- Lookups the operation code of an instruction. -/
def opcode_lookup (h : Header) (i : Option (List Char)) : Option (List Char) :=
  match i with
  | none => none
  | some n => ((instructions h).find? (fun e => e.name = n)).map inst.opcode

/-- Lookups the function code of an instruction. -/
def funct_lookup (h : Header) (cmd : Option (List Char)) : Option (List Char) :=
  match cmd with
  | none => none
  | some n => ((instructions h).find? (fun e => e.name = n)).map inst.funct

/-- The buffer `instr` after the `strcat`s and `instr[32] = 0`, parsed. -/
def finish (instr : List Char) : Nat := atoi32 (instr.take 32)

/-- Encodes a generic R instruction; `save` is the saved pointer of `strtok`. -/
def encode_r_instruction (h : Header) (i : List Char) (save : List Char) :
    Except Error Nat :=
  let t1 := strtok save delim
  let t2 := strtok t1.2 delim
  let t3 := strtok t2.2 delim
  (check (register_lookup h t1.1)).bind fun rd =>
  (check (register_lookup h t2.1)).bind fun rs =>
  (check (register_lookup h t3.1)).bind fun rt =>
  (check (opcode_lookup h (some i))).bind fun opcode =>
  (check (funct_lookup h (some i))).bind fun funct =>
  Except.ok (finish (opcode ++ rs ++ rt ++ rd ++ ['0', '0', '0', '0', '0'] ++ funct))

/-- Encodes a MULT instruction. -/
def encode_mult (h : Header) (i : List Char) (save : List Char) : Except Error Nat :=
  let t1 := strtok save delim
  let t2 := strtok t1.2 delim
  (check (register_lookup h t1.1)).bind fun rs =>
  (check (register_lookup h t2.1)).bind fun rt =>
  (check (opcode_lookup h (some i))).bind fun opcode =>
  (check (funct_lookup h (some i))).bind fun funct =>
  Except.ok (finish (opcode ++ rs ++ rt ++ ['0', '0', '0', '0', '0']
    ++ ['0', '0', '0', '0', '0'] ++ funct))

/-- Encodes a DIV instruction. -/
def encode_div (h : Header) (i : List Char) (save : List Char) : Except Error Nat :=
  let t1 := strtok save delim
  let t2 := strtok t1.2 delim
  (check (register_lookup h t1.1)).bind fun rs =>
  (check (register_lookup h t2.1)).bind fun rt =>
  (check (opcode_lookup h (some i))).bind fun opcode =>
  (check (funct_lookup h (some i))).bind fun funct =>
  Except.ok (finish (opcode ++ rs ++ rt ++ ['0', '0', '0', '0', '0']
    ++ ['0', '0', '0', '0', '0'] ++ funct))

/-- Encodes a SLL instruction.  The digits of the shift amount go to
`char shamt2[33]`. -/
def encode_sll (h : Header) (i : List Char) (save : List Char) : Except Error Nat :=
  let t1 := strtok save delim
  let t2 := strtok t1.2 delim
  let t3 := strtok t2.2 delim
  (check (register_lookup h t1.1)).bind fun rd =>
  (check (register_lookup h t2.1)).bind fun rt =>
  (check t3.1).bind fun shamt10 =>
  (check (opcode_lookup h (some i))).bind fun opcode =>
  (check (funct_lookup h (some i))).bind fun funct =>
  (atoi shamt10).bind fun value =>
  (char_array 33 (itoa2 value 2)).bind fun shamt2 =>
  Except.ok (finish (opcode ++ ['0', '0', '0', '0', '0'] ++ rt ++ rd
    ++ shamt2.drop 27 ++ funct))

/-- Encodes a SRL instruction.  The digits of the shift amount go to
`char shamt2[33]`. -/
def encode_srl (h : Header) (i : List Char) (save : List Char) : Except Error Nat :=
  let t1 := strtok save delim
  let t2 := strtok t1.2 delim
  let t3 := strtok t2.2 delim
  (check (register_lookup h t1.1)).bind fun rd =>
  (check (register_lookup h t2.1)).bind fun rt =>
  (check t3.1).bind fun shamt10 =>
  (check (opcode_lookup h (some i))).bind fun opcode =>
  (check (funct_lookup h (some i))).bind fun funct =>
  (atoi shamt10).bind fun value =>
  (char_array 33 (itoa2 value 2)).bind fun shamt2 =>
  Except.ok (finish (opcode ++ ['0', '0', '0', '0', '0'] ++ rt ++ rd
    ++ shamt2.drop 27 ++ funct))

/-- Encodes a JR instruction. -/
def encode_jr (h : Header) (i : List Char) (save : List Char) : Except Error Nat :=
  let t1 := strtok save delim
  (check (register_lookup h t1.1)).bind fun rs =>
  (check (opcode_lookup h (some i))).bind fun opcode =>
  (check (funct_lookup h (some i))).bind fun funct =>
  Except.ok (finish (opcode ++ rs ++ ['0', '0', '0', '0', '0']
    ++ ['0', '0', '0', '0', '0'] ++ ['0', '0', '0', '0', '0'] ++ funct))

/-- Encodes a generic I instruction.  The digits of the immediate go to
`char branch2[33]`. -/
def encode_i_instruction (h : Header) (i : List Char) (save : List Char) :
    Except Error Nat :=
  let t1 := strtok save delim
  let t2 := strtok t1.2 delim
  let t3 := strtok t2.2 delim
  (check (register_lookup h t1.1)).bind fun rt =>
  (check (register_lookup h t2.1)).bind fun rs =>
  (check t3.1).bind fun branch10 =>
  (check (opcode_lookup h (some i))).bind fun opcode =>
  (atoi branch10).bind fun value =>
  (char_array 33 (itoa2 value 2)).bind fun branch2 =>
  Except.ok (finish (opcode ++ rs ++ rt ++ branch2.drop 16))

/-- Encodes an LW instruction.  The digits of the offset go to
`char branch2[33]`. -/
def encode_lw (h : Header) (i : List Char) (save : List Char) : Except Error Nat :=
  let t1 := strtok save delim
  let t2 := strtok t1.2 delim
  let t3 := strtok t2.2 delim
  (check (register_lookup h t1.1)).bind fun rt =>
  (check t2.1).bind fun branch10 =>
  (check (register_lookup h t3.1)).bind fun rs =>
  (check (opcode_lookup h (some i))).bind fun opcode =>
  (atoi branch10).bind fun value =>
  (char_array 33 (itoa2 value 2)).bind fun branch2 =>
  Except.ok (finish (opcode ++ rs ++ rt ++ branch2.drop 16))

/-- Encodes an SW instruction.  The digits of the offset go to
`char branch2[33]`. -/
def encode_sw (h : Header) (i : List Char) (save : List Char) : Except Error Nat :=
  let t1 := strtok save delim
  let t2 := strtok t1.2 delim
  let t3 := strtok t2.2 delim
  (check (register_lookup h t1.1)).bind fun rt =>
  (check t2.1).bind fun branch10 =>
  (check (register_lookup h t3.1)).bind fun rs =>
  (check (opcode_lookup h (some i))).bind fun opcode =>
  (atoi branch10).bind fun value =>
  (char_array 33 (itoa2 value 2)).bind fun branch2 =>
  Except.ok (finish (opcode ++ rs ++ rt ++ branch2.drop 16))

/-- Encodes a generic J instruction.  The digits of the address go to
`char addr2[32]`, one character short of the 32 digits and the NUL that `itoa2`
writes. -/
def encode_j_instruction (h : Header) (i : List Char) (save : List Char) :
    Except Error Nat :=
  let t1 := strtok save delim
  (check t1.1).bind fun addr10 =>
  (check (opcode_lookup h (some i))).bind fun opcode =>
  (atoi addr10).bind fun value =>
  (char_array 32 (itoa2 value 2)).bind fun addr2 =>
  Except.ok (finish (opcode ++ addr2.drop 6))

/-- Encodes the ADD instruction. -/
def encode_add (h : Header) (i : List Char) (save : List Char) : Except Error Nat :=
  encode_r_instruction h i save

/-- Encodes the SUB instruction. -/
def encode_sub (h : Header) (i : List Char) (save : List Char) : Except Error Nat :=
  encode_r_instruction h i save

/-- Encodes the AND instruction. -/
def encode_and (h : Header) (i : List Char) (save : List Char) : Except Error Nat :=
  encode_r_instruction h i save

/-- Encodes the OR instruction. -/
def encode_or (h : Header) (i : List Char) (save : List Char) : Except Error Nat :=
  encode_r_instruction h i save

/-- Encodes the XOR instruction. -/
def encode_xor (h : Header) (i : List Char) (save : List Char) : Except Error Nat :=
  encode_r_instruction h i save

/-- Encodes the NOR instruction. -/
def encode_nor (h : Header) (i : List Char) (save : List Char) : Except Error Nat :=
  encode_r_instruction h i save

/-- Encodes the SLT instruction. -/
def encode_slt (h : Header) (i : List Char) (save : List Char) : Except Error Nat :=
  encode_r_instruction h i save

/-- Encodes the ADDI instruction. -/
def encode_addi (h : Header) (i : List Char) (save : List Char) : Except Error Nat :=
  encode_i_instruction h i save

/-- Encodes the ANDI instruction. -/
def encode_andi (h : Header) (i : List Char) (save : List Char) : Except Error Nat :=
  encode_i_instruction h i save

/-- Encodes the ORI instruction. -/
def encode_ori (h : Header) (i : List Char) (save : List Char) : Except Error Nat :=
  encode_i_instruction h i save

/-- Encodes the SLTI instruction. -/
def encode_slti (h : Header) (i : List Char) (save : List Char) : Except Error Nat :=
  encode_i_instruction h i save

/-- Encodes the BEQ instruction. -/
def encode_beq (h : Header) (i : List Char) (save : List Char) : Except Error Nat :=
  encode_i_instruction h i save

/-- Encodes the BNE instruction. -/
def encode_bne (h : Header) (i : List Char) (save : List Char) : Except Error Nat :=
  encode_i_instruction h i save

/-- Encodes the J instruction. -/
def encode_j (h : Header) (i : List Char) (save : List Char) : Except Error Nat :=
  encode_j_instruction h i save

/-- Encodes the JAL instruction. -/
def encode_jal (h : Header) (i : List Char) (save : List Char) : Except Error Nat :=
  encode_j_instruction h i save

/-- The call `instructions[j].encode(token)` through the function pointer. -/
def call (h : Header) (f : Encoder) (i : List Char) (save : List Char) :
    Except Error Nat :=
  match f with
  | .encode_add => encode_add h i save
  | .encode_addi => encode_addi h i save
  | .encode_sub => encode_sub h i save
  | .encode_mult => encode_mult h i save
  | .encode_div => encode_div h i save
  | .encode_and => encode_and h i save
  | .encode_andi => encode_andi h i save
  | .encode_or => encode_or h i save
  | .encode_ori => encode_ori h i save
  | .encode_xor => encode_xor h i save
  | .encode_nor => encode_nor h i save
  | .encode_slt => encode_slt h i save
  | .encode_slti => encode_slti h i save
  | .encode_sll => encode_sll h i save
  | .encode_srl => encode_srl h i save
  | .encode_lw => encode_lw h i save
  | .encode_sw => encode_sw h i save
  | .encode_beq => encode_beq h i save
  | .encode_bne => encode_bne h i save
  | .encode_j => encode_j h i save
  | .encode_jr => encode_jr h i save
  | .encode_jal => encode_jal h i save

/-- Encodes an assembly command.  The result `instr` is 0 until the encoding
function of an entry returns; on an unknown command `error` prints its warning
and the function returns `instr`, still 0. -/
def arch_mips32_encode (h : Header) (asmcmd : List Char) : Except Error Nat :=
  let t := strtok (strncpy asmcmd 80) delim
  match t.1 with
  | none => Except.ok 0
  | some token =>
    match (instructions h).find? (fun e => token = e.name) with
    | some e => call h e.encode token t.2
    | none =>
      let _warning := error "unknown command"
      Except.ok 0

/-! ### The buffer `instr` of the builders

Each builder ends with `instr[32] = 0; ret = atoi32(instr)`.  The functions
below are the builders up to that point: they return the text in `instr` after
the last `strcat`. -/

/-- The text `encode_r_instruction` assembles. -/
def encode_r_instruction_instr (h : Header) (i : List Char) (save : List Char) :
    Except Error (List Char) :=
  let t1 := strtok save delim
  let t2 := strtok t1.2 delim
  let t3 := strtok t2.2 delim
  (check (register_lookup h t1.1)).bind fun rd =>
  (check (register_lookup h t2.1)).bind fun rs =>
  (check (register_lookup h t3.1)).bind fun rt =>
  (check (opcode_lookup h (some i))).bind fun opcode =>
  (check (funct_lookup h (some i))).bind fun funct =>
  Except.ok (opcode ++ rs ++ rt ++ rd ++ ['0', '0', '0', '0', '0'] ++ funct)

/-- The text `encode_mult` and `encode_div` assemble. -/
def encode_mult_instr (h : Header) (i : List Char) (save : List Char) :
    Except Error (List Char) :=
  let t1 := strtok save delim
  let t2 := strtok t1.2 delim
  (check (register_lookup h t1.1)).bind fun rs =>
  (check (register_lookup h t2.1)).bind fun rt =>
  (check (opcode_lookup h (some i))).bind fun opcode =>
  (check (funct_lookup h (some i))).bind fun funct =>
  Except.ok (opcode ++ rs ++ rt ++ ['0', '0', '0', '0', '0']
    ++ ['0', '0', '0', '0', '0'] ++ funct)

/-- The text `encode_sll` and `encode_srl` assemble. -/
def encode_sll_instr (h : Header) (i : List Char) (save : List Char) :
    Except Error (List Char) :=
  let t1 := strtok save delim
  let t2 := strtok t1.2 delim
  let t3 := strtok t2.2 delim
  (check (register_lookup h t1.1)).bind fun rd =>
  (check (register_lookup h t2.1)).bind fun rt =>
  (check t3.1).bind fun shamt10 =>
  (check (opcode_lookup h (some i))).bind fun opcode =>
  (check (funct_lookup h (some i))).bind fun funct =>
  (atoi shamt10).bind fun value =>
  (char_array 33 (itoa2 value 2)).bind fun shamt2 =>
  Except.ok (opcode ++ ['0', '0', '0', '0', '0'] ++ rt ++ rd
    ++ shamt2.drop 27 ++ funct)

/-- The text `encode_jr` assembles. -/
def encode_jr_instr (h : Header) (i : List Char) (save : List Char) :
    Except Error (List Char) :=
  let t1 := strtok save delim
  (check (register_lookup h t1.1)).bind fun rs =>
  (check (opcode_lookup h (some i))).bind fun opcode =>
  (check (funct_lookup h (some i))).bind fun funct =>
  Except.ok (opcode ++ rs ++ ['0', '0', '0', '0', '0']
    ++ ['0', '0', '0', '0', '0'] ++ ['0', '0', '0', '0', '0'] ++ funct)

/-- The text `encode_i_instruction` assembles. -/
def encode_i_instruction_instr (h : Header) (i : List Char) (save : List Char) :
    Except Error (List Char) :=
  let t1 := strtok save delim
  let t2 := strtok t1.2 delim
  let t3 := strtok t2.2 delim
  (check (register_lookup h t1.1)).bind fun rt =>
  (check (register_lookup h t2.1)).bind fun rs =>
  (check t3.1).bind fun branch10 =>
  (check (opcode_lookup h (some i))).bind fun opcode =>
  (atoi branch10).bind fun value =>
  (char_array 33 (itoa2 value 2)).bind fun branch2 =>
  Except.ok (opcode ++ rs ++ rt ++ branch2.drop 16)

/-- The text `encode_lw` and `encode_sw` assemble. -/
def encode_lw_instr (h : Header) (i : List Char) (save : List Char) :
    Except Error (List Char) :=
  let t1 := strtok save delim
  let t2 := strtok t1.2 delim
  let t3 := strtok t2.2 delim
  (check (register_lookup h t1.1)).bind fun rt =>
  (check t2.1).bind fun branch10 =>
  (check (register_lookup h t3.1)).bind fun rs =>
  (check (opcode_lookup h (some i))).bind fun opcode =>
  (atoi branch10).bind fun value =>
  (char_array 33 (itoa2 value 2)).bind fun branch2 =>
  Except.ok (opcode ++ rs ++ rt ++ branch2.drop 16)

/-- The text `encode_j_instruction` assembles. -/
def encode_j_instruction_instr (h : Header) (i : List Char) (save : List Char) :
    Except Error (List Char) :=
  let t1 := strtok save delim
  (check t1.1).bind fun addr10 =>
  (check (opcode_lookup h (some i))).bind fun opcode =>
  (atoi addr10).bind fun value =>
  (char_array 32 (itoa2 value 2)).bind fun addr2 =>
  Except.ok (opcode ++ addr2.drop 6)

/-- The text the encoding function of an entry assembles. -/
def call_instr (h : Header) (f : Encoder) (i : List Char) (save : List Char) :
    Except Error (List Char) :=
  match f with
  | .encode_add => encode_r_instruction_instr h i save
  | .encode_addi => encode_i_instruction_instr h i save
  | .encode_sub => encode_r_instruction_instr h i save
  | .encode_mult => encode_mult_instr h i save
  | .encode_div => encode_mult_instr h i save
  | .encode_and => encode_r_instruction_instr h i save
  | .encode_andi => encode_i_instruction_instr h i save
  | .encode_or => encode_r_instruction_instr h i save
  | .encode_ori => encode_i_instruction_instr h i save
  | .encode_xor => encode_r_instruction_instr h i save
  | .encode_nor => encode_r_instruction_instr h i save
  | .encode_slt => encode_r_instruction_instr h i save
  | .encode_slti => encode_i_instruction_instr h i save
  | .encode_sll => encode_sll_instr h i save
  | .encode_srl => encode_sll_instr h i save
  | .encode_lw => encode_lw_instr h i save
  | .encode_sw => encode_lw_instr h i save
  | .encode_beq => encode_i_instruction_instr h i save
  | .encode_bne => encode_i_instruction_instr h i save
  | .encode_j => encode_j_instruction_instr h i save
  | .encode_jr => encode_jr_instr h i save
  | .encode_jal => encode_j_instruction_instr h i save

/-! ## `src/vmachine/engine.c` -/

/-- Modelled from the spec: `itoa` of `utils.h` is missing from the sources (the
specification counts "decimal↔binary string conversion" among the helpers).  It
writes the text of `value` in the radix `base`, without padding, with a minus
sign for a negative value. -/
def itoa (value : Int) (base : Nat) : List Char :=
  if value < 0 then '-' :: Nat.toDigits base value.natAbs
  else Nat.toDigits base value.natAbs

/-- Modelled from the spec: `substring` of `utils.h` is missing from the sources
("substring extraction").  `select` asks for the positions 0..5, 6..10, 11..15,
16..20, 21..25 and 26..31, the six fields of a word: both bounds are inclusive.
Positions past the end of the text yield nothing. -/
def substring (s : List Char) (first last : Nat) : List Char :=
  (s.drop first).take (last + 1 - first)

/-- Modelled from the spec: `equals` of `utils.h` is missing from the sources;
equality of two strings. -/
def equals (a b : List Char) : Bool := a == b

/-- The record `R_instruction` of the engine. -/
structure R_instruction where
  opcode : List Char
  rs : List Char
  rt : List Char
  rd : List Char
  shamt : List Char
  funct : List Char
deriving DecidableEq, Repr

/-- The translator `r_translator`: its procedures are empty or print; the record
is left as it is. -/
def r_translator (r : R_instruction) : R_instruction := r

/-- Select type of instruction.  The global `r_inst` (`none` for the null
pointer) is passed in and out. -/
def select (h : Header) (i : List Char) (r_inst : Option R_instruction) :
    Option R_instruction :=
  let opcode := substring i 0 5
  if equals opcode h.R_OPCODE then
    some (r_translator
      { opcode := opcode
        rs := substring i 6 10
        rt := substring i 11 15
        rd := substring i 16 20
        shamt := substring i 21 25
        funct := substring i 26 31 })
  else r_inst

/-- The conversion of a `uint32_t` argument to the `int` parameter of `itoa`. -/
def to_int (w : Nat) : Int :=
  if w % 2 ^ 32 < 2 ^ 31 then (w % 2 ^ 32 : Nat) else ((w % 2 ^ 32 : Nat) : Int) - 2 ^ 32

/-- The function `engine_run`: the returned word and the global `r_inst` after
the call. -/
def engine_run (h : Header) (instruction : Nat) (r_inst : Option R_instruction) :
    Nat × Option R_instruction :=
  let string_instruction := itoa (to_int instruction) 10
  (instruction, select h string_instruction r_inst)

/-! ## `include/vmachine/memory.h` and `include/vmachine/cache.h` -/

/-- The failure of a memory access, as the specification names it. -/
inductive MemoryError
  | OutOfBounds
deriving DecidableEq, Repr

/-- Modelled from the spec: `memory.h` declares the class `Memory`, with the
fields `size_` and `data`; its member functions are missing from the sources.
"One word at one address in a fixed-size, word-addressable array; size set once
at construction": `data` holds `size_` words.  (The comments of the header count
the size in bytes, the specification the capacity in words.) -/
structure Memory where
  size_ : Nat
  data : List Nat
  data_size : data.length = size_

/-- Modelled from the spec: the constructor `Memory(unsigned size)`, "construct
with a fixed capacity". -/
def Memory.init (size : Nat) : Memory :=
  ⟨size, List.replicate size 0, List.length_replicate size 0⟩

/-- Modelled from the spec: `unsigned read(unsigned addr)`; "`read`/`write`
require `addr` within `[0, capacity)`; out-of-range access fails with
`OutOfBounds`". -/
def Memory.read (m : Memory) (addr : Nat) : Except MemoryError Nat :=
  if addr < m.size_ then Except.ok (m.data.getD addr 0)
  else Except.error MemoryError.OutOfBounds

/-- Modelled from the spec: `void write(unsigned addr, unsigned word)`; the word
is an `unsigned` of 32 bits. -/
def Memory.write (m : Memory) (addr : Nat) (word : Nat) : Except MemoryError Memory :=
  if addr < m.size_ then
    Except.ok ⟨m.size_, m.data.set addr (word % 2 ^ 32), by
      rw [List.length_set]
      exact m.data_size⟩
  else Except.error MemoryError.OutOfBounds

/-- The registers in the order of their table. -/
def Register.all : List Register :=
  [ .ZERO, .AT, .V0, .V1, .A0, .A1, .A2, .A3, .T0, .T1, .T2, .T3, .T4, .T5, .T6, .T7,
    .S0, .S1, .S2, .S3, .S4, .S5, .S6, .S7, .T8, .T9, .K0, .K1, .GP, .SP, .FP, .RA ]

/-- The mnemonics in the order of their table. -/
def Mnemonic.all : List Mnemonic :=
  [ .ADD, .ADDI, .SUB, .MULT, .DIV, .AND, .ANDI, .OR, .ORI, .XOR, .NOR, .SLT, .SLTI,
    .SLL, .SRL, .LW, .SW, .BEQ, .BNE, .J, .JR, .JAL ]

/-- The mnemonics whose entry has a function code (the others have `""`). -/
def has_funct (m : Mnemonic) : Bool :=
  match m with
  | .ADD => true
  | .SUB => true
  | .MULT => true
  | .DIV => true
  | .AND => true
  | .OR => true
  | .XOR => true
  | .NOR => true
  | .SLT => true
  | .SLL => true
  | .SRL => true
  | .JR => true
  | _ => false

/-- A token: text that is not empty and holds no delimiter. -/
def is_token (t : List Char) : Bool :=
  !t.isEmpty && t.all (fun c => !delim.contains c)

/-- What the sources rely on in the headers: the `_STR` macros are the binary
text, of the width of their field, of the numeric macros (the function codes
for the mnemonics that have one); the names are pairwise distinct tokens of at
most 8 characters (the longest name of the specification, `zero`, has 4). -/
structure Header.consistent (h : Header) : Prop where
  reg_names : (Register.all.map h.REG_x_NAME).Nodup
  reg_tokens : ∀ r, is_token (h.REG_x_NAME r) = true ∧ (h.REG_x_NAME r).length ≤ 8
  reg_codes : ∀ r, h.REG_x_NUM r < 32 ∧ h.REG_x_NUM_STR r = to_base 2 5 (h.REG_x_NUM r)
  inst_names : (Mnemonic.all.map h.INST_NAME_x).Nodup
  inst_tokens : ∀ m, is_token (h.INST_NAME_x m) = true ∧ (h.INST_NAME_x m).length ≤ 8
  opcodes : ∀ m, h.INST_x_OPCODE m < 64 ∧
    h.INST_x_OPCODE_STR m = to_base 2 6 (h.INST_x_OPCODE m)
  functs : ∀ m, has_funct m = true → h.INST_x_FUNCT m < 64 ∧
    h.INST_x_FUNCT_STR m = to_base 2 6 (h.INST_x_FUNCT m)

/-- Modelled from the spec: the headers `asm/regs.h` and `asm/inst.h` are missing
from the sources.  The register names are those of the specification ("`s0`..`s7`,
`t0`..`t9`, `a0`..`a3`, `v0`,`v1`, `zero`,`at`,`gp`,`sp`,`fp`,`ra`,`k0`,`k1`"), their
codes "covering 0–31" in the order of the table; the mnemonics are the lower-case
names of the entries; opcodes and function codes are those of MIPS32. -/
def mips32 : Header where
  REG_x_NUM := fun r => match r with
    | .ZERO => 0 | .AT => 1 | .V0 => 2 | .V1 => 3
    | .A0 => 4 | .A1 => 5 | .A2 => 6 | .A3 => 7
    | .T0 => 8 | .T1 => 9 | .T2 => 10 | .T3 => 11
    | .T4 => 12 | .T5 => 13 | .T6 => 14 | .T7 => 15
    | .S0 => 16 | .S1 => 17 | .S2 => 18 | .S3 => 19
    | .S4 => 20 | .S5 => 21 | .S6 => 22 | .S7 => 23
    | .T8 => 24 | .T9 => 25 | .K0 => 26 | .K1 => 27
    | .GP => 28 | .SP => 29 | .FP => 30 | .RA => 31
  REG_x_NUM_STR := fun r => String.toList (match r with
    | .ZERO => "00000" | .AT => "00001" | .V0 => "00010" | .V1 => "00011"
    | .A0 => "00100" | .A1 => "00101" | .A2 => "00110" | .A3 => "00111"
    | .T0 => "01000" | .T1 => "01001" | .T2 => "01010" | .T3 => "01011"
    | .T4 => "01100" | .T5 => "01101" | .T6 => "01110" | .T7 => "01111"
    | .S0 => "10000" | .S1 => "10001" | .S2 => "10010" | .S3 => "10011"
    | .S4 => "10100" | .S5 => "10101" | .S6 => "10110" | .S7 => "10111"
    | .T8 => "11000" | .T9 => "11001" | .K0 => "11010" | .K1 => "11011"
    | .GP => "11100" | .SP => "11101" | .FP => "11110" | .RA => "11111")
  REG_x_NAME := fun r => String.toList (match r with
    | .ZERO => "zero" | .AT => "at" | .V0 => "v0" | .V1 => "v1"
    | .A0 => "a0" | .A1 => "a1" | .A2 => "a2" | .A3 => "a3"
    | .T0 => "t0" | .T1 => "t1" | .T2 => "t2" | .T3 => "t3"
    | .T4 => "t4" | .T5 => "t5" | .T6 => "t6" | .T7 => "t7"
    | .S0 => "s0" | .S1 => "s1" | .S2 => "s2" | .S3 => "s3"
    | .S4 => "s4" | .S5 => "s5" | .S6 => "s6" | .S7 => "s7"
    | .T8 => "t8" | .T9 => "t9" | .K0 => "k0" | .K1 => "k1"
    | .GP => "gp" | .SP => "sp" | .FP => "fp" | .RA => "ra")
  INST_NAME_x := fun m => String.toList (match m with
    | .ADD => "add" | .ADDI => "addi" | .SUB => "sub" | .MULT => "mult"
    | .DIV => "div" | .AND => "and" | .ANDI => "andi" | .OR => "or"
    | .ORI => "ori" | .XOR => "xor" | .NOR => "nor" | .SLT => "slt"
    | .SLTI => "slti" | .SLL => "sll" | .SRL => "srl" | .LW => "lw"
    | .SW => "sw" | .BEQ => "beq" | .BNE => "bne" | .J => "j"
    | .JR => "jr" | .JAL => "jal")
  INST_x_OPCODE := fun m => match m with
    | .ADDI => 8 | .ANDI => 12 | .ORI => 13 | .SLTI => 10 | .LW => 35
    | .SW => 43 | .BEQ => 4 | .BNE => 5 | .J => 2 | .JAL => 3
    | _ => 0
  INST_x_OPCODE_STR := fun m => String.toList (match m with
    | .ADDI => "001000" | .ANDI => "001100" | .ORI => "001101" | .SLTI => "001010"
    | .LW => "100011" | .SW => "101011" | .BEQ => "000100" | .BNE => "000101"
    | .J => "000010" | .JAL => "000011"
    | _ => "000000")
  INST_x_FUNCT := fun m => match m with
    | .ADD => 32 | .SUB => 34 | .MULT => 24 | .DIV => 26 | .AND => 36 | .OR => 37
    | .XOR => 38 | .NOR => 39 | .SLT => 42 | .SLL => 0 | .SRL => 2 | .JR => 8
    | _ => 0
  INST_x_FUNCT_STR := fun m => String.toList (match m with
    | .ADD => "100000" | .SUB => "100010" | .MULT => "011000" | .DIV => "011010"
    | .AND => "100100" | .OR => "100101" | .XOR => "100110" | .NOR => "100111"
    | .SLT => "101010" | .SLL => "000000" | .SRL => "000010" | .JR => "001000"
    | _ => "000000")
  R_OPCODE := String.toList "000000"

/-- The decimal text of a natural number. -/
def decimal (n : Nat) : List Char := (toString n).toList

/-- The entry of a mnemonic in the instruction table. -/
def entry (h : Header) (m : Mnemonic) : inst :=
  match m with
  | .ADD => ⟨h.INST_NAME_x .ADD, h.INST_x_OPCODE_STR .ADD, h.INST_x_FUNCT_STR .ADD, .encode_add⟩
  | .ADDI => ⟨h.INST_NAME_x .ADDI, h.INST_x_OPCODE_STR .ADDI, [], .encode_addi⟩
  | .SUB => ⟨h.INST_NAME_x .SUB, h.INST_x_OPCODE_STR .SUB, h.INST_x_FUNCT_STR .SUB, .encode_sub⟩
  | .MULT => ⟨h.INST_NAME_x .MULT, h.INST_x_OPCODE_STR .MULT, h.INST_x_FUNCT_STR .MULT, .encode_mult⟩
  | .DIV => ⟨h.INST_NAME_x .DIV, h.INST_x_OPCODE_STR .DIV, h.INST_x_FUNCT_STR .DIV, .encode_div⟩
  | .AND => ⟨h.INST_NAME_x .AND, h.INST_x_OPCODE_STR .AND, h.INST_x_FUNCT_STR .AND, .encode_and⟩
  | .ANDI => ⟨h.INST_NAME_x .ANDI, h.INST_x_OPCODE_STR .ANDI, [], .encode_andi⟩
  | .OR => ⟨h.INST_NAME_x .OR, h.INST_x_OPCODE_STR .OR, h.INST_x_FUNCT_STR .OR, .encode_or⟩
  | .ORI => ⟨h.INST_NAME_x .ORI, h.INST_x_OPCODE_STR .ORI, [], .encode_ori⟩
  | .XOR => ⟨h.INST_NAME_x .XOR, h.INST_x_OPCODE_STR .XOR, h.INST_x_FUNCT_STR .XOR, .encode_xor⟩
  | .NOR => ⟨h.INST_NAME_x .NOR, h.INST_x_OPCODE_STR .NOR, h.INST_x_FUNCT_STR .NOR, .encode_nor⟩
  | .SLT => ⟨h.INST_NAME_x .SLT, h.INST_x_OPCODE_STR .SLT, h.INST_x_FUNCT_STR .SLT, .encode_slt⟩
  | .SLTI => ⟨h.INST_NAME_x .SLTI, h.INST_x_OPCODE_STR .SLTI, [], .encode_slti⟩
  | .SLL => ⟨h.INST_NAME_x .SLL, h.INST_x_OPCODE_STR .SLL, h.INST_x_FUNCT_STR .SLL, .encode_sll⟩
  | .SRL => ⟨h.INST_NAME_x .SRL, h.INST_x_OPCODE_STR .SRL, h.INST_x_FUNCT_STR .SRL, .encode_srl⟩
  | .LW => ⟨h.INST_NAME_x .LW, h.INST_x_OPCODE_STR .LW, [], .encode_lw⟩
  | .SW => ⟨h.INST_NAME_x .SW, h.INST_x_OPCODE_STR .SW, [], .encode_sw⟩
  | .BEQ => ⟨h.INST_NAME_x .BEQ, h.INST_x_OPCODE_STR .BEQ, [], .encode_beq⟩
  | .BNE => ⟨h.INST_NAME_x .BNE, h.INST_x_OPCODE_STR .BNE, [], .encode_bne⟩
  | .J => ⟨h.INST_NAME_x .J, h.INST_x_OPCODE_STR .J, [], .encode_j⟩
  | .JR => ⟨h.INST_NAME_x .JR, h.INST_x_OPCODE_STR .JR, h.INST_x_FUNCT_STR .JR, .encode_jr⟩
  | .JAL => ⟨h.INST_NAME_x .JAL, h.INST_x_OPCODE_STR .JAL, [], .encode_jal⟩

/-- A decimal digit character. -/
def is_decimal_digit (c : Char) : Bool :=
  (List.range 10).any (fun k => c = Nat.digitChar k)

/-- The tokens of a line: what is left, once the empty pieces are dropped, of
splitting it at the delimiters. -/
def tokens (s : List Char) : List (List Char) :=
  (s.splitOnP (fun c => delim.contains c)).filter (fun t => !t.isEmpty)

/-- The number of operand tokens the builder of a mnemonic reads: its calls of
`strtok`. -/
def operands (m : Mnemonic) : Nat :=
  match m with
  | .MULT => 2
  | .DIV => 2
  | .JR => 1
  | .J => 1
  | .JAL => 1
  | _ => 3

/-- Whether the builder of a mnemonic looks its operand number `k` (from 0) up in
the register table. -/
def reads_register (m : Mnemonic) (k : Nat) : Bool :=
  match m with
  | .J => false
  | .JAL => false
  | .LW => k = 0 || k = 2
  | .SW => k = 0 || k = 2
  | .ADDI => k < 2
  | .ANDI => k < 2
  | .ORI => k < 2
  | .SLTI => k < 2
  | .BEQ => k < 2
  | .BNE => k < 2
  | .SLL => k < 2
  | .SRL => k < 2
  | _ => true

/-- The decimal text of an integer: a minus sign before the text of a negative
one. -/
def decimal_int (i : Int) : List Char :=
  if i < 0 then '-' :: decimal i.natAbs else decimal i.toNat

/-- The sum of the binary digits of a text, each with the weight of its place,
the first character the most significant: `sum of digit_i * 2^(len-1-i)`. -/
def binary_sum (s : List Char) : Nat :=
  ((List.range s.length).map
    (fun i => (if s.getD i '0' = '1' then 1 else 0) * 2 ^ (s.length - 1 - i))).sum

/-- The place, among the operand tokens, of the operand a builder hands to
`atoi`: the immediate of the I builder, the offset of `lw` and `sw`, the shift
amount of `sll` and `srl`, the address of the J builder. -/
def numeric_operand (m : Mnemonic) : Option Nat :=
  match m with
  | .ADDI => some 2
  | .ANDI => some 2
  | .ORI => some 2
  | .SLTI => some 2
  | .BEQ => some 2
  | .BNE => some 2
  | .SLL => some 2
  | .SRL => some 2
  | .LW => some 1
  | .SW => some 1
  | .J => some 0
  | .JAL => some 0
  | _ => none

/-! ## The header of the model -/

/-- The header `mips32` is consistent. -/
theorem mips32_consistent : mips32.consistent := by
  refine ⟨by decide, ?_, ?_, by decide, ?_, ?_, ?_⟩ <;> intro r <;> cases r <;> decide

theorem not_delim_of_token {t : List Char} (ht : is_token t = true) :
    ∀ c ∈ t, delim.contains c = false := by
  intro c hc
  simp only [is_token, Bool.and_eq_true, List.all_eq_true, Bool.not_eq_true'] at ht
  exact ht.2 c hc

theorem ne_nil_of_token {t : List Char} (ht : is_token t = true) : t ≠ [] := by
  intro h
  subst h
  simp [is_token] at ht

theorem takeWhile_append_stop {p : Char → Bool} (t : List Char) (c : Char) (s : List Char)
    (ht : ∀ x ∈ t, p x = true) (hc : p c = false) :
    (t ++ c :: s).takeWhile p = t := by
  induction t with
  | nil => simp [List.takeWhile, hc]
  | cons a as ih =>
    have ha : p a = true := ht a (List.mem_cons_self a as)
    simp only [List.cons_append, List.takeWhile_cons, ha, if_true]
    rw [ih (fun x hx => ht x (List.mem_cons_of_mem a hx))]

theorem dropWhile_append_stop {p : Char → Bool} (t : List Char) (c : Char) (s : List Char)
    (ht : ∀ x ∈ t, p x = true) (hc : p c = false) :
    (t ++ c :: s).dropWhile p = c :: s := by
  induction t with
  | nil => simp [List.dropWhile, hc]
  | cons a as ih =>
    have ha : p a = true := ht a (List.mem_cons_self a as)
    simp only [List.cons_append, List.dropWhile_cons, ha, if_true]
    exact ih (fun x hx => ht x (List.mem_cons_of_mem a hx))

theorem strtok_nil (d : List Char) : strtok [] d = (none, []) := rfl

/-- A leading delimiter is skipped. -/
theorem strtok_skip (c : Char) (s : List Char) (hc : delim.contains c = true) :
    strtok (c :: s) delim = strtok s delim := by
  simp only [strtok, List.dropWhile_cons, hc, if_true]

/-- A token followed by a delimiter is returned, and the scan resumes after the
delimiter. -/
theorem strtok_token_delim (t : List Char) (c : Char) (s : List Char)
    (ht : is_token t = true) (hc : delim.contains c = true) :
    strtok (t ++ c :: s) delim = (some t, s) := by
  have hnd := not_delim_of_token ht
  obtain ⟨a, as, rfl⟩ := List.exists_cons_of_ne_nil (ne_nil_of_token ht)
  have ha : delim.contains a = false := hnd a (List.mem_cons_self a as)
  have h1 : ((a :: as) ++ c :: s).takeWhile (fun x => !delim.contains x) = a :: as :=
    takeWhile_append_stop _ c s (fun x hx => by rw [hnd x hx]; rfl) (by rw [hc]; rfl)
  have h2 : ((a :: as) ++ c :: s).dropWhile (fun x => !delim.contains x) = c :: s :=
    dropWhile_append_stop _ c s (fun x hx => by rw [hnd x hx]; rfl) (by rw [hc]; rfl)
  have h0 : ((a :: as) ++ c :: s).dropWhile (fun x => delim.contains x)
      = a :: (as ++ c :: s) := by
    simp only [List.cons_append, List.dropWhile_cons, ha]
    simp
  simp only [strtok, h0]
  rw [show a :: (as ++ c :: s) = (a :: as) ++ c :: s from rfl, h1, h2]
  rfl

/-- A token at the end of the line is returned, and nothing is left. -/
theorem strtok_token (t : List Char) (ht : is_token t = true) :
    strtok t delim = (some t, []) := by
  have hnd := not_delim_of_token ht
  obtain ⟨a, as, rfl⟩ := List.exists_cons_of_ne_nil (ne_nil_of_token ht)
  have ha : delim.contains a = false := hnd a (List.mem_cons_self a as)
  have h1 : (a :: as).takeWhile (fun x => !delim.contains x) = a :: as := by
    rw [List.takeWhile_eq_self_iff]
    intro x hx
    rw [hnd x hx]; rfl
  have h2 : (a :: as).dropWhile (fun x => !delim.contains x) = [] := by
    rw [List.dropWhile_eq_nil_iff]
    intro x hx
    rw [hnd x hx]; rfl
  have h0 : (a :: as).dropWhile (fun x => delim.contains x) = a :: as := by
    simp only [List.dropWhile_cons, ha]
    simp
  simp only [strtok, h0, h1, h2]
  rfl

/-! ## `strtok` and the tokens of a line -/

theorem tokens_nil : tokens [] = [] := by
  simp [tokens, List.splitOnP_nil]

theorem tokens_cons_delim (c : Char) (s : List Char) (hc : delim.contains c = true) :
    tokens (c :: s) = tokens s := by
  simp only [tokens, List.splitOnP_cons, hc, if_true, List.filter_cons, List.isEmpty_nil,
    Bool.not_true, Bool.false_eq_true, if_false]

/-- The first piece of a split is the text before the first delimiter; the
tokens among the other pieces are the tokens of the text after that delimiter. -/
theorem splitOnP_delim (s : List Char) :
    (s.splitOnP (fun c => delim.contains c)).head?
        = some (s.takeWhile (fun x => !delim.contains x))
      ∧ ((s.splitOnP (fun c => delim.contains c)).tail).filter (fun t => !t.isEmpty)
        = tokens ((s.dropWhile (fun x => !delim.contains x)).drop 1) := by
  induction s with
  | nil => simp [List.splitOnP_nil, tokens_nil]
  | cons d ds ih =>
    by_cases hd : delim.contains d = true
    · simp only [List.splitOnP_cons, hd, if_true, List.head?_cons, List.tail_cons,
        List.takeWhile_cons, List.dropWhile_cons, Bool.not_true, Bool.false_eq_true, if_false,
        List.drop_succ_cons, List.drop_zero]
      exact ⟨trivial, rfl⟩
    · have hd2 : delim.contains d = false := by simpa using hd
      obtain ⟨x, xs, hx⟩ := List.exists_cons_of_ne_nil
        (List.splitOnP_ne_nil (fun c => delim.contains c) ds)
      rw [hx] at ih
      simp only [List.head?_cons, Option.some.injEq, List.tail_cons] at ih
      simp only [List.splitOnP_cons, hd2, Bool.false_eq_true, if_false, hx,
        List.modifyHead_cons, List.head?_cons, List.tail_cons, List.takeWhile_cons,
        List.dropWhile_cons, Bool.not_false, if_true, ih.1]
      exact ⟨trivial, ih.2⟩

theorem tokens_cons_token (c : Char) (s : List Char) (hc : delim.contains c = false) :
    tokens (c :: s) = (c :: s.takeWhile (fun x => !delim.contains x))
      :: tokens ((s.dropWhile (fun x => !delim.contains x)).drop 1) := by
  obtain ⟨x, xs, hx⟩ := List.exists_cons_of_ne_nil
    (List.splitOnP_ne_nil (fun c => delim.contains c) s)
  have hs := splitOnP_delim s
  rw [hx] at hs
  simp only [List.head?_cons, Option.some.injEq, List.tail_cons] at hs
  rw [← hs.2, ← hs.1]
  simp only [tokens, List.splitOnP_cons, hc, Bool.false_eq_true, if_false, hx,
    List.modifyHead_cons, List.filter_cons, List.isEmpty_cons, Bool.not_false, if_true]

/-- What `strtok` returns is the first token of the text, `NULL` when there is
none; the tokens of what it leaves are the other tokens. -/
theorem strtok_tokens (s : List Char) :
    (strtok s delim).1 = (tokens s).head? ∧ tokens (strtok s delim).2 = (tokens s).tail := by
  induction s with
  | nil => simp [strtok_nil, tokens_nil]
  | cons c cs ih =>
    by_cases hc : delim.contains c = true
    · rw [strtok_skip c cs hc, tokens_cons_delim c cs hc]
      exact ih
    · have hc2 : delim.contains c = false := by simpa using hc
      rw [tokens_cons_token c cs hc2]
      simp only [strtok, List.dropWhile_cons, hc2, Bool.false_eq_true, if_false,
        List.takeWhile_cons, Bool.not_false, if_true, List.head?_cons, List.tail_cons]
      exact ⟨trivial, trivial⟩

theorem strtok_fst (s : List Char) : (strtok s delim).1 = (tokens s).head? :=
  (strtok_tokens s).1

theorem strtok_snd (s : List Char) : tokens (strtok s delim).2 = (tokens s).tail :=
  (strtok_tokens s).2

/-! ## Facts about the tables -/

/-- In a list whose keys are pairwise distinct, the search for the key of a
member finds that member. -/
theorem find_key {α β : Type} [DecidableEq β] (key : α → β) (l : List α)
    (hn : (l.map key).Nodup) (a : α) (ha : a ∈ l) :
    l.find? (fun x => decide (key x = key a)) = some a := by
  induction l with
  | nil => cases ha
  | cons b bs ih =>
    rw [List.map_cons, List.nodup_cons] at hn
    by_cases hb : key b = key a
    · rcases List.mem_cons.mp ha with rfl | hmem
      · simp
      · exact absurd (hb ▸ List.mem_map_of_mem key hmem) hn.1
    · rcases List.mem_cons.mp ha with rfl | hmem
      · exact absurd rfl hb
      · rw [List.find?_cons_of_neg _ (by simpa using hb)]
        exact ih hn.2 hmem

theorem register_mem_all (r : Register) : r ∈ Register.all := by
  cases r <;> simp [Register.all]

theorem mnemonic_mem_all (m : Mnemonic) : m ∈ Mnemonic.all := by
  cases m <;> simp [Mnemonic.all]

theorem registers_eq (h : Header) :
    registers h = Register.all.map (fun r => ⟨h.REG_x_NUM_STR r, h.REG_x_NAME r⟩) := rfl

theorem instructions_eq (h : Header) : instructions h = Mnemonic.all.map (entry h) := rfl

theorem entry_name (h : Header) (m : Mnemonic) : (entry h m).name = h.INST_NAME_x m := by
  cases m <;> rfl

theorem entry_opcode (h : Header) (m : Mnemonic) :
    (entry h m).opcode = h.INST_x_OPCODE_STR m := by
  cases m <;> rfl

/-- The name of a register is found in the table, with the code of that
register. -/
theorem register_lookup_name (h : Header) (hc : h.consistent) (r : Register) :
    register_lookup h (some (h.REG_x_NAME r)) = some (h.REG_x_NUM_STR r) := by
  have hf := find_key h.REG_x_NAME Register.all hc.reg_names r (register_mem_all r)
  simp only [register_lookup, registers_eq, List.find?_map, Function.comp_def, hf,
    Option.map_some']

/-- The name of a mnemonic is found in the table, at the entry of that
mnemonic. -/
theorem instructions_find (h : Header) (hc : h.consistent) (m : Mnemonic) :
    (instructions h).find? (fun e => decide (e.name = h.INST_NAME_x m)) = some (entry h m) := by
  have hn : (Mnemonic.all.map (fun x => (entry h x).name)).Nodup := by
    have := hc.inst_names
    simpa only [entry_name] using this
  have hf := find_key (fun x => (entry h x).name) Mnemonic.all hn m (mnemonic_mem_all m)
  simp only [entry_name] at hf
  simp only [instructions_eq, List.find?_map, Function.comp_def, entry_name, hf,
    Option.map_some']

theorem instructions_find_token (h : Header) (hc : h.consistent) (m : Mnemonic) :
    (instructions h).find? (fun e => decide (h.INST_NAME_x m = e.name)) = some (entry h m) := by
  rw [← instructions_find h hc m]
  congr 1
  funext e
  exact decide_eq_decide.mpr eq_comm

theorem entry_funct (h : Header) (m : Mnemonic) (hm : has_funct m = true) :
    (entry h m).funct = h.INST_x_FUNCT_STR m := by
  cases m <;> first | rfl | exact absurd hm (by decide)

theorem opcode_lookup_name (h : Header) (hc : h.consistent) (m : Mnemonic) :
    opcode_lookup h (some (h.INST_NAME_x m)) = some (h.INST_x_OPCODE_STR m) := by
  simp only [opcode_lookup, instructions_find h hc m, Option.map_some', entry_opcode]

theorem funct_lookup_name (h : Header) (hc : h.consistent) (m : Mnemonic) :
    funct_lookup h (some (h.INST_NAME_x m)) = some (entry h m).funct := by
  simp only [funct_lookup, instructions_find h hc m, Option.map_some']

/-! ## Facts about binary text -/

theorem length_to_base (b : Nat) (w v : Nat) : (to_base b w v).length = w := by
  induction w generalizing v with
  | zero => rfl
  | succ w ih => simp [to_base, ih]

/-- The digits split at any position: the high `k` digits, then the low `w`. -/
theorem to_base_add (b : Nat) (k w v : Nat) :
    to_base b (k + w) v = to_base b k (v / b ^ w) ++ to_base b w v := by
  induction w generalizing v with
  | zero => simp [to_base]
  | succ w ih =>
    rw [← Nat.add_assoc, to_base, to_base, ih (v / b), ← List.append_assoc,
      Nat.div_div_eq_div_mul, Nat.pow_succ, Nat.mul_comm b]

theorem to_base_drop (b : Nat) (k w v : Nat) :
    (to_base b (k + w) v).drop k = to_base b w v := by
  rw [to_base_add, List.drop_left' (length_to_base b k _)]

theorem foldl_binary (s : List Char) (a : Nat) :
    s.foldl (fun acc c => 2 * acc + (if c = '1' then 1 else 0)) a
      = a * 2 ^ s.length + binary_value s := by
  induction s generalizing a with
  | nil => simp [binary_value]
  | cons c cs ih =>
    simp only [binary_value, List.foldl_cons, List.length_cons]
    rw [ih, ih (2 * 0 + _)]
    ring

theorem binary_value_append (a b : List Char) :
    binary_value (a ++ b) = binary_value a * 2 ^ b.length + binary_value b := by
  rw [binary_value, List.foldl_append, foldl_binary]
  rfl

theorem binary_value_bit (v : Nat) : binary_value [Nat.digitChar (v % 2)] = v % 2 := by
  rcases Nat.mod_two_eq_zero_or_one v with h | h <;> rw [h] <;> rfl

theorem binary_value_to_base (w v : Nat) : binary_value (to_base 2 w v) = v % 2 ^ w := by
  induction w generalizing v with
  | zero => simp [to_base, binary_value, Nat.mod_one]
  | succ w ih =>
    rw [to_base, binary_value_append, ih, binary_value_bit, Nat.pow_succ,
      Nat.mul_comm (2 ^ w) 2, Nat.mod_mul]
    simp only [List.length_singleton, pow_one]
    ring

theorem binary_value_field (w v : Nat) (hv : v < 2 ^ w) :
    binary_value (to_base 2 w v) = v := by
  rw [binary_value_to_base, Nat.mod_eq_of_lt hv]

theorem zeros_eq : (['0', '0', '0', '0', '0'] : List Char) = to_base 2 5 0 := by decide

/-- A field below a word whose lower bits are clear: `|` is `+`. -/
theorem or_field (a k x j : Nat) (hx : x < 2 ^ j) :
    (2 ^ (k + j) * a) ||| (x <<< k) = 2 ^ k * (2 ^ j * a + x) := by
  have hlt : x * 2 ^ k < 2 ^ (k + j) := by
    rw [Nat.pow_add, Nat.mul_comm]
    exact Nat.mul_lt_mul_of_pos_left hx (Nat.two_pow_pos k)
  rw [Nat.shiftLeft_eq, ← Nat.mul_add_lt_is_or hlt, Nat.pow_add]
  ring

/-- The word of an R-format instruction, as a sum. -/
theorem word_r (op rs rt rd sh fn : Nat) (hrs : rs < 32) (hrt : rt < 32) (hrd : rd < 32)
    (hsh : sh < 32) (hfn : fn < 64) :
    (op <<< 26) ||| (rs <<< 21) ||| (rt <<< 16) ||| (rd <<< 11) ||| (sh <<< 6) ||| fn
      = ((((op * 2 ^ 5 + rs) * 2 ^ 5 + rt) * 2 ^ 5 + rd) * 2 ^ 5 + sh) * 2 ^ 6 + fn := by
  have e1 : (op <<< 26) ||| (rs <<< 21) = 2 ^ 21 * (2 ^ 5 * op + rs) := by
    rw [Nat.shiftLeft_eq op, Nat.mul_comm op]
    exact or_field op 21 rs 5 hrs
  have e2 : 2 ^ 21 * (2 ^ 5 * op + rs) ||| (rt <<< 16)
      = 2 ^ 16 * (2 ^ 5 * (2 ^ 5 * op + rs) + rt) := or_field _ 16 rt 5 hrt
  have e3 : 2 ^ 16 * (2 ^ 5 * (2 ^ 5 * op + rs) + rt) ||| (rd <<< 11)
      = 2 ^ 11 * (2 ^ 5 * (2 ^ 5 * (2 ^ 5 * op + rs) + rt) + rd) := or_field _ 11 rd 5 hrd
  have e4 : 2 ^ 11 * (2 ^ 5 * (2 ^ 5 * (2 ^ 5 * op + rs) + rt) + rd) ||| (sh <<< 6)
      = 2 ^ 6 * (2 ^ 5 * (2 ^ 5 * (2 ^ 5 * (2 ^ 5 * op + rs) + rt) + rd) + sh) :=
    or_field _ 6 sh 5 hsh
  rw [e1, e2, e3, e4, ← Nat.mul_add_lt_is_or hfn]
  ring

/-- The word of an I-format instruction, as a sum. -/
theorem word_i (op rs rt imm : Nat) (hrs : rs < 32) (hrt : rt < 32) (himm : imm < 2 ^ 16) :
    (op <<< 26) ||| (rs <<< 21) ||| (rt <<< 16) ||| imm
      = ((op * 2 ^ 5 + rs) * 2 ^ 5 + rt) * 2 ^ 16 + imm := by
  have e1 : (op <<< 26) ||| (rs <<< 21) = 2 ^ 21 * (2 ^ 5 * op + rs) := by
    rw [Nat.shiftLeft_eq op, Nat.mul_comm op]
    exact or_field op 21 rs 5 hrs
  have e2 : 2 ^ 21 * (2 ^ 5 * op + rs) ||| (rt <<< 16)
      = 2 ^ 16 * (2 ^ 5 * (2 ^ 5 * op + rs) + rt) := or_field _ 16 rt 5 hrt
  rw [e1, e2, ← Nat.mul_add_lt_is_or himm]
  ring

/-- The word of a J-format instruction, as a sum. -/
theorem word_j (op addr : Nat) (haddr : addr < 2 ^ 26) :
    (op <<< 26) ||| addr = op * 2 ^ 26 + addr := by
  rw [Nat.shiftLeft_eq, Nat.mul_comm, ← Nat.mul_add_lt_is_or haddr]

/-! ## Facts about decimal text -/

theorem digitChar_digit (k : Nat) (hk : k < 10) :
    (Nat.digitChar k).isDigit = true ∧ (Nat.digitChar k).toNat - 48 = k := by
  interval_cases k <;> decide

theorem digitChar_decimal (k : Nat) (hk : k < 10) :
    is_decimal_digit (Nat.digitChar k) = true := by
  simp only [is_decimal_digit, List.any_eq_true, List.mem_range, decide_eq_true_eq]
  exact ⟨k, hk, rfl⟩

theorem digit_plain (c : Char) (hcd : is_decimal_digit c = true) :
    delim.contains c = false ∧ isspace c = false ∧ c ≠ '-' ∧ c ≠ '+' := by
  simp only [is_decimal_digit, List.any_eq_true, List.mem_range, decide_eq_true_eq] at hcd
  obtain ⟨k, hk, rfl⟩ := hcd
  interval_cases k <;> decide

/-- The accumulator of `Nat.toDigitsCore` stays at the end of what it returns. -/
theorem toDigitsCore_acc (fuel n : Nat) (acc : List Char) :
    Nat.toDigitsCore 10 fuel n acc = Nat.toDigitsCore 10 fuel n [] ++ acc := by
  induction fuel generalizing n acc with
  | zero => rfl
  | succ fuel ih =>
    simp only [Nat.toDigitsCore]
    split
    · rfl
    · rw [ih (n / 10) (Nat.digitChar (n % 10) :: acc), ih (n / 10) [Nat.digitChar (n % 10)],
        List.append_assoc]
      rfl

/-- Any fuel above `n` gives the same digits. -/
theorem toDigitsCore_fuel (f g n : Nat) (acc : List Char) (hf : n < f) (hg : n < g) :
    Nat.toDigitsCore 10 f n acc = Nat.toDigitsCore 10 g n acc := by
  induction f generalizing g n acc with
  | zero => omega
  | succ f ih =>
    obtain ⟨g, rfl⟩ : ∃ k, g = k + 1 := ⟨g - 1, by omega⟩
    simp only [Nat.toDigitsCore]
    split
    · rfl
    · exact ih g (n / 10) _ (by omega) (by omega)

theorem decimal_eq (n : Nat) : decimal n = Nat.toDigits 10 n := rfl

/-- The text of a number below ten is its digit. -/
theorem decimal_small (n : Nat) (hn : n < 10) : decimal n = [Nat.digitChar n] := by
  have h0 : n / 10 = 0 := by omega
  have h1 : n % 10 = n := by omega
  simp [decimal_eq, Nat.toDigits, Nat.toDigitsCore, h0, h1]

/-- The text of a number from ten on is the text of its tenth, then its last
digit. -/
theorem decimal_step (n : Nat) (hn : 10 ≤ n) :
    decimal n = decimal (n / 10) ++ [Nat.digitChar (n % 10)] := by
  have h0 : n / 10 ≠ 0 := by omega
  rw [decimal_eq, decimal_eq, Nat.toDigits, Nat.toDigits, Nat.toDigitsCore, if_neg h0,
    toDigitsCore_acc, toDigitsCore_fuel n (n / 10 + 1) (n / 10) [] (by omega) (by omega)]

/-- The decimal text of `n`: digits, at least one, which `atoi_digits` reads
back as `n`, whatever follows. -/
theorem decimal_digits (n : Nat) :
    decimal n ≠ [] ∧ (∀ c ∈ decimal n, is_decimal_digit c = true) ∧
      ∀ (a : Nat) (rest : List Char),
        atoi_digits a (decimal n ++ rest) = atoi_digits (a * 10 ^ (decimal n).length + n) rest := by
  induction n using Nat.strong_induction_on with
  | _ n ih =>
    have hlt : n % 10 < 10 := Nat.mod_lt n (by decide)
    have hd := digitChar_digit (n % 10) hlt
    by_cases hn : n < 10
    · have h1 : n % 10 = n := by omega
      rw [h1] at hd
      rw [decimal_small n hn]
      refine ⟨by simp, ?_, ?_⟩
      · intro c hcm
        rw [List.mem_singleton.mp hcm]
        exact digitChar_decimal n hn
      · intro a rest
        show atoi_digits a (Nat.digitChar n :: rest) = _
        rw [atoi_digits, if_pos hd.1, hd.2, List.length_singleton, pow_one]
    · obtain ⟨-, hdig, hval⟩ := ih (n / 10) (by omega)
      rw [decimal_step n (by omega)]
      refine ⟨by simp, ?_, ?_⟩
      · intro c hcm
        rcases List.mem_append.mp hcm with hcm | hcm
        · exact hdig c hcm
        · rw [List.mem_singleton.mp hcm]
          exact digitChar_decimal (n % 10) hlt
      · intro a rest
        rw [List.append_assoc, hval]
        show atoi_digits _ (Nat.digitChar (n % 10) :: rest) = _
        rw [atoi_digits, if_pos hd.1, hd.2, List.length_append, List.length_singleton]
        congr 1
        rw [Nat.pow_succ]
        have := Nat.div_add_mod n 10
        nlinarith [this]

theorem atoi_digits_decimal (n : Nat) : atoi_digits 0 (decimal n) = n := by
  have := (decimal_digits n).2.2 0 []
  rw [List.append_nil] at this
  rw [this]
  simp [atoi_digits]

/-- The decimal text of a positive number does not start with `0`. -/
theorem decimal_head (n : Nat) (hpos : 0 < n) :
    ∃ c cs, decimal n = c :: cs ∧ c ≠ '0' := by
  induction n using Nat.strong_induction_on with
  | _ n ih =>
    by_cases hn : n < 10
    · refine ⟨Nat.digitChar n, [], decimal_small n hn, ?_⟩
      interval_cases n <;> decide
    · obtain ⟨c, cs, hcs, hc0⟩ := ih (n / 10) (by omega) (by omega)
      exact ⟨c, cs ++ [Nat.digitChar (n % 10)], by rw [decimal_step n (by omega), hcs]; rfl, hc0⟩

theorem decimal_token (n : Nat) : is_token (decimal n) = true := by
  obtain ⟨hne, hdig, -⟩ := decimal_digits n
  simp only [is_token, Bool.and_eq_true, Bool.not_eq_true', List.isEmpty_eq_false,
    List.all_eq_true]
  exact ⟨hne, fun c hcm => (digit_plain c (hdig c hcm)).1⟩

theorem decimal_length (n : Nat) (hn : n < 2 ^ 32) : (decimal n).length ≤ 10 := by
  have := Nat.repr_length n 10 (by decide) (lt_of_lt_of_le hn (by norm_num))
  exact this

/-- The number `atoi` reads in the decimal text of `n` is `n`. -/
theorem atoi_value_decimal (n : Nat) : atoi_value (decimal n) = (n : Int) := by
  obtain ⟨hne, hdig, -⟩ := decimal_digits n
  obtain ⟨c, cs, hcs⟩ := List.exists_cons_of_ne_nil hne
  obtain ⟨-, h1, h2, h3⟩ := digit_plain c (hdig c (by rw [hcs]; exact List.mem_cons_self c cs))
  simp only [atoi_value, hcs, List.dropWhile_cons, h1, List.head?_cons, Option.some.injEq, h2,
    h3, if_false, Bool.false_eq_true]
  rw [← hcs, atoi_digits_decimal]

/-- Within the range of `int`, `atoi` returns the number it reads. -/
theorem atoi_ok (s : List Char) (hlo : -2 ^ 31 ≤ atoi_value s) (hhi : atoi_value s < 2 ^ 31) :
    atoi s = Except.ok (atoi_value s) := by
  simp only [atoi, hlo, hhi, and_self, if_true]

/-- Out of the range of `int`, the behaviour of `atoi` is undefined. -/
theorem atoi_undefined (s : List Char) (hv : atoi_value s < -2 ^ 31 ∨ 2 ^ 31 ≤ atoi_value s) :
    atoi s = Except.error Error.Undefined := by
  have hn : ¬ (-2 ^ 31 ≤ atoi_value s ∧ atoi_value s < 2 ^ 31) := by
    rintro ⟨h1, h2⟩
    rcases hv with hv | hv <;> omega
  simp only [atoi, hn, if_false]

/-- The function `atoi` reads the decimal text of an `n` in the range of `int`
as `n`. -/
theorem atoi_decimal (n : Nat) (hn : n < 2 ^ 31) : atoi (decimal n) = Except.ok (n : Int) := by
  have hv := atoi_value_decimal n
  rw [atoi_ok _ (by rw [hv]; omega) (by rw [hv]; exact_mod_cast hn), hv]

/-- The 32 digits of `itoa2` and their terminator fit an array of 33
characters. -/
theorem char_array_itoa2 (v : Int) :
    char_array 33 (itoa2 v 2) = Except.ok (itoa2 v 2) := by
  have hl : (itoa2 v 2).length = 32 := by rw [itoa2, length_to_base]
  simp only [char_array, hl, Nat.reduceAdd, le_refl, if_true]

/-- They do not fit an array of 32 characters. -/
theorem char_array_short (v : Int) :
    char_array 32 (itoa2 v 2) = Except.error Error.Undefined := by
  have hl : (itoa2 v 2).length = 32 := by rw [itoa2, length_to_base]
  simp only [char_array, hl, Nat.reduceAdd, Nat.reduceLeDiff, if_false]

/-! ## The builders on well-formed lines -/

theorem finish_r (op rs rt rd sh fn : Nat) (hop : op < 64) (hrs : rs < 32) (hrt : rt < 32)
    (hrd : rd < 32) (hsh : sh < 32) (hfn : fn < 64) :
    finish (to_base 2 6 op ++ to_base 2 5 rs ++ to_base 2 5 rt ++ to_base 2 5 rd
        ++ to_base 2 5 sh ++ to_base 2 6 fn)
      = (op <<< 26) ||| (rs <<< 21) ||| (rt <<< 16) ||| (rd <<< 11) ||| (sh <<< 6) ||| fn := by
  rw [word_r op rs rt rd sh fn hrs hrt hrd hsh hfn, finish, List.take_of_length_le
    (by simp [length_to_base]), atoi32]
  simp only [binary_value_append, length_to_base, binary_value_field 6 op hop,
    binary_value_field 5 rs hrs, binary_value_field 5 rt hrt, binary_value_field 5 rd hrd,
    binary_value_field 5 sh hsh, binary_value_field 6 fn hfn]
  apply Nat.mod_eq_of_lt
  norm_num
  omega

theorem delim_space : delim.contains ' ' = true := by decide

theorem delim_comma : delim.contains ',' = true := by decide

theorem delim_open : delim.contains '(' = true := by decide

theorem delim_close : delim.contains ')' = true := by decide

/-- A line of at most 80 characters that starts with a mnemonic and a space is
handed to the encoder of that mnemonic, with the rest of the line. -/
theorem arch_mips32_encode_line (h : Header) (hc : h.consistent) (m : Mnemonic)
    (rest : List Char) (hlen : (h.INST_NAME_x m ++ ' ' :: rest).length ≤ 80) :
    arch_mips32_encode h (h.INST_NAME_x m ++ ' ' :: rest)
      = call h (entry h m).encode (h.INST_NAME_x m) rest := by
  simp only [arch_mips32_encode, strncpy, List.take_of_length_le hlen,
    strtok_token_delim _ _ _ (hc.inst_tokens m).1 delim_space,
    instructions_find_token h hc m]

/-- The generic R builder on `rd, rs, rt`. -/
theorem encode_r_instruction_ok (h : Header) (hc : h.consistent) (m : Mnemonic)
    (hm : has_funct m = true) (rd rs rt : Register) :
    encode_r_instruction h (h.INST_NAME_x m)
        (h.REG_x_NAME rd ++ ',' :: ' ' :: (h.REG_x_NAME rs ++ ',' :: ' ' :: h.REG_x_NAME rt))
      = Except.ok ((h.INST_x_OPCODE m <<< 26) ||| (h.REG_x_NUM rs <<< 21)
          ||| (h.REG_x_NUM rt <<< 16) ||| (h.REG_x_NUM rd <<< 11) ||| (0 <<< 6)
          ||| h.INST_x_FUNCT m) := by
  simp only [encode_r_instruction,
    strtok_token_delim _ _ _ (hc.reg_tokens rd).1 delim_comma,
    strtok_skip _ _ delim_space,
    strtok_token_delim _ _ _ (hc.reg_tokens rs).1 delim_comma,
    strtok_token _ (hc.reg_tokens rt).1,
    register_lookup_name h hc, opcode_lookup_name h hc, funct_lookup_name h hc, entry_funct h m hm,
    check, Except.bind, (hc.reg_codes _).2, (hc.opcodes m).2, (hc.functs m hm).2, zeros_eq]
  rw [finish_r _ _ _ _ 0 _ (hc.opcodes m).1 (hc.reg_codes rs).1 (hc.reg_codes rt).1
    (hc.reg_codes rd).1 (by decide) (hc.functs m hm).1]

theorem finish_i (op rs rt imm : Nat) (hop : op < 64) (hrs : rs < 32) (hrt : rt < 32) :
    finish (to_base 2 6 op ++ to_base 2 5 rs ++ to_base 2 5 rt ++ to_base 2 16 imm)
      = (op <<< 26) ||| (rs <<< 21) ||| (rt <<< 16) ||| (imm % 2 ^ 16) := by
  have himm : imm % 2 ^ 16 < 2 ^ 16 := Nat.mod_lt _ (by norm_num)
  rw [word_i op rs rt _ hrs hrt himm, finish, List.take_of_length_le
    (by simp [length_to_base]), atoi32]
  simp only [binary_value_append, length_to_base, binary_value_field 6 op hop,
    binary_value_field 5 rs hrs, binary_value_field 5 rt hrt, binary_value_to_base]
  apply Nat.mod_eq_of_lt
  norm_num at himm ⊢
  omega

theorem finish_j (op addr : Nat) (hop : op < 64) :
    finish (to_base 2 6 op ++ to_base 2 26 addr) = (op <<< 26) ||| (addr % 2 ^ 26) := by
  have haddr : addr % 2 ^ 26 < 2 ^ 26 := Nat.mod_lt _ (by norm_num)
  rw [word_j op _ haddr, finish, List.take_of_length_le (by simp [length_to_base]), atoi32]
  simp only [binary_value_append, length_to_base, binary_value_field 6 op hop,
    binary_value_to_base]
  apply Nat.mod_eq_of_lt
  norm_num at haddr ⊢
  omega

/-- The low-order digits of what `itoa2` writes for a natural number. -/
theorem itoa2_drop (n k w : Nat) (hkw : k + w = 32) (hn : n < 2 ^ 32) :
    (itoa2 (n : Int) 2).drop k = to_base 2 w n := by
  have hv : ((n : Int) % 2 ^ 32).toNat = n := by
    norm_num at hn ⊢
    omega
  rw [itoa2, hv, ← hkw, to_base_drop]

/-- The generic I builder on `rt, rs, imm`. -/
theorem encode_i_instruction_ok (h : Header) (hc : h.consistent) (m : Mnemonic)
    (rt rs : Register) (imm : Nat) (himm : imm < 2 ^ 16) :
    encode_i_instruction h (h.INST_NAME_x m)
        (h.REG_x_NAME rt ++ ',' :: ' ' :: (h.REG_x_NAME rs ++ ',' :: ' ' :: decimal imm))
      = Except.ok ((h.INST_x_OPCODE m <<< 26) ||| (h.REG_x_NUM rs <<< 21)
          ||| (h.REG_x_NUM rt <<< 16) ||| imm) := by
  simp only [encode_i_instruction,
    strtok_token_delim _ _ _ (hc.reg_tokens rt).1 delim_comma,
    strtok_skip _ _ delim_space,
    strtok_token_delim _ _ _ (hc.reg_tokens rs).1 delim_comma,
    strtok_token _ (decimal_token imm),
    register_lookup_name h hc, opcode_lookup_name h hc,
    check, Except.bind, (hc.reg_codes _).2, (hc.opcodes m).2,
    atoi_decimal imm (lt_trans himm (by norm_num)), char_array_itoa2,
    itoa2_drop imm 16 16 rfl (lt_trans himm (by norm_num))]
  rw [finish_i _ _ _ _ (hc.opcodes m).1 (hc.reg_codes rs).1 (hc.reg_codes rt).1,
    Nat.mod_eq_of_lt himm]

/-- The builders of `lw` and `sw` on `rt, off(rs)`. -/
theorem encode_lw_ok (h : Header) (hc : h.consistent) (m : Mnemonic)
    (rt rs : Register) (off : Nat) (hoff : off < 2 ^ 16) :
    encode_lw h (h.INST_NAME_x m)
        (h.REG_x_NAME rt ++ ',' :: ' ' :: (decimal off ++ '(' :: (h.REG_x_NAME rs ++ [')'])))
      = Except.ok ((h.INST_x_OPCODE m <<< 26) ||| (h.REG_x_NUM rs <<< 21)
          ||| (h.REG_x_NUM rt <<< 16) ||| off) := by
  simp only [encode_lw,
    strtok_token_delim _ _ _ (hc.reg_tokens rt).1 delim_comma,
    strtok_skip _ _ delim_space,
    strtok_token_delim _ _ _ (decimal_token off) delim_open,
    strtok_token_delim _ _ _ (hc.reg_tokens rs).1 delim_close,
    register_lookup_name h hc, opcode_lookup_name h hc,
    check, Except.bind, (hc.reg_codes _).2, (hc.opcodes m).2,
    atoi_decimal off (lt_trans hoff (by norm_num)), char_array_itoa2,
    itoa2_drop off 16 16 rfl (lt_trans hoff (by norm_num))]
  rw [finish_i _ _ _ _ (hc.opcodes m).1 (hc.reg_codes rs).1 (hc.reg_codes rt).1,
    Nat.mod_eq_of_lt hoff]

theorem encode_sw_eq (h : Header) (i save : List Char) :
    encode_sw h i save = encode_lw h i save := rfl

/-- What `atoi` returns: a number, or nothing defined. -/
theorem atoi_cases (s : List Char) :
    (∃ v, atoi s = Except.ok v) ∨ atoi s = Except.error Error.Undefined := by
  by_cases hr : -2 ^ 31 ≤ atoi_value s ∧ atoi_value s < 2 ^ 31
  · exact Or.inl ⟨_, atoi_ok s hr.1 hr.2⟩
  · right
    simp only [atoi, hr, if_false]

/-- A token is the one token of its text. -/
theorem tokens_token (t : List Char) (ht : is_token t = true) : tokens t = [t] := by
  have h1 := strtok_fst t
  have h2 := strtok_snd t
  rw [strtok_token t ht] at h1 h2
  rw [tokens_nil] at h2
  cases hts : tokens t with
  | nil => rw [hts] at h1; cases h1
  | cons x xs =>
    rw [hts] at h1 h2
    simp only [List.head?_cons, Option.some.injEq, List.tail_cons] at h1 h2
    rw [← h1, ← h2]

/-- The generic J builder on an address token: whatever `atoi` does with the
token, the digits of `itoa2` and their terminator do not fit `addr2[32]`. -/
theorem encode_j_instruction_undefined (h : Header) (hc : h.consistent) (m : Mnemonic)
    (save a : List Char) (tl : List (List Char)) (hs : tokens save = a :: tl) :
    encode_j_instruction h (h.INST_NAME_x m) save = Except.error Error.Undefined := by
  simp only [encode_j_instruction, strtok_fst, hs, List.head?_cons, opcode_lookup_name h hc,
    check, Except.bind]
  rcases atoi_cases a with ⟨v, hv⟩ | hv <;> rw [hv]
  simp only [char_array_short]

/-- The builders of `sll` and `srl` on `rd, rt, n`. -/
theorem encode_sll_ok (h : Header) (hc : h.consistent) (m : Mnemonic)
    (hm : has_funct m = true) (rd rt : Register) (n : Nat)
    (hn : n ≤ 31) :
    encode_sll h (h.INST_NAME_x m)
        (h.REG_x_NAME rd ++ ',' :: ' ' :: (h.REG_x_NAME rt ++ ',' :: ' ' :: decimal n))
      = Except.ok ((h.INST_x_OPCODE m <<< 26) ||| (0 <<< 21) ||| (h.REG_x_NUM rt <<< 16)
          ||| (h.REG_x_NUM rd <<< 11) ||| (n <<< 6) ||| h.INST_x_FUNCT m) := by
  simp only [encode_sll,
    strtok_token_delim _ _ _ (hc.reg_tokens rd).1 delim_comma,
    strtok_skip _ _ delim_space,
    strtok_token_delim _ _ _ (hc.reg_tokens rt).1 delim_comma,
    strtok_token _ (decimal_token n),
    register_lookup_name h hc, opcode_lookup_name h hc, funct_lookup_name h hc, entry_funct h m hm,
    check, Except.bind, (hc.reg_codes _).2, (hc.opcodes m).2, (hc.functs m hm).2, zeros_eq,
    atoi_decimal n (lt_of_le_of_lt hn (by norm_num)), char_array_itoa2,
    itoa2_drop n 27 5 rfl (lt_of_le_of_lt hn (by norm_num))]
  rw [finish_r _ 0 _ _ n _ (hc.opcodes m).1 (by decide) (hc.reg_codes rt).1
    (hc.reg_codes rd).1 (by omega) (hc.functs m hm).1]

theorem encode_srl_eq (h : Header) (i save : List Char) :
    encode_srl h i save = encode_sll h i save := rfl

/-- The builders of `mult` and `div` on `rs, rt`. -/
theorem encode_mult_ok (h : Header) (hc : h.consistent) (m : Mnemonic)
    (hm : has_funct m = true) (rs rt : Register) :
    encode_mult h (h.INST_NAME_x m) (h.REG_x_NAME rs ++ ',' :: ' ' :: h.REG_x_NAME rt)
      = Except.ok ((h.INST_x_OPCODE m <<< 26) ||| (h.REG_x_NUM rs <<< 21)
          ||| (h.REG_x_NUM rt <<< 16) ||| (0 <<< 11) ||| (0 <<< 6) ||| h.INST_x_FUNCT m) := by
  simp only [encode_mult,
    strtok_token_delim _ _ _ (hc.reg_tokens rs).1 delim_comma,
    strtok_skip _ _ delim_space,
    strtok_token _ (hc.reg_tokens rt).1,
    register_lookup_name h hc, opcode_lookup_name h hc, funct_lookup_name h hc, entry_funct h m hm,
    check, Except.bind, (hc.reg_codes _).2, (hc.opcodes m).2, (hc.functs m hm).2, zeros_eq]
  rw [finish_r _ _ _ 0 0 _ (hc.opcodes m).1 (hc.reg_codes rs).1 (hc.reg_codes rt).1
    (by decide) (by decide) (hc.functs m hm).1]

theorem encode_div_eq (h : Header) (i save : List Char) :
    encode_div h i save = encode_mult h i save := rfl

/-- The builder of `jr` on `rs`. -/
theorem encode_jr_ok (h : Header) (hc : h.consistent) (rs : Register) :
    encode_jr h (h.INST_NAME_x Mnemonic.JR) (h.REG_x_NAME rs)
      = Except.ok ((h.INST_x_OPCODE Mnemonic.JR <<< 26) ||| (h.REG_x_NUM rs <<< 21)
          ||| (0 <<< 16) ||| (0 <<< 11) ||| (0 <<< 6) ||| h.INST_x_FUNCT Mnemonic.JR) := by
  have hm : has_funct Mnemonic.JR = true := rfl
  simp only [encode_jr, strtok_token _ (hc.reg_tokens rs).1,
    register_lookup_name h hc, opcode_lookup_name h hc, funct_lookup_name h hc,
    entry_funct h Mnemonic.JR hm,
    check, Except.bind, (hc.reg_codes _).2, (hc.opcodes _).2, (hc.functs _ hm).2, zeros_eq]
  rw [finish_r _ _ 0 0 0 _ (hc.opcodes _).1 (hc.reg_codes rs).1 (by decide)
    (by decide) (by decide) (hc.functs _ hm).1]

/-! ## The encoder on the lines of the specification -/

/-- C1: for every mnemonic `m` of the generic R builder (add, sub, and, or, xor,
nor, slt) and every three registers, the line `m rd, rs, rt` encodes to
`(opcode << 26) | (rs << 21) | (rt << 16) | (rd << 11) | (0 << 6) | funct`. -/
theorem encode_r_line (h : Header) (hc : h.consistent) (m : Mnemonic)
    (hm : m ∈ [Mnemonic.ADD, Mnemonic.SUB, Mnemonic.AND, Mnemonic.OR, Mnemonic.XOR,
      Mnemonic.NOR, Mnemonic.SLT])
    (rd rs rt : Register) :
    arch_mips32_encode h
        (h.INST_NAME_x m ++ " ".toList ++ h.REG_x_NAME rd ++ ", ".toList
          ++ h.REG_x_NAME rs ++ ", ".toList ++ h.REG_x_NAME rt)
      = Except.ok ((h.INST_x_OPCODE m <<< 26) ||| (h.REG_x_NUM rs <<< 21)
          ||| (h.REG_x_NUM rt <<< 16) ||| (h.REG_x_NUM rd <<< 11) ||| (0 <<< 6)
          ||| h.INST_x_FUNCT m) := by
  have hline : h.INST_NAME_x m ++ " ".toList ++ h.REG_x_NAME rd ++ ", ".toList
      ++ h.REG_x_NAME rs ++ ", ".toList ++ h.REG_x_NAME rt
      = h.INST_NAME_x m ++ ' ' :: (h.REG_x_NAME rd ++ ',' :: ' ' ::
          (h.REG_x_NAME rs ++ ',' :: ' ' :: h.REG_x_NAME rt)) := by
    simp [String.toList]
  have hlen : (h.INST_NAME_x m ++ ' ' :: (h.REG_x_NAME rd ++ ',' :: ' ' ::
      (h.REG_x_NAME rs ++ ',' :: ' ' :: h.REG_x_NAME rt))).length ≤ 80 := by
    have h1 := (hc.inst_tokens m).2
    have h2 := (hc.reg_tokens rd).2
    have h3 := (hc.reg_tokens rs).2
    have h4 := (hc.reg_tokens rt).2
    simp only [List.length_append, List.length_cons]
    omega
  rw [hline, arch_mips32_encode_line h hc m _ hlen]
  have hcall : ∀ save, call h (entry h m).encode (h.INST_NAME_x m) save
      = encode_r_instruction h (h.INST_NAME_x m) save := by
    intro save
    simp only [List.mem_cons, List.mem_singleton, List.not_mem_nil, or_false] at hm
    rcases hm with rfl | rfl | rfl | rfl | rfl | rfl | rfl <;> rfl
  have hf : has_funct m = true := by
    simp only [List.mem_cons, List.mem_singleton, List.not_mem_nil, or_false] at hm
    rcases hm with rfl | rfl | rfl | rfl | rfl | rfl | rfl <;> rfl
  rw [hcall, encode_r_instruction_ok h hc m hf]

/-- C1, the case of the test: `add s0, s1, s2`. -/
theorem encode_r_line_witness :
    arch_mips32_encode mips32 "add s0, s1, s2".toList
      = Except.ok ((0 <<< 26) ||| (17 <<< 21) ||| (18 <<< 16) ||| (16 <<< 11) ||| (0 <<< 6)
          ||| 32) :=
  encode_r_line mips32 mips32_consistent Mnemonic.ADD (by decide) Register.S0 Register.S1
    Register.S2

/-- C2: for every mnemonic `m` of the generic I builder (addi, andi, ori, slti,
beq, bne), every two registers and every decimal `imm` with `0 <= imm < 2^16`,
the line `m rt, rs, imm` encodes to
`(opcode << 26) | (rs << 21) | (rt << 16) | imm`. -/
theorem encode_i_line (h : Header) (hc : h.consistent) (m : Mnemonic)
    (hm : m ∈ [Mnemonic.ADDI, Mnemonic.ANDI, Mnemonic.ORI, Mnemonic.SLTI, Mnemonic.BEQ,
      Mnemonic.BNE])
    (rt rs : Register) (imm : Nat) (himm : imm < 2 ^ 16) :
    arch_mips32_encode h
        (h.INST_NAME_x m ++ " ".toList ++ h.REG_x_NAME rt ++ ", ".toList
          ++ h.REG_x_NAME rs ++ ", ".toList ++ decimal imm)
      = Except.ok ((h.INST_x_OPCODE m <<< 26) ||| (h.REG_x_NUM rs <<< 21)
          ||| (h.REG_x_NUM rt <<< 16) ||| imm) := by
  have hline : h.INST_NAME_x m ++ " ".toList ++ h.REG_x_NAME rt ++ ", ".toList
      ++ h.REG_x_NAME rs ++ ", ".toList ++ decimal imm
      = h.INST_NAME_x m ++ ' ' :: (h.REG_x_NAME rt ++ ',' :: ' ' ::
          (h.REG_x_NAME rs ++ ',' :: ' ' :: decimal imm)) := by
    simp [String.toList]
  have hlen : (h.INST_NAME_x m ++ ' ' :: (h.REG_x_NAME rt ++ ',' :: ' ' ::
      (h.REG_x_NAME rs ++ ',' :: ' ' :: decimal imm))).length ≤ 80 := by
    have h1 := (hc.inst_tokens m).2
    have h2 := (hc.reg_tokens rt).2
    have h3 := (hc.reg_tokens rs).2
    have h4 := decimal_length imm (lt_trans himm (by norm_num))
    simp only [List.length_append, List.length_cons]
    omega
  rw [hline, arch_mips32_encode_line h hc m _ hlen]
  have hcall : ∀ save, call h (entry h m).encode (h.INST_NAME_x m) save
      = encode_i_instruction h (h.INST_NAME_x m) save := by
    intro save
    simp only [List.mem_cons, List.mem_singleton, List.not_mem_nil, or_false] at hm
    rcases hm with rfl | rfl | rfl | rfl | rfl | rfl <;> rfl
  rw [hcall, encode_i_instruction_ok h hc m rt rs imm himm]

/-- C2, the case of the test: `addi s0, s1, 1`. -/
theorem encode_i_line_witness :
    arch_mips32_encode mips32 "addi s0, s1, 1".toList
      = Except.ok ((8 <<< 26) ||| (17 <<< 21) ||| (16 <<< 16) ||| 1) :=
  encode_i_line mips32 mips32_consistent Mnemonic.ADDI (by decide) Register.S0 Register.S1 1
    (by decide)

/-- C3: for `m` in lw, sw, every two registers and every decimal `off` with
`0 <= off < 2^16`, the line `m rt, off(rs)` encodes to
`(opcode << 26) | (rs << 21) | (rt << 16) | off`: the register in the parentheses
is the `rs` field, the first operand the `rt` field. -/
theorem encode_lw_sw_line (h : Header) (hc : h.consistent) (m : Mnemonic)
    (hm : m ∈ [Mnemonic.LW, Mnemonic.SW])
    (rt rs : Register) (off : Nat) (hoff : off < 2 ^ 16) :
    arch_mips32_encode h
        (h.INST_NAME_x m ++ " ".toList ++ h.REG_x_NAME rt ++ ", ".toList
          ++ decimal off ++ "(".toList ++ h.REG_x_NAME rs ++ ")".toList)
      = Except.ok ((h.INST_x_OPCODE m <<< 26) ||| (h.REG_x_NUM rs <<< 21)
          ||| (h.REG_x_NUM rt <<< 16) ||| off) := by
  have hline : h.INST_NAME_x m ++ " ".toList ++ h.REG_x_NAME rt ++ ", ".toList
      ++ decimal off ++ "(".toList ++ h.REG_x_NAME rs ++ ")".toList
      = h.INST_NAME_x m ++ ' ' :: (h.REG_x_NAME rt ++ ',' :: ' ' ::
          (decimal off ++ '(' :: (h.REG_x_NAME rs ++ [')']))) := by
    simp [String.toList]
  have hlen : (h.INST_NAME_x m ++ ' ' :: (h.REG_x_NAME rt ++ ',' :: ' ' ::
      (decimal off ++ '(' :: (h.REG_x_NAME rs ++ [')'])))).length ≤ 80 := by
    have h1 := (hc.inst_tokens m).2
    have h2 := (hc.reg_tokens rt).2
    have h3 := (hc.reg_tokens rs).2
    have h4 := decimal_length off (lt_trans hoff (by norm_num))
    simp only [List.length_append, List.length_cons, List.length_nil]
    omega
  rw [hline, arch_mips32_encode_line h hc m _ hlen]
  have hcall : ∀ save, call h (entry h m).encode (h.INST_NAME_x m) save
      = encode_lw h (h.INST_NAME_x m) save := by
    intro save
    simp only [List.mem_cons, List.mem_singleton, List.not_mem_nil, or_false] at hm
    rcases hm with rfl | rfl <;> rfl
  rw [hcall, encode_lw_ok h hc m rt rs off hoff]

/-- C3, the cases of the tests: `lw s0, 4(s1)` and `sw s0, 4(s1)`. -/
theorem encode_lw_sw_line_witness :
    arch_mips32_encode mips32 "lw s0, 4(s1)".toList
        = Except.ok ((35 <<< 26) ||| (17 <<< 21) ||| (16 <<< 16) ||| 4)
      ∧ arch_mips32_encode mips32 "sw s0, 4(s1)".toList
        = Except.ok ((43 <<< 26) ||| (17 <<< 21) ||| (16 <<< 16) ||| 4) :=
  ⟨encode_lw_sw_line mips32 mips32_consistent Mnemonic.LW (by decide) Register.S0
      Register.S1 4 (by decide),
    encode_lw_sw_line mips32 mips32_consistent Mnemonic.SW (by decide) Register.S0
      Register.S1 4 (by decide)⟩

/-- C4, as the code has it: for `m` in j, jal and every decimal address `a` with
`0 <= a < 2^31`, the line `m a` ends without a word.  The builder hands `itoa2`
the array `char addr2[32]` for the 32 digits and their terminator, where the
other builders have arrays of 33 characters: the write is out of bounds and the
call has no defined result.  The word of the claim, `(opcode << 26) | (a mod
2^26)`, is the word of the text that the builder goes on to assemble, the opcode
and the 26 digits from `&addr2[6]` on. -/
theorem encode_j_undefined (h : Header) (hc : h.consistent) (m : Mnemonic)
    (hm : m ∈ [Mnemonic.J, Mnemonic.JAL]) (a : Nat) (ha : a < 2 ^ 31) :
    arch_mips32_encode h (h.INST_NAME_x m ++ " ".toList ++ decimal a)
        = Except.error Error.Undefined
      ∧ char_array 32 (itoa2 (a : Int) 2) = Except.error Error.Undefined
      ∧ finish (h.INST_x_OPCODE_STR m ++ (itoa2 (a : Int) 2).drop 6)
        = (h.INST_x_OPCODE m <<< 26) ||| (a % 2 ^ 26) := by
  have hline : h.INST_NAME_x m ++ " ".toList ++ decimal a
      = h.INST_NAME_x m ++ ' ' :: decimal a := by
    simp [String.toList]
  have hlen : (h.INST_NAME_x m ++ ' ' :: decimal a).length ≤ 80 := by
    have h1 := (hc.inst_tokens m).2
    have h4 := decimal_length a (lt_trans ha (by norm_num))
    simp only [List.length_append, List.length_cons]
    omega
  have hcall : ∀ save, call h (entry h m).encode (h.INST_NAME_x m) save
      = encode_j_instruction h (h.INST_NAME_x m) save := by
    intro save
    simp only [List.mem_cons, List.mem_singleton, List.not_mem_nil, or_false] at hm
    rcases hm with rfl | rfl <;> rfl
  refine ⟨?_, char_array_short _, ?_⟩
  · rw [hline, arch_mips32_encode_line h hc m _ hlen, hcall,
      encode_j_instruction_undefined h hc m _ _ [] (tokens_token _ (decimal_token a))]
  · rw [(hc.opcodes m).2, itoa2_drop a 6 26 rfl (lt_trans ha (by norm_num)),
      finish_j _ _ (hc.opcodes m).1]

/-- C4, the case of the test: `j 1024` has no defined word; the text the builder
is after, `000010` and the 26 low digits of 1024, is the word
`(2 << 26) | 1024` of the test. -/
theorem encode_j_undefined_witness :
    arch_mips32_encode mips32 "j 1024".toList = Except.error Error.Undefined
      ∧ char_array 32 (itoa2 1024 2) = Except.error Error.Undefined
      ∧ finish ("000010".toList ++ (itoa2 1024 2).drop 6) = (2 <<< 26) ||| 1024 :=
  encode_j_undefined mips32 mips32_consistent Mnemonic.J (by decide) 1024 (by decide)

/-- C5: for `m` in sll, srl, every two registers and every decimal shift amount
`n` with `0 <= n <= 31`, the line `m rd, rt, n` encodes to
`(opcode << 26) | (0 << 21) | (rt << 16) | (rd << 11) | (n << 6) | funct`. -/
theorem encode_shift_line (h : Header) (hc : h.consistent) (m : Mnemonic)
    (hm : m ∈ [Mnemonic.SLL, Mnemonic.SRL])
    (rd rt : Register) (n : Nat) (hn : n ≤ 31) :
    arch_mips32_encode h
        (h.INST_NAME_x m ++ " ".toList ++ h.REG_x_NAME rd ++ ", ".toList
          ++ h.REG_x_NAME rt ++ ", ".toList ++ decimal n)
      = Except.ok ((h.INST_x_OPCODE m <<< 26) ||| (0 <<< 21) ||| (h.REG_x_NUM rt <<< 16)
          ||| (h.REG_x_NUM rd <<< 11) ||| (n <<< 6) ||| h.INST_x_FUNCT m) := by
  have hline : h.INST_NAME_x m ++ " ".toList ++ h.REG_x_NAME rd ++ ", ".toList
      ++ h.REG_x_NAME rt ++ ", ".toList ++ decimal n
      = h.INST_NAME_x m ++ ' ' :: (h.REG_x_NAME rd ++ ',' :: ' ' ::
          (h.REG_x_NAME rt ++ ',' :: ' ' :: decimal n)) := by
    simp [String.toList]
  have hlen : (h.INST_NAME_x m ++ ' ' :: (h.REG_x_NAME rd ++ ',' :: ' ' ::
      (h.REG_x_NAME rt ++ ',' :: ' ' :: decimal n))).length ≤ 80 := by
    have h1 := (hc.inst_tokens m).2
    have h2 := (hc.reg_tokens rd).2
    have h3 := (hc.reg_tokens rt).2
    have h4 := decimal_length n (lt_of_le_of_lt hn (by norm_num))
    simp only [List.length_append, List.length_cons]
    omega
  rw [hline, arch_mips32_encode_line h hc m _ hlen]
  have hcall : ∀ save, call h (entry h m).encode (h.INST_NAME_x m) save
      = encode_sll h (h.INST_NAME_x m) save := by
    intro save
    simp only [List.mem_cons, List.mem_singleton, List.not_mem_nil, or_false] at hm
    rcases hm with rfl | rfl <;> rfl
  have hf : has_funct m = true := by
    simp only [List.mem_cons, List.mem_singleton, List.not_mem_nil, or_false] at hm
    rcases hm with rfl | rfl <;> rfl
  rw [hcall, encode_sll_ok h hc m hf rd rt n hn]

/-- C5, the cases of the tests: `sll s0, s1, 1` and `srl s0, s1, 1`. -/
theorem encode_shift_line_witness :
    arch_mips32_encode mips32 "sll s0, s1, 1".toList
        = Except.ok ((0 <<< 26) ||| (0 <<< 21) ||| (17 <<< 16) ||| (16 <<< 11) ||| (1 <<< 6)
          ||| 0)
      ∧ arch_mips32_encode mips32 "srl s0, s1, 1".toList
        = Except.ok ((0 <<< 26) ||| (0 <<< 21) ||| (17 <<< 16) ||| (16 <<< 11) ||| (1 <<< 6)
          ||| 2) :=
  ⟨encode_shift_line mips32 mips32_consistent Mnemonic.SLL (by decide) Register.S0
      Register.S1 1 (by decide),
    encode_shift_line mips32 mips32_consistent Mnemonic.SRL (by decide) Register.S0
      Register.S1 1 (by decide)⟩

/-- C6: for `m` in mult, div and every two registers, the line `m rs, rt` encodes
to `(opcode << 26) | (rs << 21) | (rt << 16) | (0 << 11) | (0 << 6) | funct`: the
first operand is `rs`, the second `rt`, and `rd` and `shamt` are zero. -/
theorem encode_mult_div_line (h : Header) (hc : h.consistent) (m : Mnemonic)
    (hm : m ∈ [Mnemonic.MULT, Mnemonic.DIV]) (rs rt : Register) :
    arch_mips32_encode h
        (h.INST_NAME_x m ++ " ".toList ++ h.REG_x_NAME rs ++ ", ".toList ++ h.REG_x_NAME rt)
      = Except.ok ((h.INST_x_OPCODE m <<< 26) ||| (h.REG_x_NUM rs <<< 21)
          ||| (h.REG_x_NUM rt <<< 16) ||| (0 <<< 11) ||| (0 <<< 6) ||| h.INST_x_FUNCT m) := by
  have hline : h.INST_NAME_x m ++ " ".toList ++ h.REG_x_NAME rs ++ ", ".toList
      ++ h.REG_x_NAME rt
      = h.INST_NAME_x m ++ ' ' :: (h.REG_x_NAME rs ++ ',' :: ' ' :: h.REG_x_NAME rt) := by
    simp [String.toList]
  have hlen : (h.INST_NAME_x m ++ ' ' ::
      (h.REG_x_NAME rs ++ ',' :: ' ' :: h.REG_x_NAME rt)).length ≤ 80 := by
    have h1 := (hc.inst_tokens m).2
    have h2 := (hc.reg_tokens rs).2
    have h3 := (hc.reg_tokens rt).2
    simp only [List.length_append, List.length_cons]
    omega
  rw [hline, arch_mips32_encode_line h hc m _ hlen]
  have hcall : ∀ save, call h (entry h m).encode (h.INST_NAME_x m) save
      = encode_mult h (h.INST_NAME_x m) save := by
    intro save
    simp only [List.mem_cons, List.mem_singleton, List.not_mem_nil, or_false] at hm
    rcases hm with rfl | rfl <;> rfl
  have hf : has_funct m = true := by
    simp only [List.mem_cons, List.mem_singleton, List.not_mem_nil, or_false] at hm
    rcases hm with rfl | rfl <;> rfl
  rw [hcall, encode_mult_ok h hc m hf rs rt]

/-- C6, the cases of the tests: `mult s0, s1` and `div s0, s1`. -/
theorem encode_mult_div_line_witness :
    arch_mips32_encode mips32 "mult s0, s1".toList
        = Except.ok ((0 <<< 26) ||| (16 <<< 21) ||| (17 <<< 16) ||| (0 <<< 11) ||| (0 <<< 6)
          ||| 24)
      ∧ arch_mips32_encode mips32 "div s0, s1".toList
        = Except.ok ((0 <<< 26) ||| (16 <<< 21) ||| (17 <<< 16) ||| (0 <<< 11) ||| (0 <<< 6)
          ||| 26) :=
  ⟨encode_mult_div_line mips32 mips32_consistent Mnemonic.MULT (by decide) Register.S0
      Register.S1,
    encode_mult_div_line mips32 mips32_consistent Mnemonic.DIV (by decide) Register.S0
      Register.S1⟩

/-- C7: for every register, the line `jr rs` encodes to
`(opcode << 26) | (rs << 21) | (0 << 16) | (0 << 11) | (0 << 6) | funct`. -/
theorem encode_jr_line (h : Header) (hc : h.consistent) (rs : Register) :
    arch_mips32_encode h (h.INST_NAME_x Mnemonic.JR ++ " ".toList ++ h.REG_x_NAME rs)
      = Except.ok ((h.INST_x_OPCODE Mnemonic.JR <<< 26) ||| (h.REG_x_NUM rs <<< 21)
          ||| (0 <<< 16) ||| (0 <<< 11) ||| (0 <<< 6) ||| h.INST_x_FUNCT Mnemonic.JR) := by
  have hline : h.INST_NAME_x Mnemonic.JR ++ " ".toList ++ h.REG_x_NAME rs
      = h.INST_NAME_x Mnemonic.JR ++ ' ' :: h.REG_x_NAME rs := by
    simp [String.toList]
  have hlen : (h.INST_NAME_x Mnemonic.JR ++ ' ' :: h.REG_x_NAME rs).length ≤ 80 := by
    have h1 := (hc.inst_tokens Mnemonic.JR).2
    have h2 := (hc.reg_tokens rs).2
    simp only [List.length_append, List.length_cons]
    omega
  rw [hline, arch_mips32_encode_line h hc Mnemonic.JR _ hlen]
  exact encode_jr_ok h hc rs

/-- C7, the case of the test: `jr s0`. -/
theorem encode_jr_line_witness :
    arch_mips32_encode mips32 "jr s0".toList
      = Except.ok ((0 <<< 26) ||| (16 <<< 21) ||| (0 <<< 16) ||| (0 <<< 11) ||| (0 <<< 6)
          ||| 8) :=
  encode_jr_line mips32 mips32_consistent Register.S0

/-! ## Failures -/

/-- A line whose first token, in its first 80 characters, is the name of a
mnemonic is handed to the encoder of that mnemonic, with a text that holds the
other tokens. -/
theorem arch_mips32_encode_tokens (h : Header) (hc : h.consistent) (m : Mnemonic)
    (asmcmd : List Char) (ops : List (List Char))
    (ht : tokens (strncpy asmcmd 80) = h.INST_NAME_x m :: ops) :
    ∃ save, tokens save = ops ∧
      arch_mips32_encode h asmcmd = call h (entry h m).encode (h.INST_NAME_x m) save := by
  refine ⟨(strtok (strncpy asmcmd 80) delim).2, ?_, ?_⟩
  · rw [strtok_snd, ht, List.tail_cons]
  · simp only [arch_mips32_encode, strtok_fst, ht, List.head?_cons,
      instructions_find_token h hc m]

/-- The lookup of a token that is not there, `register_lookup(NULL)`, is `NULL`,
and the check of the builder fails. -/
theorem register_operand_missing (h : Header) :
    check (register_lookup h none)
      = (Except.error Error.CheckFailed : Except Error (List Char)) := rfl

theorem register_operand_ok (h : Header) (hc : h.consistent) (r : Register) :
    check (register_lookup h (some (h.REG_x_NAME r)))
      = Except.ok (h.REG_x_NUM_STR r) := by
  rw [register_lookup_name h hc r]
  rfl

/-- The builder of `jr` without operand. -/
theorem encode_jr_missing (h : Header) (i save : List Char) (hs : tokens save = []) :
    encode_jr h i save = Except.error Error.CheckFailed := by
  simp only [encode_jr, strtok_fst, hs]
  rfl

/-- The generic J builder without operand. -/
theorem encode_j_instruction_missing (h : Header) (i save : List Char)
    (hs : tokens save = []) :
    encode_j_instruction h i save = Except.error Error.CheckFailed := by
  simp only [encode_j_instruction, strtok_fst, hs]
  rfl

/-- The check of a register operand passes, or fails as every check fails. -/
theorem register_operand_cases (h : Header) (a : Option (List Char)) :
    (∃ v, check (register_lookup h a) = Except.ok v)
      ∨ check (register_lookup h a) = Except.error Error.CheckFailed := by
  cases hl : register_lookup h a with
  | none => exact Or.inr rfl
  | some v => exact Or.inl ⟨v, rfl⟩

/-- The generic R builder with fewer than three operands returns no word. -/
theorem encode_r_instruction_short (h : Header) (i save : List Char)
    (ops : List (List Char)) (hs : tokens save = ops) (hlen : ops.length < 3) :
    encode_r_instruction h i save = Except.error Error.CheckFailed := by
  simp only [encode_r_instruction, strtok_fst, strtok_snd, hs]
  rcases ops with _ | ⟨a, _ | ⟨b, _ | ⟨c, tl⟩⟩⟩
  · rfl
  · simp only [List.head?_cons, List.tail_cons, List.head?_nil]
    rcases register_operand_cases h (some a) with ⟨v, hv⟩ | hv <;> rw [hv] <;> rfl
  · simp only [List.head?_cons, List.tail_cons, List.head?_nil, List.tail_nil]
    rcases register_operand_cases h (some a) with ⟨v, hv⟩ | hv <;> rw [hv]
    · rcases register_operand_cases h (some b) with ⟨w, hw⟩ | hw <;>
        simp only [Except.bind, hw, register_operand_missing]
    · rfl
  · simp only [List.length_cons] at hlen
    omega

/-- The builder of `mult` and `div` with fewer than two operands returns no
word. -/
theorem encode_mult_short (h : Header) (i save : List Char)
    (ops : List (List Char)) (hs : tokens save = ops) (hlen : ops.length < 2) :
    encode_mult h i save = Except.error Error.CheckFailed := by
  simp only [encode_mult, strtok_fst, strtok_snd, hs]
  rcases ops with _ | ⟨a, _ | ⟨b, tl⟩⟩
  · rfl
  · simp only [List.head?_cons, List.tail_cons, List.head?_nil]
    rcases register_operand_cases h (some a) with ⟨v, hv⟩ | hv <;> rw [hv] <;> rfl
  · simp only [List.length_cons] at hlen
    omega

/-- The builder of `sll` and `srl` with fewer than three operands returns no
word. -/
theorem encode_sll_short (h : Header) (i save : List Char)
    (ops : List (List Char)) (hs : tokens save = ops) (hlen : ops.length < 3) :
    encode_sll h i save = Except.error Error.CheckFailed := by
  simp only [encode_sll, strtok_fst, strtok_snd, hs]
  rcases ops with _ | ⟨a, _ | ⟨b, _ | ⟨c, tl⟩⟩⟩
  · rfl
  · simp only [List.head?_cons, List.tail_cons, List.head?_nil]
    rcases register_operand_cases h (some a) with ⟨v, hv⟩ | hv <;> rw [hv] <;> rfl
  · simp only [List.head?_cons, List.tail_cons, List.head?_nil, List.tail_nil]
    rcases register_operand_cases h (some a) with ⟨v, hv⟩ | hv <;> rw [hv]
    · rcases register_operand_cases h (some b) with ⟨w, hw⟩ | hw
      · simp only [Except.bind, hw]
        rfl
      · simp only [Except.bind, hw]
    · rfl
  · simp only [List.length_cons] at hlen
    omega

/-- The generic I builder with fewer than three operands returns no word. -/
theorem encode_i_instruction_short (h : Header) (i save : List Char)
    (ops : List (List Char)) (hs : tokens save = ops) (hlen : ops.length < 3) :
    encode_i_instruction h i save = Except.error Error.CheckFailed := by
  simp only [encode_i_instruction, strtok_fst, strtok_snd, hs]
  rcases ops with _ | ⟨a, _ | ⟨b, _ | ⟨c, tl⟩⟩⟩
  · rfl
  · simp only [List.head?_cons, List.tail_cons, List.head?_nil]
    rcases register_operand_cases h (some a) with ⟨v, hv⟩ | hv <;> rw [hv] <;> rfl
  · simp only [List.head?_cons, List.tail_cons, List.head?_nil, List.tail_nil]
    rcases register_operand_cases h (some a) with ⟨v, hv⟩ | hv <;> rw [hv]
    · rcases register_operand_cases h (some b) with ⟨w, hw⟩ | hw
      · simp only [Except.bind, hw]
        rfl
      · simp only [Except.bind, hw]
    · rfl
  · simp only [List.length_cons] at hlen
    omega

/-- The builder of `lw` and `sw` with fewer than three operands returns no
word. -/
theorem encode_lw_short (h : Header) (i save : List Char)
    (ops : List (List Char)) (hs : tokens save = ops) (hlen : ops.length < 3) :
    encode_lw h i save = Except.error Error.CheckFailed := by
  simp only [encode_lw, strtok_fst, strtok_snd, hs]
  rcases ops with _ | ⟨a, _ | ⟨b, _ | ⟨c, tl⟩⟩⟩
  · rfl
  · simp only [List.head?_cons, List.tail_cons, List.head?_nil]
    rcases register_operand_cases h (some a) with ⟨v, hv⟩ | hv <;> rw [hv] <;> rfl
  · simp only [List.head?_cons, List.tail_cons, List.head?_nil, List.tail_nil]
    rcases register_operand_cases h (some a) with ⟨v, hv⟩ | hv <;> rw [hv] <;> rfl
  · simp only [List.length_cons] at hlen
    omega

/-- A builder given fewer operand tokens than it reads fails a check. -/
theorem call_short (h : Header) (m : Mnemonic) (i save : List Char)
    (hlen : (tokens save).length < operands m) :
    call h (entry h m).encode i save = Except.error Error.CheckFailed := by
  have hnil : operands m = 1 → tokens save = [] := by
    intro h1
    rw [h1] at hlen
    exact List.length_eq_zero.mp (by omega)
  cases m
  case ADD | SUB | AND | OR | XOR | NOR | SLT =>
    exact encode_r_instruction_short h _ save _ rfl hlen
  case MULT | DIV => exact encode_mult_short h _ save _ rfl hlen
  case SLL | SRL => exact encode_sll_short h _ save _ rfl hlen
  case ADDI | ANDI | ORI | SLTI | BEQ | BNE =>
    exact encode_i_instruction_short h _ save _ rfl hlen
  case LW | SW => exact encode_lw_short h _ save _ rfl hlen
  case JR => exact encode_jr_missing h _ save (hnil rfl)
  case J | JAL => exact encode_j_instruction_missing h _ save (hnil rfl)

/-- C9, as the code has it: when the first token of the first 80 characters of
a line is not exactly the name of an entry of the instruction table, the
encoder does not fail: after the call `error("unknown command")` it returns
`instr`, which is still 0. -/
theorem unknown_mnemonic (h : Header) (asmcmd token : List Char) (rest : List (List Char))
    (ht : tokens (strncpy asmcmd 80) = token :: rest)
    (hn : ∀ e ∈ instructions h, e.name ≠ token) :
    arch_mips32_encode h asmcmd = Except.ok 0 := by
  have hf : (instructions h).find? (fun e => decide (token = e.name)) = none := by
    rw [List.find?_eq_none]
    intro e he
    simpa using fun heq => hn e he heq.symm
  simp only [arch_mips32_encode, strtok_fst, ht, List.head?_cons, hf]

/-- C9, the case of the specification: `unknown_mnemonic r1`. -/
theorem unknown_mnemonic_witness :
    arch_mips32_encode mips32 "unknown_mnemonic r1".toList = Except.ok 0 :=
  unknown_mnemonic mips32 "unknown_mnemonic r1".toList "unknown_mnemonic".toList
    ["r1".toList] (by decide) (by decide)

/-- C9, against the claim as stated: on `unknown_mnemonic r1` the encoder
returns a word, 0, the word of `sll zero, zero, 0`, and not an error. -/
theorem unknown_mnemonic_zero :
    (∀ e ∈ instructions mips32, e.name ≠ "unknown_mnemonic".toList)
      ∧ arch_mips32_encode mips32 "unknown_mnemonic r1".toList = Except.ok 0
      ∧ (∀ e : Error,
          arch_mips32_encode mips32 "unknown_mnemonic r1".toList ≠ Except.error e)
      ∧ arch_mips32_encode mips32 "sll zero, zero, 0".toList = Except.ok 0 := by
  have e1 : arch_mips32_encode mips32 "unknown_mnemonic r1".toList = Except.ok 0 := by rfl
  refine ⟨by decide, e1, fun e he => ?_, by rfl⟩
  rw [e1] at he
  cases he

/-- C10, as the code has it: when the first 80 characters of a line hold the name
of a mnemonic followed by fewer operand tokens than the builder of the mnemonic
reads, the encoder returns no word: a check of the builder fails, on the `NULL`
that `strtok` or `register_lookup` returns. -/
theorem missing_operand (h : Header) (hc : h.consistent) (m : Mnemonic)
    (asmcmd : List Char) (ops : List (List Char))
    (ht : tokens (strncpy asmcmd 80) = h.INST_NAME_x m :: ops)
    (hlen : ops.length < operands m) :
    arch_mips32_encode h asmcmd = Except.error Error.CheckFailed := by
  obtain ⟨save, hs, he⟩ := arch_mips32_encode_tokens h hc m asmcmd ops ht
  rw [he]
  exact call_short h m _ save (by rw [hs]; exact hlen)

/-- C10, the case of the specification: `add s0, s1`. -/
theorem missing_operand_witness :
    arch_mips32_encode mips32 "add s0, s1".toList = Except.error Error.CheckFailed :=
  missing_operand mips32 mips32_consistent Mnemonic.ADD "add s0, s1".toList
    ["s0".toList, "s1".toList] (by decide) (by decide)

/-- C10, against the claim as stated: the failure of `add s0, s1`, where an
operand is missing, is the failure of `add s0, s1, r99`, where none is: both
fail the check `register_lookup(...) != NULL` of the third operand, and the
macro is handed nothing that tells the one from the other.  The encoder has no
error of the kind `MissingOperand`. -/
theorem missing_operand_same_check :
    tokens "add s0, s1".toList = ["add".toList, "s0".toList, "s1".toList]
      ∧ tokens "add s0, s1, r99".toList
        = ["add".toList, "s0".toList, "s1".toList, "r99".toList]
      ∧ register_lookup mips32 none = none
      ∧ register_lookup mips32 (some "r99".toList) = none
      ∧ arch_mips32_encode mips32 "add s0, s1".toList = Except.error Error.CheckFailed
      ∧ arch_mips32_encode mips32 "add s0, s1, r99".toList
        = Except.error Error.CheckFailed
      ∧ arch_mips32_encode mips32 "add s0, s1".toList
        = arch_mips32_encode mips32 "add s0, s1, r99".toList := by
  refine ⟨by decide, by decide, by rfl, by rfl, by rfl, by rfl, by rfl⟩

/-! ## The engine -/

/-- The first six characters of a decimal text are never `000000`. -/
theorem toDigits_take (n : Nat) : (Nat.toDigits 10 n).take 6 ≠ "000000".toList := by
  rcases Nat.eq_zero_or_pos n with rfl | hpos
  · decide
  · obtain ⟨c, cs, hcs, hc0⟩ := decimal_head n hpos
    rw [← decimal_eq, hcs]
    intro heq
    simp only [List.take_succ_cons, String.toList] at heq
    exact hc0 (List.cons.inj heq).1

/-- With `R_OPCODE` the text `000000`, `engine_run` never assigns `r_inst`: the
first six characters of the radix 10 text of a word are not `000000`. -/
theorem engine_run_r_inst (w : Nat) (r : Option R_instruction) :
    engine_run mips32 w r = (w, r) := by
  have hsel : select mips32 (itoa (to_int w) 10) r = r := by
    have hne : substring (itoa (to_int w) 10) 0 5 ≠ "000000".toList := by
      simp only [substring, List.drop_zero, itoa]
      split
      · intro heq
        simp only [List.take_succ_cons, String.toList] at heq
        exact absurd (List.cons.inj heq).1 (by decide)
      · exact toDigits_take _
    have hq : equals (substring (itoa (to_int w) 10) 0 5) mips32.R_OPCODE = false := by
      simpa [equals, mips32] using hne
    simp only [select, hq, Bool.false_eq_true, if_false]
  simp only [engine_run, hsel]

/-- C8, the word of `add s0, s1, s2` in the engine: `engine_run` writes the word
in radix 10, `select` finds `368640` where the opcode should be, and `r_inst` is
left as it was; on the 32 binary digits of the same word `select` does recover
the six fields. -/
theorem engine_run_add :
    arch_mips32_encode mips32 "add s0, s1, s2".toList = Except.ok 36864032
      ∧ itoa (to_int 36864032) 10 = "36864032".toList
      ∧ substring (itoa (to_int 36864032) 10) 0 5 = "368640".toList
      ∧ (∀ r, engine_run mips32 36864032 r = (36864032, r))
      ∧ select mips32 (itoa2 36864032 2) none
        = some ⟨"000000".toList, "10001".toList, "10010".toList, "10000".toList,
            "00000".toList, "100000".toList⟩ := by
  refine ⟨by rfl, by rfl, by rfl, fun r => by rfl, by rfl⟩

/-! ## Names that are not in the register table -/

/-- A name that is not in the register table is looked up as `NULL`. -/
theorem register_lookup_other (h : Header) (t : List Char) (ht : ∀ r, t ≠ h.REG_x_NAME r) :
    register_lookup h (some t) = none := by
  have hf : (registers h).find? (fun r => decide (r.name = t)) = none := by
    rw [List.find?_eq_none]
    intro e he
    rw [registers_eq, List.mem_map] at he
    obtain ⟨r, -, rfl⟩ := he
    simpa using fun heq => ht r heq.symm
  simp only [register_lookup, hf, Option.map_none']

/-- What `register_lookup` finds is the code of a register with that name. -/
theorem register_lookup_some (h : Header) (t v : List Char)
    (hl : register_lookup h (some t) = some v) :
    ∃ r, t = h.REG_x_NAME r ∧ v = h.REG_x_NUM_STR r := by
  simp only [register_lookup, Option.map_eq_some'] at hl
  obtain ⟨e, he, rfl⟩ := hl
  have hmem := List.mem_of_find?_eq_some he
  have hp := List.find?_some he
  rw [registers_eq, List.mem_map] at hmem
  obtain ⟨r, -, rfl⟩ := hmem
  have hnt : h.REG_x_NAME r = t := by simpa using hp
  exact ⟨r, hnt.symm, rfl⟩

theorem register_operand_invalid (h : Header) (t : List Char)
    (ht : ∀ r, t ≠ h.REG_x_NAME r) :
    check (register_lookup h (some t))
      = (Except.error Error.CheckFailed : Except Error (List Char)) := by
  rw [register_lookup_other h t ht]
  rfl

/-- A register operand that is there passes its check exactly when it is the
name of a register. -/
theorem register_operand_split (h : Header) (a : List Char) :
    ((∃ r, a = h.REG_x_NAME r) ∧
        ∃ v, check (register_lookup h (some a)) = Except.ok v)
      ∨ ((∀ r, a ≠ h.REG_x_NAME r) ∧
        check (register_lookup h (some a))
          = Except.error Error.CheckFailed) := by
  by_cases hr : ∃ r, a = h.REG_x_NAME r
  · left
    refine ⟨hr, ?_⟩
    cases hl : register_lookup h (some a) with
    | none =>
      obtain ⟨r, rfl⟩ := hr
      exfalso
      simp only [register_lookup, Option.map_eq_none', List.find?_eq_none] at hl
      have := hl ⟨h.REG_x_NUM_STR r, h.REG_x_NAME r⟩ (by
        rw [registers_eq, List.mem_map]
        exact ⟨r, register_mem_all r, rfl⟩)
      simp at this
    | some v => exact ⟨v, rfl⟩
  · right
    have hr2 : ∀ r, a ≠ h.REG_x_NAME r := fun r heq => hr ⟨r, heq⟩
    exact ⟨hr2, register_operand_invalid h a hr2⟩

theorem check_some {α : Type} (v : α) : check (some v) = Except.ok v := rfl

/-- The generic R builder on three operands, one of them not a register. -/
theorem encode_r_instruction_invalid (h : Header) (i save a b c : List Char)
    (tl : List (List Char)) (hs : tokens save = a :: b :: c :: tl)
    (hbad : (∀ r, a ≠ h.REG_x_NAME r) ∨ (∀ r, b ≠ h.REG_x_NAME r)
      ∨ (∀ r, c ≠ h.REG_x_NAME r)) :
    encode_r_instruction h i save = Except.error Error.CheckFailed := by
  simp only [encode_r_instruction, strtok_fst, strtok_snd, hs, List.head?_cons,
    List.tail_cons]
  rcases register_operand_split h a with ⟨⟨ra, hra⟩, va, hva⟩ | ⟨-, hva⟩ <;> rw [hva]
  · rcases register_operand_split h b with ⟨⟨rb, hrb⟩, vb, hvb⟩ | ⟨-, hvb⟩
    · rcases register_operand_split h c with ⟨⟨rc, hrc⟩, vc, hvc⟩ | ⟨-, hvc⟩
      · rcases hbad with hx | hx | hx
        · exact absurd hra (hx ra)
        · exact absurd hrb (hx rb)
        · exact absurd hrc (hx rc)
      · simp only [Except.bind, hvb, hvc]
    · simp only [Except.bind, hvb]
  · rfl

/-- The builder of `mult` and `div` on two operands, one of them not a
register. -/
theorem encode_mult_invalid (h : Header) (i save a b : List Char)
    (tl : List (List Char)) (hs : tokens save = a :: b :: tl)
    (hbad : (∀ r, a ≠ h.REG_x_NAME r) ∨ (∀ r, b ≠ h.REG_x_NAME r)) :
    encode_mult h i save = Except.error Error.CheckFailed := by
  simp only [encode_mult, strtok_fst, strtok_snd, hs, List.head?_cons, List.tail_cons]
  rcases register_operand_split h a with ⟨⟨ra, hra⟩, va, hva⟩ | ⟨-, hva⟩ <;> rw [hva]
  · rcases register_operand_split h b with ⟨⟨rb, hrb⟩, vb, hvb⟩ | ⟨-, hvb⟩
    · rcases hbad with hx | hx
      · exact absurd hra (hx ra)
      · exact absurd hrb (hx rb)
    · simp only [Except.bind, hvb]
  · rfl

/-- The builder of `sll` and `srl` on three operands, one of the first two not
a register. -/
theorem encode_sll_invalid (h : Header) (i save a b c : List Char)
    (tl : List (List Char)) (hs : tokens save = a :: b :: c :: tl)
    (hbad : (∀ r, a ≠ h.REG_x_NAME r) ∨ (∀ r, b ≠ h.REG_x_NAME r)) :
    encode_sll h i save = Except.error Error.CheckFailed := by
  simp only [encode_sll, strtok_fst, strtok_snd, hs, List.head?_cons, List.tail_cons]
  rcases register_operand_split h a with ⟨⟨ra, hra⟩, va, hva⟩ | ⟨-, hva⟩ <;> rw [hva]
  · rcases register_operand_split h b with ⟨⟨rb, hrb⟩, vb, hvb⟩ | ⟨-, hvb⟩
    · rcases hbad with hx | hx
      · exact absurd hra (hx ra)
      · exact absurd hrb (hx rb)
    · simp only [Except.bind, hvb]
  · rfl

/-- The builder of `jr` on an operand that is not a register. -/
theorem encode_jr_invalid (h : Header) (i save a : List Char)
    (tl : List (List Char)) (hs : tokens save = a :: tl)
    (hbad : ∀ r, a ≠ h.REG_x_NAME r) :
    encode_jr h i save = Except.error Error.CheckFailed := by
  simp only [encode_jr, strtok_fst, hs, List.head?_cons, register_operand_invalid h a hbad]
  rfl

/-- The generic I builder on three operands, one of the first two not a
register. -/
theorem encode_i_instruction_invalid (h : Header) (i save a b c : List Char)
    (tl : List (List Char)) (hs : tokens save = a :: b :: c :: tl)
    (hbad : (∀ r, a ≠ h.REG_x_NAME r) ∨ (∀ r, b ≠ h.REG_x_NAME r)) :
    encode_i_instruction h i save = Except.error Error.CheckFailed := by
  simp only [encode_i_instruction, strtok_fst, strtok_snd, hs, List.head?_cons,
    List.tail_cons]
  rcases register_operand_split h a with ⟨⟨ra, hra⟩, va, hva⟩ | ⟨-, hva⟩ <;> rw [hva]
  · rcases register_operand_split h b with ⟨⟨rb, hrb⟩, vb, hvb⟩ | ⟨-, hvb⟩
    · rcases hbad with hx | hx
      · exact absurd hra (hx ra)
      · exact absurd hrb (hx rb)
    · simp only [Except.bind, hvb]
  · rfl

/-- The builder of `lw` and `sw` on three operands, the first or the third not
a register. -/
theorem encode_lw_invalid (h : Header) (i save a b c : List Char)
    (tl : List (List Char)) (hs : tokens save = a :: b :: c :: tl)
    (hbad : (∀ r, a ≠ h.REG_x_NAME r) ∨ (∀ r, c ≠ h.REG_x_NAME r)) :
    encode_lw h i save = Except.error Error.CheckFailed := by
  simp only [encode_lw, strtok_fst, strtok_snd, hs, List.head?_cons, List.tail_cons]
  rcases register_operand_split h a with ⟨⟨ra, hra⟩, va, hva⟩ | ⟨-, hva⟩ <;> rw [hva]
  · rcases register_operand_split h c with ⟨⟨rc, hrc⟩, vc, hvc⟩ | ⟨-, hvc⟩
    · rcases hbad with hx | hx
      · exact absurd hra (hx ra)
      · exact absurd hrc (hx rc)
    · simp only [Except.bind, check_some, hvc]
  · rfl

theorem three_operands (ops : List (List Char)) (hlen : 3 ≤ ops.length) :
    ∃ a b c tl, ops = a :: b :: c :: tl := by
  rcases ops with _ | ⟨a, _ | ⟨b, _ | ⟨c, tl⟩⟩⟩
  · simp at hlen
  · simp at hlen
  · simp at hlen
  · exact ⟨a, b, c, tl, rfl⟩

theorem two_operands (ops : List (List Char)) (hlen : 2 ≤ ops.length) :
    ∃ a b tl, ops = a :: b :: tl := by
  rcases ops with _ | ⟨a, _ | ⟨b, tl⟩⟩
  · simp at hlen
  · simp at hlen
  · exact ⟨a, b, tl, rfl⟩

theorem one_operand (ops : List (List Char)) (hlen : 1 ≤ ops.length) :
    ∃ a tl, ops = a :: tl := by
  rcases ops with _ | ⟨a, tl⟩
  · simp at hlen
  · exact ⟨a, tl, rfl⟩

/-- C11, as the code has it: when the first 80 characters of a line hold the name
of a mnemonic followed by at least as many operand tokens as the builder of the
mnemonic reads, and one of the tokens the builder looks up in the register
table is not the name of a register, the encoder returns no word: the check
`register_lookup(...) != NULL` of that operand fails. -/
theorem invalid_register (h : Header) (hc : h.consistent) (m : Mnemonic)
    (asmcmd : List Char) (ops : List (List Char)) (k : Nat) (t : List Char)
    (ht : tokens (strncpy asmcmd 80) = h.INST_NAME_x m :: ops)
    (hlen : operands m ≤ ops.length)
    (hk : k < operands m) (hreg : reads_register m k = true)
    (hget : ops.get? k = some t) (hbad : ∀ r, t ≠ h.REG_x_NAME r) :
    arch_mips32_encode h asmcmd = Except.error Error.CheckFailed := by
  obtain ⟨save, hs, he⟩ := arch_mips32_encode_tokens h hc m asmcmd ops ht
  rw [he]
  cases m
  case ADD | SUB | AND | OR | XOR | NOR | SLT =>
    obtain ⟨a, b, c, tl, rfl⟩ := three_operands ops hlen
    refine encode_r_instruction_invalid h _ save a b c tl hs ?_
    change k < 3 at hk
    interval_cases k <;> simp only [List.get?_cons_zero, List.get?_cons_succ,
      Option.some.injEq] at hget <;> subst hget
    · exact Or.inl hbad
    · exact Or.inr (Or.inl hbad)
    · exact Or.inr (Or.inr hbad)
  case MULT | DIV =>
    obtain ⟨a, b, tl, rfl⟩ := two_operands ops hlen
    refine encode_mult_invalid h _ save a b tl hs ?_
    change k < 2 at hk
    interval_cases k <;> simp only [List.get?_cons_zero, List.get?_cons_succ,
      Option.some.injEq] at hget <;> subst hget
    · exact Or.inl hbad
    · exact Or.inr hbad
  case SLL | SRL =>
    obtain ⟨a, b, c, tl, rfl⟩ := three_operands ops hlen
    refine encode_sll_invalid h _ save a b c tl hs ?_
    have hk2 : k < 2 := by simpa [reads_register] using hreg
    interval_cases k <;> simp only [List.get?_cons_zero, List.get?_cons_succ,
      Option.some.injEq] at hget <;> subst hget
    · exact Or.inl hbad
    · exact Or.inr hbad
  case ADDI | ANDI | ORI | SLTI | BEQ | BNE =>
    obtain ⟨a, b, c, tl, rfl⟩ := three_operands ops hlen
    refine encode_i_instruction_invalid h _ save a b c tl hs ?_
    have hk2 : k < 2 := by simpa [reads_register] using hreg
    interval_cases k <;> simp only [List.get?_cons_zero, List.get?_cons_succ,
      Option.some.injEq] at hget <;> subst hget
    · exact Or.inl hbad
    · exact Or.inr hbad
  case LW | SW =>
    obtain ⟨a, b, c, tl, rfl⟩ := three_operands ops hlen
    refine encode_lw_invalid h _ save a b c tl hs ?_
    have hk2 : k = 0 ∨ k = 2 := by simpa [reads_register] using hreg
    rcases hk2 with rfl | rfl <;> simp only [List.get?_cons_zero, List.get?_cons_succ,
      Option.some.injEq] at hget <;> subst hget
    · exact Or.inl hbad
    · exact Or.inr hbad
  case JR =>
    obtain ⟨a, tl, rfl⟩ := one_operand ops hlen
    refine encode_jr_invalid h _ save a tl hs ?_
    change k < 1 at hk
    interval_cases k
    simp only [List.get?_cons_zero, Option.some.injEq] at hget
    subst hget
    exact hbad
  case J | JAL =>
    exact absurd hreg (by simp [reads_register])

/-- C11, the case of the claim: `add s0, s1, r99`. -/
theorem invalid_register_witness :
    arch_mips32_encode mips32 "add s0, s1, r99".toList
      = Except.error Error.CheckFailed :=
  invalid_register mips32 mips32_consistent Mnemonic.ADD "add s0, s1, r99".toList
    ["s0".toList, "s1".toList, "r99".toList] 2 "r99".toList (by decide) (by decide)
    (by decide) (by decide) (by decide) (fun r => by cases r <;> decide)

/-- C11, against the claim as stated: the failure of `jr r99`, whose operand is
not the name of a register, is the failure of `jr`, which has no operand:
`register_lookup` returns `NULL` for both, the same check fails, and the macro
is handed nothing that tells the one from the other.  The encoder has no error
of the kind `InvalidRegister`. -/
theorem invalid_register_same_check :
    tokens "jr r99".toList = ["jr".toList, "r99".toList]
      ∧ tokens "jr".toList = ["jr".toList]
      ∧ register_lookup mips32 (some "r99".toList) = none
      ∧ register_lookup mips32 none = none
      ∧ arch_mips32_encode mips32 "jr r99".toList = Except.error Error.CheckFailed
      ∧ arch_mips32_encode mips32 "jr".toList = Except.error Error.CheckFailed
      ∧ arch_mips32_encode mips32 "jr r99".toList
        = arch_mips32_encode mips32 "jr".toList := by
  refine ⟨by decide, by decide, by rfl, by rfl, by rfl, by rfl, by rfl⟩

/-! ## Numeric operands of any value -/

/-- The digits `itoa2` writes from any offset on. -/
theorem itoa2_drop_int (v : Int) (k w : Nat) (hkw : k + w = 32) :
    (itoa2 v 2).drop k = to_base 2 w (v % 2 ^ 32).toNat := by
  rw [itoa2, ← hkw, to_base_drop]

/-- The number `atoi` reads in the text of an integer is that integer. -/
theorem atoi_value_decimal_int (i : Int) : atoi_value (decimal_int i) = i := by
  by_cases hi : i < 0
  · have h1 : isspace '-' = false := by decide
    simp only [decimal_int, hi, if_true, atoi_value, List.dropWhile_cons, h1, List.head?_cons,
      List.tail_cons, atoi_digits_decimal, Bool.false_eq_true, if_false]
    omega
  · simp only [decimal_int, hi, if_false, atoi_value_decimal]
    omega

/-- The text of an integer in the range of `int` is read by `atoi` as that
integer. -/
theorem atoi_decimal_int (i : Int) (hlo : -2 ^ 31 ≤ i) (hhi : i < 2 ^ 31) :
    atoi (decimal_int i) = Except.ok i := by
  have hv := atoi_value_decimal_int i
  rw [atoi_ok _ (by rw [hv]; exact hlo) (by rw [hv]; exact hhi), hv]

theorem decimal_int_token (i : Int) : is_token (decimal_int i) = true := by
  by_cases hi : i < 0
  · have ht := decimal_token i.natAbs
    simp only [is_token, Bool.and_eq_true, Bool.not_eq_true', List.isEmpty_eq_false,
      List.all_eq_true] at ht
    simp only [decimal_int, hi, if_true, is_token, List.isEmpty_cons, Bool.not_false,
      List.all_cons, Bool.true_and, Bool.and_eq_true, List.all_eq_true,
      Bool.not_eq_true']
    exact ⟨by decide, ht.2⟩
  · simp only [decimal_int, hi, if_false]
    exact decimal_token _

theorem decimal_int_length (i : Int) (hlo : -2 ^ 31 ≤ i) (hhi : i < 2 ^ 31) :
    (decimal_int i).length ≤ 11 := by
  by_cases hi : i < 0
  · have := decimal_length i.natAbs (by omega)
    simp only [decimal_int, hi, if_true, List.length_cons]
    omega
  · have := decimal_length i.toNat (by omega)
    simp only [decimal_int, hi, if_false]
    omega

/-- The generic I builder on `rt, rs, t`, whatever the token `t` in which `atoi`
reads an `int`. -/
theorem encode_i_instruction_any (h : Header) (hc : h.consistent) (m : Mnemonic)
    (rt rs : Register) (t : List Char) (ht : is_token t = true) (v : Int)
    (hv : atoi t = Except.ok v) :
    encode_i_instruction h (h.INST_NAME_x m)
        (h.REG_x_NAME rt ++ ',' :: ' ' :: (h.REG_x_NAME rs ++ ',' :: ' ' :: t))
      = Except.ok ((h.INST_x_OPCODE m <<< 26) ||| (h.REG_x_NUM rs <<< 21)
          ||| (h.REG_x_NUM rt <<< 16) ||| ((v % 2 ^ 32).toNat % 2 ^ 16)) := by
  simp only [encode_i_instruction,
    strtok_token_delim _ _ _ (hc.reg_tokens rt).1 delim_comma,
    strtok_skip _ _ delim_space,
    strtok_token_delim _ _ _ (hc.reg_tokens rs).1 delim_comma,
    strtok_token _ ht,
    register_lookup_name h hc, opcode_lookup_name h hc,
    check, Except.bind, (hc.reg_codes _).2, (hc.opcodes m).2, hv, char_array_itoa2,
    itoa2_drop_int _ 16 16 rfl]
  rw [finish_i _ _ _ _ (hc.opcodes m).1 (hc.reg_codes rs).1 (hc.reg_codes rt).1]

/-- The builders of `lw` and `sw` on `rt, t(rs)`, whatever the token `t` in which
`atoi` reads an `int`. -/
theorem encode_lw_any (h : Header) (hc : h.consistent) (m : Mnemonic)
    (rt rs : Register) (t : List Char) (ht : is_token t = true) (v : Int)
    (hv : atoi t = Except.ok v) :
    encode_lw h (h.INST_NAME_x m)
        (h.REG_x_NAME rt ++ ',' :: ' ' :: (t ++ '(' :: (h.REG_x_NAME rs ++ [')'])))
      = Except.ok ((h.INST_x_OPCODE m <<< 26) ||| (h.REG_x_NUM rs <<< 21)
          ||| (h.REG_x_NUM rt <<< 16) ||| ((v % 2 ^ 32).toNat % 2 ^ 16)) := by
  simp only [encode_lw,
    strtok_token_delim _ _ _ (hc.reg_tokens rt).1 delim_comma,
    strtok_skip _ _ delim_space,
    strtok_token_delim _ _ _ ht delim_open,
    strtok_token_delim _ _ _ (hc.reg_tokens rs).1 delim_close,
    register_lookup_name h hc, opcode_lookup_name h hc,
    check, Except.bind, (hc.reg_codes _).2, (hc.opcodes m).2, hv, char_array_itoa2,
    itoa2_drop_int _ 16 16 rfl]
  rw [finish_i _ _ _ _ (hc.opcodes m).1 (hc.reg_codes rs).1 (hc.reg_codes rt).1]

/-- The low 16 bits of the 32-bit word of a negative number from `-2^15` on. -/
theorem low16_negative (imm : Int) (hlo : -2 ^ 15 ≤ imm) (hhi : imm < 0) :
    (imm % 2 ^ 32).toNat % 2 ^ 16 = (imm + 2 ^ 16).toNat := by
  omega

/-- C12: for every I-format mnemonic and every decimal immediate `imm` with
`-2^15 <= imm < 0`, the word has `imm + 2^16` in its low 16 bits and the opcode,
`rs` and `rt` where they are for a positive immediate: on `m rt, rs, imm` for
addi, andi, ori, slti, beq, bne and on `m rt, imm(rs)` for lw, sw. -/
theorem negative_immediate (h : Header) (hc : h.consistent) (rt rs : Register) (imm : Int)
    (hlo : -2 ^ 15 ≤ imm) (hhi : imm < 0) :
    (∀ m ∈ [Mnemonic.ADDI, Mnemonic.ANDI, Mnemonic.ORI, Mnemonic.SLTI, Mnemonic.BEQ,
        Mnemonic.BNE],
      arch_mips32_encode h
          (h.INST_NAME_x m ++ " ".toList ++ h.REG_x_NAME rt ++ ", ".toList
            ++ h.REG_x_NAME rs ++ ", ".toList ++ decimal_int imm)
        = Except.ok ((h.INST_x_OPCODE m <<< 26) ||| (h.REG_x_NUM rs <<< 21)
            ||| (h.REG_x_NUM rt <<< 16) ||| (imm + 2 ^ 16).toNat))
      ∧ (∀ m ∈ [Mnemonic.LW, Mnemonic.SW],
        arch_mips32_encode h
            (h.INST_NAME_x m ++ " ".toList ++ h.REG_x_NAME rt ++ ", ".toList
              ++ decimal_int imm ++ "(".toList ++ h.REG_x_NAME rs ++ ")".toList)
          = Except.ok ((h.INST_x_OPCODE m <<< 26) ||| (h.REG_x_NUM rs <<< 21)
              ||| (h.REG_x_NUM rt <<< 16) ||| (imm + 2 ^ 16).toNat)) := by
  have hl := decimal_int_length imm (by omega) (by omega)
  have h2 := (hc.reg_tokens rt).2
  have h3 := (hc.reg_tokens rs).2
  constructor
  · intro m hm
    have hline : h.INST_NAME_x m ++ " ".toList ++ h.REG_x_NAME rt ++ ", ".toList
        ++ h.REG_x_NAME rs ++ ", ".toList ++ decimal_int imm
        = h.INST_NAME_x m ++ ' ' :: (h.REG_x_NAME rt ++ ',' :: ' ' ::
            (h.REG_x_NAME rs ++ ',' :: ' ' :: decimal_int imm)) := by
      simp [String.toList]
    have hlen : (h.INST_NAME_x m ++ ' ' :: (h.REG_x_NAME rt ++ ',' :: ' ' ::
        (h.REG_x_NAME rs ++ ',' :: ' ' :: decimal_int imm))).length ≤ 80 := by
      have h1 := (hc.inst_tokens m).2
      simp only [List.length_append, List.length_cons]
      omega
    rw [hline, arch_mips32_encode_line h hc m _ hlen]
    have hcall : ∀ save, call h (entry h m).encode (h.INST_NAME_x m) save
        = encode_i_instruction h (h.INST_NAME_x m) save := by
      intro save
      simp only [List.mem_cons, List.mem_singleton, List.not_mem_nil, or_false] at hm
      rcases hm with rfl | rfl | rfl | rfl | rfl | rfl <;> rfl
    rw [hcall, encode_i_instruction_any h hc m rt rs _ (decimal_int_token imm) imm
      (atoi_decimal_int imm (by omega) (by omega)), low16_negative imm hlo hhi]
  · intro m hm
    have hline : h.INST_NAME_x m ++ " ".toList ++ h.REG_x_NAME rt ++ ", ".toList
        ++ decimal_int imm ++ "(".toList ++ h.REG_x_NAME rs ++ ")".toList
        = h.INST_NAME_x m ++ ' ' :: (h.REG_x_NAME rt ++ ',' :: ' ' ::
            (decimal_int imm ++ '(' :: (h.REG_x_NAME rs ++ [')']))) := by
      simp [String.toList]
    have hlen : (h.INST_NAME_x m ++ ' ' :: (h.REG_x_NAME rt ++ ',' :: ' ' ::
        (decimal_int imm ++ '(' :: (h.REG_x_NAME rs ++ [')'])))).length ≤ 80 := by
      have h1 := (hc.inst_tokens m).2
      simp only [List.length_append, List.length_cons, List.length_nil]
      omega
    rw [hline, arch_mips32_encode_line h hc m _ hlen]
    have hcall : ∀ save, call h (entry h m).encode (h.INST_NAME_x m) save
        = encode_lw h (h.INST_NAME_x m) save := by
      intro save
      simp only [List.mem_cons, List.mem_singleton, List.not_mem_nil, or_false] at hm
      rcases hm with rfl | rfl <;> rfl
    rw [hcall, encode_lw_any h hc m rt rs _ (decimal_int_token imm) imm
      (atoi_decimal_int imm (by omega) (by omega)), low16_negative imm hlo hhi]

/-- C12, the case of the claim: the immediate field of `addi s0, s1, -1` is
`0xFFFF`; and `lw s0, -4(s1)`. -/
theorem negative_immediate_witness :
    arch_mips32_encode mips32 "addi s0, s1, -1".toList
        = Except.ok ((8 <<< 26) ||| (17 <<< 21) ||| (16 <<< 16) ||| 0xFFFF)
      ∧ arch_mips32_encode mips32 "lw s0, -4(s1)".toList
        = Except.ok ((35 <<< 26) ||| (17 <<< 21) ||| (16 <<< 16) ||| 0xFFFC) := by
  have h1 := (negative_immediate mips32 mips32_consistent Register.S0 Register.S1 (-1)
    (by norm_num) (by norm_num)).1 Mnemonic.ADDI (by decide)
  have h2 := (negative_immediate mips32 mips32_consistent Register.S0 Register.S1 (-4)
    (by norm_num) (by norm_num)).2 Mnemonic.LW (by decide)
  have e1 : decimal_int (-1) = "-1".toList := by decide
  have e2 : decimal_int (-4) = "-4".toList := by decide
  have v1 : ((-1 : Int) + 2 ^ 16).toNat = 0xFFFF := by omega
  have v2 : ((-4 : Int) + 2 ^ 16).toNat = 0xFFFC := by omega
  rw [e1, v1] at h1
  rw [e2, v2] at h2
  exact ⟨h1, h2⟩

/-- Only `v mod b^w` counts for the `w` low digits of `v`. -/
theorem to_base_mod (b w v : Nat) : to_base b w v = to_base b w (v % b ^ w) := by
  induction w generalizing v with
  | zero => rfl
  | succ w ih =>
    rw [to_base, to_base, Nat.pow_succ, Nat.mul_comm (b ^ w) b,
      Nat.mod_mul_right_div_self, Nat.mod_mul_right_mod, ih (v / b), ih (v / b % b ^ w),
      Nat.mod_mod]

/-- The word of six fields, the shift amount of any size. -/
theorem finish_r_any (op rs rt rd sh fn : Nat) (hop : op < 64) (hrs : rs < 32)
    (hrt : rt < 32) (hrd : rd < 32) (hfn : fn < 64) :
    finish (to_base 2 6 op ++ to_base 2 5 rs ++ to_base 2 5 rt ++ to_base 2 5 rd
        ++ to_base 2 5 sh ++ to_base 2 6 fn)
      = (op <<< 26) ||| (rs <<< 21) ||| (rt <<< 16) ||| (rd <<< 11) ||| ((sh % 32) <<< 6)
        ||| fn := by
  have hsh : sh % 32 < 32 := Nat.mod_lt _ (by decide)
  have e : to_base 2 5 sh = to_base 2 5 (sh % 32) := to_base_mod 2 5 sh
  rw [← finish_r op rs rt rd (sh % 32) fn hop hrs hrt hrd hsh hfn, ← e]

/-- The builders of `sll` and `srl` on `rd, rt, t`, whatever the token `t` in
which `atoi` reads an `int`. -/
theorem encode_sll_any (h : Header) (hc : h.consistent) (m : Mnemonic)
    (hm : has_funct m = true) (rd rt : Register) (t : List Char) (ht : is_token t = true)
    (v : Int) (hv : atoi t = Except.ok v) :
    encode_sll h (h.INST_NAME_x m)
        (h.REG_x_NAME rd ++ ',' :: ' ' :: (h.REG_x_NAME rt ++ ',' :: ' ' :: t))
      = Except.ok ((h.INST_x_OPCODE m <<< 26) ||| (0 <<< 21) ||| (h.REG_x_NUM rt <<< 16)
          ||| (h.REG_x_NUM rd <<< 11) ||| (((v % 2 ^ 32).toNat % 32) <<< 6)
          ||| h.INST_x_FUNCT m) := by
  simp only [encode_sll,
    strtok_token_delim _ _ _ (hc.reg_tokens rd).1 delim_comma,
    strtok_skip _ _ delim_space,
    strtok_token_delim _ _ _ (hc.reg_tokens rt).1 delim_comma,
    strtok_token _ ht,
    register_lookup_name h hc, opcode_lookup_name h hc, funct_lookup_name h hc,
    entry_funct h m hm,
    check, Except.bind, (hc.reg_codes _).2, (hc.opcodes m).2, (hc.functs m hm).2, zeros_eq,
    hv, char_array_itoa2, itoa2_drop_int _ 27 5 rfl]
  rw [finish_r_any _ 0 _ _ _ _ (hc.opcodes m).1 (by decide) (hc.reg_codes rt).1
    (hc.reg_codes rd).1 (hc.functs m hm).1]

/-- A line `m rd, rt, n` of `sll` or `srl`, for a shift amount in the range of
`int`: the word has `n mod 32` in its `shamt` field. -/
theorem arch_shift_line (h : Header) (hc : h.consistent) (m : Mnemonic)
    (hm : m ∈ [Mnemonic.SLL, Mnemonic.SRL]) (rd rt : Register) (n : Nat) (hn : n < 2 ^ 31) :
    arch_mips32_encode h
        (h.INST_NAME_x m ++ " ".toList ++ h.REG_x_NAME rd ++ ", ".toList
          ++ h.REG_x_NAME rt ++ ", ".toList ++ decimal n)
      = Except.ok ((h.INST_x_OPCODE m <<< 26) ||| (0 <<< 21) ||| (h.REG_x_NUM rt <<< 16)
          ||| (h.REG_x_NUM rd <<< 11) ||| ((n % 32) <<< 6) ||| h.INST_x_FUNCT m) := by
  have hline : h.INST_NAME_x m ++ " ".toList ++ h.REG_x_NAME rd ++ ", ".toList
      ++ h.REG_x_NAME rt ++ ", ".toList ++ decimal n
      = h.INST_NAME_x m ++ ' ' :: (h.REG_x_NAME rd ++ ',' :: ' ' ::
          (h.REG_x_NAME rt ++ ',' :: ' ' :: decimal n)) := by
    simp [String.toList]
  have hlen : (h.INST_NAME_x m ++ ' ' :: (h.REG_x_NAME rd ++ ',' :: ' ' ::
      (h.REG_x_NAME rt ++ ',' :: ' ' :: decimal n))).length ≤ 80 := by
    have h1 := (hc.inst_tokens m).2
    have h2 := (hc.reg_tokens rd).2
    have h3 := (hc.reg_tokens rt).2
    have h4 := decimal_length n (lt_trans hn (by norm_num))
    simp only [List.length_append, List.length_cons]
    omega
  rw [hline, arch_mips32_encode_line h hc m _ hlen]
  have hcall : ∀ save, call h (entry h m).encode (h.INST_NAME_x m) save
      = encode_sll h (h.INST_NAME_x m) save := by
    intro save
    simp only [List.mem_cons, List.mem_singleton, List.not_mem_nil, or_false] at hm
    rcases hm with rfl | rfl <;> rfl
  have hf : has_funct m = true := by
    simp only [List.mem_cons, List.mem_singleton, List.not_mem_nil, or_false] at hm
    rcases hm with rfl | rfl <;> rfl
  have hv : ((n : Int) % 2 ^ 32).toNat % 32 = n % 32 := by
    norm_num at hn ⊢
    omega
  rw [hcall, encode_sll_any h hc m hf rd rt _ (decimal_token n) n (atoi_decimal n hn), hv]

/-- C13, as the code has it: for `m` in sll, srl and every decimal shift amount
`n` in the range of `int` (`n < 2^31`), in particular outside 0..31, the line
`m rd, rt, n` does not fail: its word has `n mod 32` in the `shamt` field, the
word of the line with the shift amount `n mod 32`. -/
theorem shift_amount_mod (h : Header) (hc : h.consistent) (m : Mnemonic)
    (hm : m ∈ [Mnemonic.SLL, Mnemonic.SRL]) (rd rt : Register) (n : Nat) (hn : n < 2 ^ 31) :
    arch_mips32_encode h
          (h.INST_NAME_x m ++ " ".toList ++ h.REG_x_NAME rd ++ ", ".toList
            ++ h.REG_x_NAME rt ++ ", ".toList ++ decimal n)
        = Except.ok ((h.INST_x_OPCODE m <<< 26) ||| (0 <<< 21) ||| (h.REG_x_NUM rt <<< 16)
            ||| (h.REG_x_NUM rd <<< 11) ||| ((n % 32) <<< 6) ||| h.INST_x_FUNCT m)
      ∧ arch_mips32_encode h
          (h.INST_NAME_x m ++ " ".toList ++ h.REG_x_NAME rd ++ ", ".toList
            ++ h.REG_x_NAME rt ++ ", ".toList ++ decimal n)
        = arch_mips32_encode h
          (h.INST_NAME_x m ++ " ".toList ++ h.REG_x_NAME rd ++ ", ".toList
            ++ h.REG_x_NAME rt ++ ", ".toList ++ decimal (n % 32)) := by
  have h32 : n % 32 < 2 ^ 31 := lt_of_le_of_lt (Nat.mod_le n 32) hn
  refine ⟨arch_shift_line h hc m hm rd rt n hn, ?_⟩
  rw [arch_shift_line h hc m hm rd rt n hn, arch_shift_line h hc m hm rd rt (n % 32) h32,
    Nat.mod_mod]

/-- C13, the case of the claim: `sll s0, s1, 33` encodes to the word of
`sll s0, s1, 1`. -/
theorem shift_amount_mod_witness :
    arch_mips32_encode mips32 "sll s0, s1, 33".toList
      = arch_mips32_encode mips32 "sll s0, s1, 1".toList :=
  (shift_amount_mod mips32 mips32_consistent Mnemonic.SLL (by decide) Register.S0
    Register.S1 33 (by decide)).2

/-- C13, a shift amount the claim as stated does not hold for: `2^63`, which is
not in the range of `int`.  The call `atoi("9223372036854775808")` has no
defined result, and the encoder none for the line, where the claim has the word
of `sll s0, s1, 0`, since `2^63 mod 32 = 0`.  (A library that clamps the number
at the largest `long`, and cuts it to an `int`, reads `-1`: five low bits 31.) -/
theorem shift_amount_int :
    9223372036854775808 % 32 = 0
      ∧ "9223372036854775808".toList = decimal 9223372036854775808
      ∧ atoi_value "9223372036854775808".toList = 2 ^ 63
      ∧ atoi "9223372036854775808".toList = Except.error Error.Undefined
      ∧ arch_mips32_encode mips32 "sll s0, s1, 9223372036854775808".toList
        = Except.error Error.Undefined
      ∧ arch_mips32_encode mips32 "sll s0, s1, 0".toList = Except.ok 1146880
      ∧ arch_mips32_encode mips32 "sll s0, s1, 9223372036854775808".toList
        ≠ arch_mips32_encode mips32 "sll s0, s1, 0".toList := by
  have e1 : arch_mips32_encode mips32 "sll s0, s1, 9223372036854775808".toList
      = Except.error Error.Undefined := by rfl
  have e2 : arch_mips32_encode mips32 "sll s0, s1, 0".toList = Except.ok 1146880 := by rfl
  refine ⟨by norm_num, by rfl, by rfl, by rfl, e1, e2, ?_⟩
  rw [e1, e2]
  intro heq
  cases heq

/-! ## The parser of binary text -/

theorem binary_value_cons (c : Char) (cs : List Char) :
    binary_value (c :: cs) = (if c = '1' then 1 else 0) * 2 ^ cs.length + binary_value cs := by
  have h := binary_value_append [c] cs
  have h1 : binary_value [c] = if c = '1' then 1 else 0 := by
    simp [binary_value]
  rw [h1] at h
  exact h

theorem binary_value_lt (s : List Char) : binary_value s < 2 ^ s.length := by
  induction s with
  | nil => simp [binary_value]
  | cons c cs ih =>
    rw [binary_value_cons, List.length_cons, Nat.pow_succ]
    split <;> omega

theorem binary_value_sum (s : List Char) : binary_value s = binary_sum s := by
  induction s with
  | nil => rfl
  | cons c cs ih =>
    rw [binary_value_cons, ih, binary_sum, binary_sum, List.length_cons,
      List.range_succ_eq_map, List.map_cons, List.sum_cons, List.map_map]
    congr 1
    congr 1
    apply List.map_congr_left
    intro i hi
    have hlt : i < cs.length := List.mem_range.mp hi
    have he : cs.length + 1 - 1 - (i + 1) = cs.length - 1 - i := by omega
    simp only [Function.comp, List.getD_cons_succ, he]

/-- C14: `atoi32` reads a text of at most 32 characters `0` and `1` as the sum of
its digits, each times the power of two of its place, the first digit the most
significant; leading zeros count for nothing. -/
theorem atoi32_binary (s : List Char) (_hs : ∀ c ∈ s, c = '0' ∨ c = '1')
    (hlen : s.length ≤ 32) :
    atoi32 s = binary_sum s := by
  have hlt : binary_value s < 2 ^ 32 :=
    lt_of_lt_of_le (binary_value_lt s) (Nat.pow_le_pow_right (by decide) hlen)
  rw [atoi32, Nat.mod_eq_of_lt hlt, binary_value_sum]

/-- C14, the case of the test: `atoi32("00011") == 3`. -/
theorem atoi32_binary_witness :
    atoi32 "00011".toList = 3 ∧ binary_sum "00011".toList = 3 :=
  ⟨(atoi32_binary "00011".toList (by decide) (by decide)).trans (by decide), by decide⟩

/-! ## The register table -/

/-- C15: the register table has 32 entries, with pairwise distinct names and
pairwise distinct codes that are the 5-bit texts of all of 0..31;
`register_lookup` sends every name of the table to its code, two names with the
same code are the same name, every 5-bit code is the code of a name, and any
other name, like the null pointer, is sent to the null pointer. -/
theorem registers_table :
    (registers mips32).length = 32
      ∧ REG_NUM = 32
      ∧ ((registers mips32).map reg.name).Nodup
      ∧ ((registers mips32).map reg.code).Nodup
      ∧ (∀ v, v < 32 → to_base 2 5 v ∈ (registers mips32).map reg.code)
      ∧ (∀ e ∈ registers mips32, ∃ v, v < 32 ∧ e.code = to_base 2 5 v)
      ∧ (∀ r, register_lookup mips32 (some (mips32.REG_x_NAME r))
          = some (mips32.REG_x_NUM_STR r))
      ∧ (∀ n1 n2 c, register_lookup mips32 (some n1) = some c →
          register_lookup mips32 (some n2) = some c → n1 = n2)
      ∧ (∀ v, v < 32 → ∃ n, register_lookup mips32 (some n) = some (to_base 2 5 v))
      ∧ (∀ n, n ∉ (registers mips32).map reg.name → register_lookup mips32 (some n) = none)
      ∧ register_lookup mips32 none = none := by
  have hcodes : ((registers mips32).map reg.code).Nodup := by decide
  have hcover : ∀ v, v < 32 → to_base 2 5 v ∈ (registers mips32).map reg.code := by decide
  have hinj : ∀ r1 r2, mips32.REG_x_NUM_STR r1 = mips32.REG_x_NUM_STR r2 → r1 = r2 := by
    intro r1 r2 heq
    have hmap : (Register.all.map mips32.REG_x_NUM_STR).Nodup := hcodes
    exact List.inj_on_of_nodup_map hmap (register_mem_all r1) (register_mem_all r2) heq
  refine ⟨rfl, rfl, by decide, hcodes, hcover, ?_, register_lookup_name mips32 mips32_consistent,
    ?_, ?_, ?_, rfl⟩
  · intro e he
    rw [registers_eq, List.mem_map] at he
    obtain ⟨r, -, rfl⟩ := he
    exact ⟨mips32.REG_x_NUM r, (mips32_consistent.reg_codes r).1,
      (mips32_consistent.reg_codes r).2⟩
  · intro n1 n2 c h1 h2
    obtain ⟨r1, rfl, hc1⟩ := register_lookup_some mips32 n1 c h1
    obtain ⟨r2, rfl, hc2⟩ := register_lookup_some mips32 n2 c h2
    rw [hinj r1 r2 (hc1.symm.trans hc2)]
  · intro v hv
    have hm := hcover v hv
    rw [registers_eq, List.map_map, List.mem_map] at hm
    obtain ⟨r, -, hr⟩ := hm
    exact ⟨mips32.REG_x_NAME r, by
      rw [register_lookup_name mips32 mips32_consistent r]
      exact congrArg some hr⟩
  · intro n hn
    apply register_lookup_other
    intro r heq
    apply hn
    rw [registers_eq, List.map_map, List.mem_map]
    exact ⟨r, register_mem_all r, heq.symm⟩

/-! ## Memory and the data cache -/

/-- C16: for every address within the capacity of a memory and every word,
`write(a, w)` succeeds and `read(a)` on the memory it leaves returns `w`. -/
theorem memory_write_read (m : Memory) (a w : Nat) (ha : a < m.size_) (hw : w < 2 ^ 32) :
    ∃ m2, m.write a w = Except.ok m2 ∧ m2.read a = Except.ok w
      ∧ (m.write a w).bind (fun m3 => m3.read a) = Except.ok w := by
  have hlen : a < m.data.length := by rw [m.data_size]; exact ha
  have hget : (m.data.set a (w % 2 ^ 32)).getD a 0 = w := by
    rw [List.getD_eq_getElem?_getD, List.getElem?_set_eq_of_lt _ hlen]
    exact Nat.mod_eq_of_lt hw
  refine ⟨⟨m.size_, m.data.set a (w % 2 ^ 32), by rw [List.length_set]; exact m.data_size⟩,
    ?_, ?_, ?_⟩
  · simp only [Memory.write, ha, if_true]
  · simp only [Memory.read, ha, if_true, hget]
  · simp only [Memory.write, ha, if_true, Except.bind, Memory.read, hget]

/-- C16, on a memory of four words: 7 written at 2 is read at 2. -/
theorem memory_write_read_witness :
    ∃ m2, (Memory.init 4).write 2 7 = Except.ok m2 ∧ m2.read 2 = Except.ok 7
      ∧ ((Memory.init 4).write 2 7).bind (fun m3 => m3.read 2) = Except.ok 7 :=
  memory_write_read (Memory.init 4) 2 7 (by decide) (by decide)

theorem except_bind_ok {α β : Type} (x : Except Error α) (f : α → Except Error β) (b : β)
    (hb : x.bind f = Except.ok b) : ∃ a, x = Except.ok a ∧ f a = Except.ok b := by
  cases x with
  | error e => cases hb
  | ok a => exact ⟨a, rfl, hb⟩

theorem except_map_bind {α β γ : Type} (g : β → γ) (x : Except Error α)
    (f : α → Except Error β) :
    Except.map g (x.bind f) = x.bind (fun a => Except.map g (f a)) := by
  cases x <;> rfl

theorem check_ok {α : Type} (x : Option α) (v : α)
    (hv : check x = Except.ok v) : x = some v := by
  cases x with
  | none => cases hv
  | some a => exact congrArg some (Except.ok.inj hv)

/-- A builder is its assembled text, cut at 32 characters and parsed. -/
theorem call_eq_finish (h : Header) (f : Encoder) (i save : List Char) :
    call h f i save = Except.map finish (call_instr h f i save) := by
  cases f <;>
    simp only [call, call_instr, encode_add, encode_sub, encode_and, encode_or, encode_xor,
      encode_nor, encode_slt, encode_addi, encode_andi, encode_ori, encode_slti, encode_beq,
      encode_bne, encode_j, encode_jal, encode_r_instruction, encode_mult, encode_div,
      encode_sll, encode_srl, encode_jr, encode_i_instruction, encode_lw, encode_sw,
      encode_j_instruction, encode_r_instruction_instr, encode_mult_instr, encode_sll_instr,
      encode_jr_instr, encode_i_instruction_instr, encode_lw_instr,
      encode_j_instruction_instr, except_map_bind] <;> rfl

/-- The code `register_lookup` finds has five characters. -/
theorem register_code_length (h : Header) (hc : h.consistent)
    (o : Option (List Char)) (v : List Char)
    (hv : check (register_lookup h o) = Except.ok v) : v.length = 5 := by
  have hl := check_ok _ v hv
  cases o with
  | none => cases hl
  | some t =>
    obtain ⟨r, -, rfl⟩ := register_lookup_some h t v hl
    rw [(hc.reg_codes r).2, length_to_base]

theorem opcode_length (h : Header) (hc : h.consistent) (m : Mnemonic) (v : List Char)
    (hv : check (opcode_lookup h (some (h.INST_NAME_x m)))
      = Except.ok v) : v.length = 6 := by
  rw [opcode_lookup_name h hc m] at hv
  rw [← Except.ok.inj hv, (hc.opcodes m).2, length_to_base]

theorem funct_length (h : Header) (hc : h.consistent) (m : Mnemonic)
    (hm : has_funct m = true) (v : List Char)
    (hv : check (funct_lookup h (some (h.INST_NAME_x m)))
      = Except.ok v) : v.length = 6 := by
  rw [funct_lookup_name h hc m, entry_funct h m hm] at hv
  rw [← Except.ok.inj hv, (hc.functs m hm).2, length_to_base]

theorem itoa2_length (v : Int) : (itoa2 v 2).length = 32 := by
  rw [itoa2, length_to_base]

/-- What an array of 33 characters holds after `itoa2`: the 32 digits. -/
theorem char_array_length (size : Nat) (v : Int) (digits : List Char)
    (hd : char_array size (itoa2 v 2) = Except.ok digits) : digits.length = 32 := by
  simp only [char_array] at hd
  split at hd
  · rw [← Except.ok.inj hd, itoa2_length]
  · cases hd

theorem encode_r_instruction_width (h : Header) (hc : h.consistent) (m : Mnemonic)
    (hm : has_funct m = true) (save text : List Char)
    (ht : encode_r_instruction_instr h (h.INST_NAME_x m) save = Except.ok text) :
    text.length = 32 := by
  simp only [encode_r_instruction_instr] at ht
  obtain ⟨rd, h1, ht⟩ := except_bind_ok _ _ _ ht
  obtain ⟨rs, h2, ht⟩ := except_bind_ok _ _ _ ht
  obtain ⟨rt, h3, ht⟩ := except_bind_ok _ _ _ ht
  obtain ⟨opcode, h4, ht⟩ := except_bind_ok _ _ _ ht
  obtain ⟨funct, h5, ht⟩ := except_bind_ok _ _ _ ht
  rw [← Except.ok.inj ht]
  simp only [List.length_append, List.length_cons, List.length_nil,
    register_code_length h hc _ _ h1, register_code_length h hc _ _ h2,
    register_code_length h hc _ _ h3, opcode_length h hc m _ h4,
    funct_length h hc m hm _ h5]

theorem encode_mult_width (h : Header) (hc : h.consistent) (m : Mnemonic)
    (hm : has_funct m = true) (save text : List Char)
    (ht : encode_mult_instr h (h.INST_NAME_x m) save = Except.ok text) :
    text.length = 32 := by
  simp only [encode_mult_instr] at ht
  obtain ⟨rs, h1, ht⟩ := except_bind_ok _ _ _ ht
  obtain ⟨rt, h2, ht⟩ := except_bind_ok _ _ _ ht
  obtain ⟨opcode, h4, ht⟩ := except_bind_ok _ _ _ ht
  obtain ⟨funct, h5, ht⟩ := except_bind_ok _ _ _ ht
  rw [← Except.ok.inj ht]
  simp only [List.length_append, List.length_cons, List.length_nil,
    register_code_length h hc _ _ h1, register_code_length h hc _ _ h2,
    opcode_length h hc m _ h4, funct_length h hc m hm _ h5]

theorem encode_sll_width (h : Header) (hc : h.consistent) (m : Mnemonic)
    (hm : has_funct m = true) (save text : List Char)
    (ht : encode_sll_instr h (h.INST_NAME_x m) save = Except.ok text) :
    text.length = 32 := by
  simp only [encode_sll_instr] at ht
  obtain ⟨rd, h1, ht⟩ := except_bind_ok _ _ _ ht
  obtain ⟨rt, h2, ht⟩ := except_bind_ok _ _ _ ht
  obtain ⟨shamt10, -, ht⟩ := except_bind_ok _ _ _ ht
  obtain ⟨opcode, h4, ht⟩ := except_bind_ok _ _ _ ht
  obtain ⟨funct, h5, ht⟩ := except_bind_ok _ _ _ ht
  obtain ⟨value, -, ht⟩ := except_bind_ok _ _ _ ht
  obtain ⟨shamt2, h6, ht⟩ := except_bind_ok _ _ _ ht
  rw [← Except.ok.inj ht]
  simp only [List.length_append, List.length_cons, List.length_nil, List.length_drop,
    char_array_length _ _ _ h6, register_code_length h hc _ _ h1,
    register_code_length h hc _ _ h2, opcode_length h hc m _ h4,
    funct_length h hc m hm _ h5]

theorem encode_jr_width (h : Header) (hc : h.consistent) (save text : List Char)
    (ht : encode_jr_instr h (h.INST_NAME_x Mnemonic.JR) save = Except.ok text) :
    text.length = 32 := by
  simp only [encode_jr_instr] at ht
  obtain ⟨rs, h1, ht⟩ := except_bind_ok _ _ _ ht
  obtain ⟨opcode, h4, ht⟩ := except_bind_ok _ _ _ ht
  obtain ⟨funct, h5, ht⟩ := except_bind_ok _ _ _ ht
  rw [← Except.ok.inj ht]
  simp only [List.length_append, List.length_cons, List.length_nil,
    register_code_length h hc _ _ h1, opcode_length h hc _ _ h4,
    funct_length h hc Mnemonic.JR rfl _ h5]

theorem encode_i_instruction_width (h : Header) (hc : h.consistent) (m : Mnemonic)
    (save text : List Char)
    (ht : encode_i_instruction_instr h (h.INST_NAME_x m) save = Except.ok text) :
    text.length = 32 := by
  simp only [encode_i_instruction_instr] at ht
  obtain ⟨rt, h1, ht⟩ := except_bind_ok _ _ _ ht
  obtain ⟨rs, h2, ht⟩ := except_bind_ok _ _ _ ht
  obtain ⟨branch10, -, ht⟩ := except_bind_ok _ _ _ ht
  obtain ⟨opcode, h4, ht⟩ := except_bind_ok _ _ _ ht
  obtain ⟨value, -, ht⟩ := except_bind_ok _ _ _ ht
  obtain ⟨branch2, h6, ht⟩ := except_bind_ok _ _ _ ht
  rw [← Except.ok.inj ht]
  simp only [List.length_append, List.length_drop, char_array_length _ _ _ h6,
    register_code_length h hc _ _ h1, register_code_length h hc _ _ h2,
    opcode_length h hc m _ h4]

theorem encode_lw_width (h : Header) (hc : h.consistent) (m : Mnemonic)
    (save text : List Char)
    (ht : encode_lw_instr h (h.INST_NAME_x m) save = Except.ok text) :
    text.length = 32 := by
  simp only [encode_lw_instr] at ht
  obtain ⟨rt, h1, ht⟩ := except_bind_ok _ _ _ ht
  obtain ⟨branch10, -, ht⟩ := except_bind_ok _ _ _ ht
  obtain ⟨rs, h2, ht⟩ := except_bind_ok _ _ _ ht
  obtain ⟨opcode, h4, ht⟩ := except_bind_ok _ _ _ ht
  obtain ⟨value, -, ht⟩ := except_bind_ok _ _ _ ht
  obtain ⟨branch2, h6, ht⟩ := except_bind_ok _ _ _ ht
  rw [← Except.ok.inj ht]
  simp only [List.length_append, List.length_drop, char_array_length _ _ _ h6,
    register_code_length h hc _ _ h1, register_code_length h hc _ _ h2,
    opcode_length h hc m _ h4]

/-- The generic J builder assembles no text from an address token: the digits do
not fit `addr2[32]`. -/
theorem encode_j_instruction_instr_undefined (h : Header) (hc : h.consistent)
    (m : Mnemonic) (save a : List Char) (tl : List (List Char))
    (hs : tokens save = a :: tl) :
    encode_j_instruction_instr h (h.INST_NAME_x m) save = Except.error Error.Undefined := by
  simp only [encode_j_instruction_instr, strtok_fst, hs, List.head?_cons,
    opcode_lookup_name h hc, check, Except.bind]
  rcases atoi_cases a with ⟨v, hv⟩ | hv <;> rw [hv]
  simp only [char_array_short]

/-- The generic R builder assembles a text from three names of registers. -/
theorem encode_r_instruction_instr_ok (h : Header) (hc : h.consistent) (m : Mnemonic)
    (save : List Char) (r0 r1 r2 : Register) (tl : List (List Char))
    (hs : tokens save = h.REG_x_NAME r0 :: h.REG_x_NAME r1 :: h.REG_x_NAME r2 :: tl) :
    ∃ text, encode_r_instruction_instr h (h.INST_NAME_x m) save = Except.ok text := by
  simp only [encode_r_instruction_instr, strtok_fst, strtok_snd, hs, List.head?_cons,
    List.tail_cons, register_operand_ok h hc, opcode_lookup_name h hc,
    funct_lookup_name h hc, check_some, Except.bind]
  exact ⟨_, rfl⟩

theorem encode_mult_instr_ok (h : Header) (hc : h.consistent) (m : Mnemonic)
    (save : List Char) (r0 r1 : Register) (tl : List (List Char))
    (hs : tokens save = h.REG_x_NAME r0 :: h.REG_x_NAME r1 :: tl) :
    ∃ text, encode_mult_instr h (h.INST_NAME_x m) save = Except.ok text := by
  simp only [encode_mult_instr, strtok_fst, strtok_snd, hs, List.head?_cons,
    List.tail_cons, register_operand_ok h hc, opcode_lookup_name h hc,
    funct_lookup_name h hc, check_some, Except.bind]
  exact ⟨_, rfl⟩

theorem encode_jr_instr_ok (h : Header) (hc : h.consistent) (m : Mnemonic)
    (save : List Char) (r0 : Register) (tl : List (List Char))
    (hs : tokens save = h.REG_x_NAME r0 :: tl) :
    ∃ text, encode_jr_instr h (h.INST_NAME_x m) save = Except.ok text := by
  simp only [encode_jr_instr, strtok_fst, hs, List.head?_cons,
    register_operand_ok h hc, opcode_lookup_name h hc,
    funct_lookup_name h hc, check_some, Except.bind]
  exact ⟨_, rfl⟩

theorem encode_sll_instr_ok (h : Header) (hc : h.consistent) (m : Mnemonic)
    (save : List Char) (r0 r1 : Register) (t : List Char) (tl : List (List Char)) (v : Int)
    (hs : tokens save = h.REG_x_NAME r0 :: h.REG_x_NAME r1 :: t :: tl)
    (hv : atoi t = Except.ok v) :
    ∃ text, encode_sll_instr h (h.INST_NAME_x m) save = Except.ok text := by
  simp only [encode_sll_instr, strtok_fst, strtok_snd, hs, List.head?_cons,
    List.tail_cons, register_operand_ok h hc, opcode_lookup_name h hc,
    funct_lookup_name h hc, check_some, Except.bind, hv, char_array_itoa2]
  exact ⟨_, rfl⟩

theorem encode_i_instruction_instr_ok (h : Header) (hc : h.consistent) (m : Mnemonic)
    (save : List Char) (r0 r1 : Register) (t : List Char) (tl : List (List Char)) (v : Int)
    (hs : tokens save = h.REG_x_NAME r0 :: h.REG_x_NAME r1 :: t :: tl)
    (hv : atoi t = Except.ok v) :
    ∃ text, encode_i_instruction_instr h (h.INST_NAME_x m) save = Except.ok text := by
  simp only [encode_i_instruction_instr, strtok_fst, strtok_snd, hs, List.head?_cons,
    List.tail_cons, register_operand_ok h hc, opcode_lookup_name h hc,
    check_some, Except.bind, hv, char_array_itoa2]
  exact ⟨_, rfl⟩

theorem encode_lw_instr_ok (h : Header) (hc : h.consistent) (m : Mnemonic)
    (save : List Char) (r0 r2 : Register) (t : List Char) (tl : List (List Char)) (v : Int)
    (hs : tokens save = h.REG_x_NAME r0 :: t :: h.REG_x_NAME r2 :: tl)
    (hv : atoi t = Except.ok v) :
    ∃ text, encode_lw_instr h (h.INST_NAME_x m) save = Except.ok text := by
  simp only [encode_lw_instr, strtok_fst, strtok_snd, hs, List.head?_cons,
    List.tail_cons, register_operand_ok h hc, opcode_lookup_name h hc,
    check_some, Except.bind, hv, char_array_itoa2]
  exact ⟨_, rfl⟩

/-- The width of the text a builder other than the J builder assembles. -/
theorem call_instr_width (h : Header) (hc : h.consistent) (m : Mnemonic)
    (hj : numeric_operand m ≠ some 0) (save text : List Char)
    (ht : call_instr h (entry h m).encode (h.INST_NAME_x m) save = Except.ok text) :
    text.length = 32 := by
  cases m
  case ADD | SUB | AND | OR | XOR | NOR | SLT =>
    exact encode_r_instruction_width h hc _ (by rfl) save text ht
  case MULT | DIV => exact encode_mult_width h hc _ (by rfl) save text ht
  case SLL | SRL => exact encode_sll_width h hc _ (by rfl) save text ht
  case JR => exact encode_jr_width h hc save text ht
  case ADDI | ANDI | ORI | SLTI | BEQ | BNE =>
    exact encode_i_instruction_width h hc _ save text ht
  case LW | SW => exact encode_lw_width h hc _ save text ht
  case J | JAL => exact absurd rfl hj

/-- A builder other than the J builder assembles a text from valid operands. -/
theorem call_instr_ok (h : Header) (hc : h.consistent) (m : Mnemonic)
    (hj : numeric_operand m ≠ some 0) (save : List Char)
    (hlen : operands m ≤ (tokens save).length)
    (hreg : ∀ k, k < operands m → reads_register m k = true →
      ∃ r, (tokens save).get? k = some (h.REG_x_NAME r))
    (hnum : ∀ k t, numeric_operand m = some k → (tokens save).get? k = some t →
      ∃ v, atoi t = Except.ok v) :
    ∃ text, call_instr h (entry h m).encode (h.INST_NAME_x m) save = Except.ok text := by
  have h3 : operands m = 3 → ∃ a b c tl, tokens save = a :: b :: c :: tl := by
    intro ho
    exact three_operands _ (by rw [← ho]; exact hlen)
  cases m
  case ADD | SUB | AND | OR | XOR | NOR | SLT =>
    obtain ⟨a, b, c, tl, hs⟩ := h3 rfl
    obtain ⟨r0, e0⟩ := hreg 0 (by decide) rfl
    obtain ⟨r1, e1⟩ := hreg 1 (by decide) rfl
    obtain ⟨r2, e2⟩ := hreg 2 (by decide) rfl
    rw [hs] at e0 e1 e2
    simp only [List.get?_cons_zero, List.get?_cons_succ, Option.some.injEq] at e0 e1 e2
    subst e0 e1 e2
    exact encode_r_instruction_instr_ok h hc _ save r0 r1 r2 tl hs
  case MULT | DIV =>
    obtain ⟨a, b, tl, hs⟩ := two_operands _ hlen
    obtain ⟨r0, e0⟩ := hreg 0 (by decide) rfl
    obtain ⟨r1, e1⟩ := hreg 1 (by decide) rfl
    rw [hs] at e0 e1
    simp only [List.get?_cons_zero, List.get?_cons_succ, Option.some.injEq] at e0 e1
    subst e0 e1
    exact encode_mult_instr_ok h hc _ save r0 r1 tl hs
  case JR =>
    obtain ⟨a, tl, hs⟩ := one_operand _ hlen
    obtain ⟨r0, e0⟩ := hreg 0 (by decide) rfl
    rw [hs] at e0
    simp only [List.get?_cons_zero, Option.some.injEq] at e0
    subst e0
    exact encode_jr_instr_ok h hc _ save r0 tl hs
  case SLL | SRL =>
    obtain ⟨a, b, c, tl, hs⟩ := h3 rfl
    obtain ⟨r0, e0⟩ := hreg 0 (by decide) rfl
    obtain ⟨r1, e1⟩ := hreg 1 (by decide) rfl
    obtain ⟨v, hv⟩ := hnum 2 c rfl (by rw [hs]; rfl)
    rw [hs] at e0 e1
    simp only [List.get?_cons_zero, List.get?_cons_succ, Option.some.injEq] at e0 e1
    subst e0 e1
    exact encode_sll_instr_ok h hc _ save r0 r1 c tl v hs hv
  case ADDI | ANDI | ORI | SLTI | BEQ | BNE =>
    obtain ⟨a, b, c, tl, hs⟩ := h3 rfl
    obtain ⟨r0, e0⟩ := hreg 0 (by decide) rfl
    obtain ⟨r1, e1⟩ := hreg 1 (by decide) rfl
    obtain ⟨v, hv⟩ := hnum 2 c rfl (by rw [hs]; rfl)
    rw [hs] at e0 e1
    simp only [List.get?_cons_zero, List.get?_cons_succ, Option.some.injEq] at e0 e1
    subst e0 e1
    exact encode_i_instruction_instr_ok h hc _ save r0 r1 c tl v hs hv
  case LW | SW =>
    obtain ⟨a, b, c, tl, hs⟩ := h3 rfl
    obtain ⟨r0, e0⟩ := hreg 0 (by decide) rfl
    obtain ⟨r2, e2⟩ := hreg 2 (by decide) rfl
    obtain ⟨v, hv⟩ := hnum 1 b rfl (by rw [hs]; rfl)
    rw [hs] at e0 e2
    simp only [List.get?_cons_zero, List.get?_cons_succ, Option.some.injEq] at e0 e2
    subst e0 e2
    exact encode_lw_instr_ok h hc _ save r0 r2 b tl v hs hv
  case J | JAL => exact absurd rfl hj

/-- C18, as the code has it: for every mnemonic of the instruction table but j
and jal, and every valid operand list (as many tokens as the builder reads,
names of registers where it looks a register up, a number in the range of `int`
where it calls `atoi`), the builder assembles a text, the text has exactly 32
characters, and the builder returns that text parsed: six fields of 6, 5, 5, 5,
5 and 6 characters for the R-format builders, 6, 5, 5 and 16 for the I-format
builders.  The J-format builder assembles no text: the digits of the address
and their terminator do not fit `char addr2[32]`, and what follows the write is
undefined. -/
theorem instr_width (h : Header) (hc : h.consistent) (m : Mnemonic) (save : List Char)
    (hlen : operands m ≤ (tokens save).length)
    (hreg : ∀ k, k < operands m → reads_register m k = true →
      ∃ r, (tokens save).get? k = some (h.REG_x_NAME r))
    (hnum : ∀ k t, numeric_operand m = some k → (tokens save).get? k = some t →
      ∃ v, atoi t = Except.ok v) :
    (m ∉ [Mnemonic.J, Mnemonic.JAL] →
        ∃ text, call_instr h (entry h m).encode (h.INST_NAME_x m) save = Except.ok text
          ∧ text.length = 32
          ∧ call h (entry h m).encode (h.INST_NAME_x m) save = Except.ok (atoi32 text))
      ∧ (m ∈ [Mnemonic.J, Mnemonic.JAL] →
        call_instr h (entry h m).encode (h.INST_NAME_x m) save
            = Except.error Error.Undefined
          ∧ call h (entry h m).encode (h.INST_NAME_x m) save
            = Except.error Error.Undefined) := by
  constructor
  · intro hm
    have hj : numeric_operand m ≠ some 0 := by
      intro hn
      apply hm
      cases m <;> first | exact absurd hn (by decide) | decide
    obtain ⟨text, ht⟩ := call_instr_ok h hc m hj save hlen hreg hnum
    have hw := call_instr_width h hc m hj save text ht
    refine ⟨text, ht, hw, ?_⟩
    rw [call_eq_finish, ht]
    simp only [Except.map, finish, List.take_of_length_le (le_of_eq hw)]
  · intro hm
    simp only [List.mem_cons, List.mem_singleton, List.not_mem_nil, or_false] at hm
    have ho : operands m = 1 := by
      rcases hm with rfl | rfl <;> rfl
    obtain ⟨a, tl, hs⟩ := one_operand (tokens save) (by omega)
    have hi : call_instr h (entry h m).encode (h.INST_NAME_x m) save
        = Except.error Error.Undefined := by
      rcases hm with rfl | rfl <;>
        exact encode_j_instruction_instr_undefined h hc _ save a tl hs
    refine ⟨hi, ?_⟩
    rw [call_eq_finish, hi]
    rfl

/-- C18, on the operands of `add s0, s1, s2`, a text of 32 characters, and on the
operand of `j 1024`, no text. -/
theorem instr_width_witness :
    (∃ text, call_instr mips32 (entry mips32 Mnemonic.ADD).encode
          (mips32.INST_NAME_x Mnemonic.ADD) "s0, s1, s2".toList = Except.ok text
        ∧ text.length = 32
        ∧ call mips32 (entry mips32 Mnemonic.ADD).encode (mips32.INST_NAME_x Mnemonic.ADD)
            "s0, s1, s2".toList = Except.ok (atoi32 text))
      ∧ call_instr mips32 (entry mips32 Mnemonic.J).encode (mips32.INST_NAME_x Mnemonic.J)
          "1024".toList = Except.error Error.Undefined := by
  have hadd := (instr_width mips32 mips32_consistent Mnemonic.ADD "s0, s1, s2".toList
    (by decide)
    (fun k hk _ => by
      have hk3 : k < 3 := hk
      interval_cases k
      · exact ⟨Register.S0, by decide⟩
      · exact ⟨Register.S1, by decide⟩
      · exact ⟨Register.S2, by decide⟩)
    (fun k t hk _ => by cases hk)).1 (by decide)
  have hj := (instr_width mips32 mips32_consistent Mnemonic.J "1024".toList
    (by decide) (fun k _ hr => by cases hr)
    (fun k t hk ht => by
      cases Option.some.inj hk
      have e : tokens "1024".toList = ["1024".toList] := by decide
      rw [e] at ht
      cases Option.some.inj ht
      exact ⟨1024, by rfl⟩)).2 (by decide)
  exact ⟨hadd, hj.1⟩

/-! ## The operands of the shifts -/

/-- The fields of a word of six fields. -/
theorem word_fields (op rs rt rd sh fn : Nat) (hrs : rs < 32) (hrt : rt < 32)
    (hrd : rd < 32) (hsh : sh < 32) (hfn : fn < 64) :
    let w := (op <<< 26) ||| (rs <<< 21) ||| (rt <<< 16) ||| (rd <<< 11) ||| (sh <<< 6) ||| fn
    (w >>> 21) % 32 = rs ∧ (w >>> 16) % 32 = rt ∧ (w >>> 11) % 32 = rd
      ∧ (w >>> 6) % 32 = sh ∧ w % 64 = fn := by
  intro w
  have hw : w = ((((op * 2 ^ 5 + rs) * 2 ^ 5 + rt) * 2 ^ 5 + rd) * 2 ^ 5 + sh) * 2 ^ 6 + fn :=
    word_r op rs rt rd sh fn hrs hrt hrd hsh hfn
  simp only [Nat.shiftRight_eq_div_pow]
  rw [hw]
  norm_num
  omega

/-- C19, as the code has it: for sll and srl the builder reads its two register
operands in the order (rd, rt), then the decimal shift amount: the first
register operand of the line is in the `rd` field (bits 15..11) of the word, the
second in the `rt` field (bits 20..16), and the `rs` field (bits 25..21) is
zero. -/
theorem shift_operand_order (h : Header) (hc : h.consistent) (m : Mnemonic)
    (hm : m ∈ [Mnemonic.SLL, Mnemonic.SRL]) (first second : Register) (n : Nat)
    (hn : n < 2 ^ 31) :
    ∃ w, arch_mips32_encode h
          (h.INST_NAME_x m ++ " ".toList ++ h.REG_x_NAME first ++ ", ".toList
            ++ h.REG_x_NAME second ++ ", ".toList ++ decimal n) = Except.ok w
      ∧ (w >>> 11) % 32 = h.REG_x_NUM first
      ∧ (w >>> 16) % 32 = h.REG_x_NUM second
      ∧ (w >>> 21) % 32 = 0
      ∧ (w >>> 6) % 32 = n % 32 := by
  have hf : has_funct m = true := by
    simp only [List.mem_cons, List.mem_singleton, List.not_mem_nil, or_false] at hm
    rcases hm with rfl | rfl <;> rfl
  have hfields := word_fields (h.INST_x_OPCODE m) 0 (h.REG_x_NUM second) (h.REG_x_NUM first)
    (n % 32) (h.INST_x_FUNCT m) (by decide) (hc.reg_codes second).1 (hc.reg_codes first).1
    (Nat.mod_lt _ (by decide)) (hc.functs m hf).1
  exact ⟨_, arch_shift_line h hc m hm first second n hn, hfields.2.2.1, hfields.2.1,
    hfields.1, hfields.2.2.2.1⟩

/-- C19, on `sll s0, s1, 1`. -/
theorem shift_operand_order_witness :
    ∃ w, arch_mips32_encode mips32 "sll s0, s1, 1".toList = Except.ok w
      ∧ (w >>> 11) % 32 = 16 ∧ (w >>> 16) % 32 = 17 ∧ (w >>> 21) % 32 = 0
      ∧ (w >>> 6) % 32 = 1 :=
  shift_operand_order mips32 mips32_consistent Mnemonic.SLL (by decide) Register.S0
    Register.S1 1 (by decide)

/-- C19, the line `sll s0, s1, 1` against the claim as stated: the `rs` field of
its word is 0, not 16, the code of the first register operand `s0`, which is in
the `rd` field. -/
theorem shift_operand_rs :
    arch_mips32_encode mips32 "sll s0, s1, 1".toList = Except.ok 1146944
      ∧ mips32.REG_x_NUM Register.S0 = 16
      ∧ (1146944 >>> 21) % 32 = 0
      ∧ (1146944 >>> 21) % 32 ≠ mips32.REG_x_NUM Register.S0
      ∧ (1146944 >>> 11) % 32 = mips32.REG_x_NUM Register.S0 := by
  refine ⟨by rfl, by rfl, by decide, by decide, by decide⟩

/-! ## The encoder and the tokens of the line -/

/-- A builder sees of the rest of the line its tokens only. -/
theorem call_tokens (h : Header) (f : Encoder) (i s1 s2 : List Char)
    (ht : tokens s1 = tokens s2) : call h f i s1 = call h f i s2 := by
  cases f <;>
    simp only [call, encode_add, encode_sub, encode_and, encode_or, encode_xor,
      encode_nor, encode_slt, encode_addi, encode_andi, encode_ori, encode_slti, encode_beq,
      encode_bne, encode_j, encode_jal, encode_r_instruction, encode_mult, encode_div,
      encode_sll, encode_srl, encode_jr, encode_i_instruction, encode_lw, encode_sw,
      encode_j_instruction, strtok_fst, strtok_snd, ht]

/-- C20, as the code has it: the encoder depends only on the sequence of tokens
of the first 80 characters of the line: two lines whose first 80 characters have
the same tokens encode to the same result, whatever delimiters, and however
many, separate the tokens. -/
theorem encode_tokens (h : Header) (l1 l2 : List Char)
    (ht : tokens (strncpy l1 80) = tokens (strncpy l2 80)) :
    arch_mips32_encode h l1 = arch_mips32_encode h l2 := by
  have hrest : tokens (strtok (strncpy l1 80) delim).2
      = tokens (strtok (strncpy l2 80) delim).2 := by
    rw [strtok_snd, strtok_snd, ht]
  simp only [arch_mips32_encode, strtok_fst, ht]
  cases (tokens (strncpy l2 80)).head? with
  | none => rfl
  | some token =>
    simp only []
    cases (instructions h).find? (fun e => decide (token = e.name)) with
    | none => rfl
    | some e => exact call_tokens h e.encode token _ _ hrest

/-- C20, the case of the claim: `lw s0, 4(s1)` and `lw s0 4 s1`. -/
theorem encode_tokens_witness :
    arch_mips32_encode mips32 "lw s0, 4(s1)".toList
      = arch_mips32_encode mips32 "lw s0 4 s1".toList :=
  encode_tokens mips32 "lw s0, 4(s1)".toList "lw s0 4 s1".toList (by decide)

/-- C20, two lines the claim as stated does not hold for: `jr s0`, and `jr`, 80
spaces, `s0`.  They have the same tokens; the encoder reads 80 characters of the
second and finds no operand. -/
theorem encode_tokens_long :
    tokens "jr s0".toList = tokens ("jr".toList ++ List.replicate 80 ' ' ++ "s0".toList)
      ∧ arch_mips32_encode mips32 "jr s0".toList = Except.ok 33554440
      ∧ arch_mips32_encode mips32 ("jr".toList ++ List.replicate 80 ' ' ++ "s0".toList)
        = Except.error Error.CheckFailed
      ∧ arch_mips32_encode mips32 "jr s0".toList
        ≠ arch_mips32_encode mips32 ("jr".toList ++ List.replicate 80 ' ' ++ "s0".toList) := by
  have e1 : arch_mips32_encode mips32 "jr s0".toList = Except.ok 33554440 := by rfl
  have e2 : arch_mips32_encode mips32 ("jr".toList ++ List.replicate 80 ' ' ++ "s0".toList)
      = Except.error Error.CheckFailed := by rfl
  refine ⟨by decide, e1, e2, ?_⟩
  rw [e1, e2]
  intro heq
  cases heq

/-! ## The record of the engine -/

/-- C23: `engine_run` returns its argument unchanged, for every word, whatever
its opcode, whatever the header and the record `r_inst` before the call, and
whether or not `select` takes the R-format path. -/
theorem engine_run_returns (h : Header) (w : Nat) (r : Option R_instruction) :
    (engine_run h w r).1 = w := rfl

/-- The 32 binary digits of a word. -/
theorem itoa2_nat (w : Nat) : itoa2 (w : Int) 2 = to_base 2 32 w := by
  have hv : ((w : Int) % 2 ^ 32).toNat = w % 2 ^ 32 := by omega
  rw [itoa2, hv, ← to_base_mod]

/-- The field `select` reads as the opcode: the six high digits of the word. -/
theorem substring_opcode (w : Nat) :
    substring (itoa2 (w : Int) 2) 0 5 = to_base 2 6 (w / 2 ^ 26) := by
  rw [itoa2_nat, show (32 : Nat) = 6 + 26 from rfl, to_base_add]
  simp only [substring, List.drop_zero]
  exact List.take_left' (length_to_base 2 6 _)

/-- A text of 32 characters that starts with the opcode of a mnemonic. -/
theorem opcode_rest (h : Header) (hc : h.consistent) (m : Mnemonic)
    (opcode rest text : List Char)
    (h4 : check (opcode_lookup h (some (h.INST_NAME_x m))) = Except.ok opcode)
    (hr : opcode ++ rest = text) (hw : text.length = 32) :
    text = h.INST_x_OPCODE_STR m ++ rest ∧ rest.length = 26 := by
  rw [opcode_lookup_name h hc m] at h4
  have hv : h.INST_x_OPCODE_STR m = opcode := Except.ok.inj h4
  have h6 : (h.INST_x_OPCODE_STR m).length = 6 := by
    rw [(hc.opcodes m).2, length_to_base]
  rw [← hr, ← hv, List.length_append, h6] at hw
  refine ⟨by rw [← hr, hv], by omega⟩

theorem encode_i_instruction_head (h : Header) (hc : h.consistent) (m : Mnemonic)
    (save text : List Char)
    (ht : encode_i_instruction_instr h (h.INST_NAME_x m) save = Except.ok text) :
    ∃ rest, text = h.INST_x_OPCODE_STR m ++ rest ∧ rest.length = 26 := by
  have hw := encode_i_instruction_width h hc m save text ht
  simp only [encode_i_instruction_instr] at ht
  obtain ⟨rt, -, ht⟩ := except_bind_ok _ _ _ ht
  obtain ⟨rs, -, ht⟩ := except_bind_ok _ _ _ ht
  obtain ⟨branch10, -, ht⟩ := except_bind_ok _ _ _ ht
  obtain ⟨opcode, h4, ht⟩ := except_bind_ok _ _ _ ht
  obtain ⟨value, -, ht⟩ := except_bind_ok _ _ _ ht
  obtain ⟨branch2, -, ht⟩ := except_bind_ok _ _ _ ht
  refine ⟨rs ++ (rt ++ branch2.drop 16), opcode_rest h hc m opcode _ text h4 ?_ hw⟩
  rw [← Except.ok.inj ht]
  simp only [List.append_assoc]

theorem encode_lw_head (h : Header) (hc : h.consistent) (m : Mnemonic)
    (save text : List Char)
    (ht : encode_lw_instr h (h.INST_NAME_x m) save = Except.ok text) :
    ∃ rest, text = h.INST_x_OPCODE_STR m ++ rest ∧ rest.length = 26 := by
  have hw := encode_lw_width h hc m save text ht
  simp only [encode_lw_instr] at ht
  obtain ⟨rt, -, ht⟩ := except_bind_ok _ _ _ ht
  obtain ⟨branch10, -, ht⟩ := except_bind_ok _ _ _ ht
  obtain ⟨rs, -, ht⟩ := except_bind_ok _ _ _ ht
  obtain ⟨opcode, h4, ht⟩ := except_bind_ok _ _ _ ht
  obtain ⟨value, -, ht⟩ := except_bind_ok _ _ _ ht
  obtain ⟨branch2, -, ht⟩ := except_bind_ok _ _ _ ht
  refine ⟨rs ++ (rt ++ branch2.drop 16), opcode_rest h hc m opcode _ text h4 ?_ hw⟩
  rw [← Except.ok.inj ht]
  simp only [List.append_assoc]

/-- The text of an I-format builder starts with the opcode of the mnemonic, and
26 characters follow. -/
theorem call_instr_opcode (h : Header) (hc : h.consistent) (m : Mnemonic)
    (hm : m ∈ [Mnemonic.ADDI, Mnemonic.ANDI, Mnemonic.ORI, Mnemonic.SLTI, Mnemonic.LW,
      Mnemonic.SW, Mnemonic.BEQ, Mnemonic.BNE]) (save text : List Char)
    (ht : call_instr h (entry h m).encode (h.INST_NAME_x m) save = Except.ok text) :
    ∃ rest, text = h.INST_x_OPCODE_STR m ++ rest ∧ rest.length = 26 := by
  simp only [List.mem_cons, List.mem_singleton, List.not_mem_nil, or_false] at hm
  rcases hm with rfl | rfl | rfl | rfl | rfl | rfl | rfl | rfl
  case inr.inr.inr.inr.inl => exact encode_lw_head h hc _ save text ht
  case inr.inr.inr.inr.inr.inl => exact encode_lw_head h hc _ save text ht
  all_goals exact encode_i_instruction_head h hc _ save text ht

/-- The word an I-format builder returns has the opcode of the mnemonic in its
six high bits. -/
theorem call_opcode (h : Header) (hc : h.consistent) (m : Mnemonic)
    (hm : m ∈ [Mnemonic.ADDI, Mnemonic.ANDI, Mnemonic.ORI, Mnemonic.SLTI, Mnemonic.LW,
      Mnemonic.SW, Mnemonic.BEQ, Mnemonic.BNE]) (save : List Char) (w : Nat)
    (hw : call h (entry h m).encode (h.INST_NAME_x m) save = Except.ok w) :
    w / 2 ^ 26 = h.INST_x_OPCODE m := by
  rw [call_eq_finish] at hw
  cases ht : call_instr h (entry h m).encode (h.INST_NAME_x m) save with
  | error e =>
    rw [ht] at hw
    cases hw
  | ok text =>
    rw [ht] at hw
    obtain ⟨rest, hr, hl⟩ := call_instr_opcode h hc m hm save text ht
    have h32 : text.length = 32 := by
      rw [hr, List.length_append, hl, (hc.opcodes m).2, length_to_base]
    have hval : binary_value text = h.INST_x_OPCODE m * 2 ^ 26 + binary_value rest := by
      rw [hr, binary_value_append, hl, (hc.opcodes m).2,
        binary_value_field 6 _ (hc.opcodes m).1]
    have hlt : binary_value rest < 2 ^ 26 := by
      have := binary_value_lt rest
      rwa [hl] at this
    have hop := (hc.opcodes m).1
    have hwv : w = h.INST_x_OPCODE m * 2 ^ 26 + binary_value rest := by
      have := Except.ok.inj hw
      simp only [finish, List.take_of_length_le (le_of_eq h32), atoi32, hval] at this
      rw [← this]
      apply Nat.mod_eq_of_lt
      omega
    rw [hwv]
    omega

/-- C22, as the code has it: `select` has one branch, for the text that starts
with `R_OPCODE`, and the engine one record, `R_instruction`, without a field for
an immediate or an address.  For every word `w` the encoder returns for a line
of an I-format mnemonic (addi, andi, ori, slti, lw, sw, beq, bne), the six high
bits of `w` are the opcode of the mnemonic, and `select` decodes nothing from
the 32 binary digits of `w`: it leaves `r_inst` as it was, whenever the opcode of
the mnemonic is not `R_OPCODE`.  A line of j or jal with an address has no
defined word to decode: its digits do not fit `addr2[32]`. -/
theorem select_i_j (h : Header) (hc : h.consistent) (m : Mnemonic) (asmcmd : List Char)
    (ops : List (List Char))
    (ht : tokens (strncpy asmcmd 80) = h.INST_NAME_x m :: ops) :
    (m ∈ [Mnemonic.ADDI, Mnemonic.ANDI, Mnemonic.ORI, Mnemonic.SLTI, Mnemonic.LW,
          Mnemonic.SW, Mnemonic.BEQ, Mnemonic.BNE] →
        h.INST_x_OPCODE_STR m ≠ h.R_OPCODE →
        ∀ (w : Nat) (r : Option R_instruction), arch_mips32_encode h asmcmd = Except.ok w →
          w / 2 ^ 26 = h.INST_x_OPCODE m
            ∧ substring (itoa2 (w : Int) 2) 0 5 = h.INST_x_OPCODE_STR m
            ∧ select h (itoa2 (w : Int) 2) r = r)
      ∧ (m ∈ [Mnemonic.J, Mnemonic.JAL] → ops ≠ [] →
        arch_mips32_encode h asmcmd = Except.error Error.Undefined) := by
  obtain ⟨save, hs, e⟩ := arch_mips32_encode_tokens h hc m asmcmd ops ht
  constructor
  · intro hm hne w r hw
    rw [e] at hw
    have hop := call_opcode h hc m hm save w hw
    have hsub : substring (itoa2 (w : Int) 2) 0 5 = h.INST_x_OPCODE_STR m := by
      rw [substring_opcode, hop, (hc.opcodes m).2]
    refine ⟨hop, hsub, ?_⟩
    have hq : equals (h.INST_x_OPCODE_STR m) h.R_OPCODE = false := by
      simpa [equals] using hne
    simp only [select, hsub, hq, Bool.false_eq_true, if_false]
  · intro hm hops
    obtain ⟨a, tl, rfl⟩ := List.exists_cons_of_ne_nil hops
    rw [e]
    simp only [List.mem_cons, List.mem_singleton, List.not_mem_nil, or_false] at hm
    rcases hm with rfl | rfl <;> exact encode_j_instruction_undefined h hc _ save a tl hs

/-- C22, on `addi s0, s1, 1`: the word is 573571073, its opcode field `001000`,
and `r_inst` is left as it was; `j 1024` has no defined word. -/
theorem select_i_j_witness :
    (573571073 / 2 ^ 26 = mips32.INST_x_OPCODE Mnemonic.ADDI
        ∧ substring (itoa2 ((573571073 : Nat) : Int) 2) 0 5
          = mips32.INST_x_OPCODE_STR Mnemonic.ADDI
        ∧ select mips32 (itoa2 ((573571073 : Nat) : Int) 2) none = none)
      ∧ arch_mips32_encode mips32 "j 1024".toList = Except.error Error.Undefined :=
  ⟨(select_i_j mips32 mips32_consistent Mnemonic.ADDI "addi s0, s1, 1".toList
      ["s0".toList, "s1".toList, "1".toList] (by decide)).1 (by decide) (by decide)
      573571073 none (by rfl),
    (select_i_j mips32 mips32_consistent Mnemonic.J "j 1024".toList ["1024".toList]
      (by decide)).2 (by decide) (by decide)⟩

/-- C22, against the claim as stated: the word of `addi s0, s1, 1` is 573571073;
after `select` on its 32 binary digits the record `r_inst` is null: no opcode,
register or immediate has been recovered. -/
theorem select_addi :
    arch_mips32_encode mips32 "addi s0, s1, 1".toList = Except.ok 573571073
      ∧ itoa2 573571073 2 = "00100010001100000000000000000001".toList
      ∧ select mips32 "00100010001100000000000000000001".toList none = none
      ∧ select mips32 (itoa2 573571073 2) none = none := by
  refine ⟨by rfl, by rfl, by rfl, by rfl⟩

/-! ## The first 80 characters -/

theorem take_min_length {α : Type} (n : Nat) (s : List α) :
    s.take (min n s.length) = s.take n := by
  rcases Nat.le_total n s.length with hle | hle
  · rw [Nat.min_eq_left hle]
  · rw [Nat.min_eq_right hle, List.take_of_length_le hle, List.take_of_length_le (le_refl _)]

/-- C26: the encoder reads the first 80 characters of its input only: on every
line `s`, of any length, it returns what it returns on the prefix of `s` of
length `min(80, |s|)`. -/
theorem encode_prefix (h : Header) (s : List Char) :
    arch_mips32_encode h s = arch_mips32_encode h (s.take (min 80 s.length)) := by
  have hs : strncpy (s.take (min 80 s.length)) 80 = strncpy s 80 := by
    rw [take_min_length, strncpy, strncpy, List.take_take, Nat.min_self]
  simp only [arch_mips32_encode, hs]

/-! ## Lines without a token -/

/-- A text has no token exactly when all its characters are delimiters. -/
theorem tokens_eq_nil (l : List Char) :
    tokens l = [] ↔ ∀ c ∈ l, delim.contains c = true := by
  induction l with
  | nil => simp [tokens_nil]
  | cons c cs ih =>
    by_cases hc : delim.contains c = true
    · rw [tokens_cons_delim c cs hc, ih]
      constructor
      · intro hall x hx
        rcases List.mem_cons.mp hx with rfl | hx
        · exact hc
        · exact hall x hx
      · intro hall x hx
        exact hall x (List.mem_cons_of_mem _ hx)
    · have hc2 : delim.contains c = false := by simpa using hc
      rw [tokens_cons_token c cs hc2]
      constructor
      · intro hnil
        cases hnil
      · intro hall
        exact absurd (hall c (List.mem_cons_self c cs)) hc

/-- C24: a line with no token, empty or made of delimiters only, makes the
encoder return the word 0 and no error; and 0 is the word of the line
`sll zero, zero, 0` as soon as the header gives `sll` the opcode and the function
code 0 and the register `zero` the number 0: the returned 0 does not tell the
line that was not encoded from that instruction. -/
theorem no_token_zero (h : Header) (hc : h.consistent) :
    (∀ l : List Char, tokens l = [] → arch_mips32_encode h l = Except.ok 0)
      ∧ (h.INST_x_OPCODE Mnemonic.SLL = 0 → h.INST_x_FUNCT Mnemonic.SLL = 0
          → h.REG_x_NUM Register.ZERO = 0
          → arch_mips32_encode h
              (h.INST_NAME_x Mnemonic.SLL ++ " ".toList ++ h.REG_x_NAME Register.ZERO
                ++ ", ".toList ++ h.REG_x_NAME Register.ZERO ++ ", ".toList ++ decimal 0)
            = Except.ok 0) := by
  constructor
  · intro l hl
    have hcut : tokens (strncpy l 80) = [] := by
      rw [tokens_eq_nil] at hl ⊢
      intro c hmem
      exact hl c (List.mem_of_mem_take hmem)
    simp only [arch_mips32_encode, strtok_fst, hcut, List.head?_nil]
  · intro hop hfn hz
    rw [arch_shift_line h hc Mnemonic.SLL (by decide) Register.ZERO Register.ZERO 0
      (by decide), hop, hfn, hz]
    rfl

/-- C24, on the header of the model: the line ` ,()`, the empty line and the
line `sll zero, zero, 0` all give the word 0. -/
theorem no_token_zero_witness :
    arch_mips32_encode mips32 " ,()".toList = Except.ok 0
      ∧ arch_mips32_encode mips32 [] = Except.ok 0
      ∧ arch_mips32_encode mips32 "sll zero, zero, 0".toList = Except.ok 0 :=
  ⟨(no_token_zero mips32 mips32_consistent).1 _ (by decide),
    (no_token_zero mips32 mips32_consistent).1 _ (by decide),
    (no_token_zero mips32 mips32_consistent).2 rfl rfl rfl⟩

/-! ## Numeric operands that are not decimal text -/

/-- The pieces of a text with a delimiter in it are the pieces before the
delimiter, then the pieces after it. -/
theorem splitOnP_append_delim (l x : List Char) (d : Char) (hd : delim.contains d = true) :
    (l ++ d :: x).splitOnP (fun c => delim.contains c)
      = l.splitOnP (fun c => delim.contains c) ++ x.splitOnP (fun c => delim.contains c) := by
  induction l with
  | nil => simp only [List.nil_append, List.splitOnP_cons, hd, if_true, List.splitOnP_nil,
      List.singleton_append]
  | cons c cs ih =>
    obtain ⟨p, ps, hp⟩ := List.exists_cons_of_ne_nil
      (List.splitOnP_ne_nil (fun c => delim.contains c) cs)
    by_cases hc : delim.contains c = true
    · simp only [List.cons_append, List.splitOnP_cons, hc, if_true, ih]
    · have hc2 : delim.contains c = false := by simpa using hc
      simp only [List.cons_append, List.splitOnP_cons, hc2, Bool.false_eq_true, if_false, ih,
        hp, List.modifyHead_cons]

/-- The tokens of a text with a delimiter in it. -/
theorem tokens_append_delim (l x : List Char) (d : Char) (hd : delim.contains d = true) :
    tokens (l ++ d :: x) = tokens l ++ tokens x := by
  simp only [tokens, splitOnP_append_delim l x d hd, List.filter_append]

theorem encode_r_instruction_extend (h : Header) (i s1 s2 : List Char)
    (more : List (List Char)) (w : Nat) (hs : tokens s2 = tokens s1 ++ more)
    (hw : encode_r_instruction h i s1 = Except.ok w) :
    encode_r_instruction h i s2 = Except.ok w := by
  by_cases hlen : (tokens s1).length < 3
  · rw [encode_r_instruction_short h i s1 _ rfl hlen] at hw
    cases hw
  · obtain ⟨a, b, c, tl, htok⟩ := three_operands (tokens s1) (by omega)
    rw [← hw]
    simp only [encode_r_instruction, strtok_fst, strtok_snd, hs, htok, List.cons_append,
      List.head?_cons, List.tail_cons]

theorem encode_sll_extend (h : Header) (i s1 s2 : List Char)
    (more : List (List Char)) (w : Nat) (hs : tokens s2 = tokens s1 ++ more)
    (hw : encode_sll h i s1 = Except.ok w) :
    encode_sll h i s2 = Except.ok w := by
  by_cases hlen : (tokens s1).length < 3
  · rw [encode_sll_short h i s1 _ rfl hlen] at hw
    cases hw
  · obtain ⟨a, b, c, tl, htok⟩ := three_operands (tokens s1) (by omega)
    rw [← hw]
    simp only [encode_sll, strtok_fst, strtok_snd, hs, htok, List.cons_append,
      List.head?_cons, List.tail_cons]

theorem encode_i_instruction_extend (h : Header) (i s1 s2 : List Char)
    (more : List (List Char)) (w : Nat) (hs : tokens s2 = tokens s1 ++ more)
    (hw : encode_i_instruction h i s1 = Except.ok w) :
    encode_i_instruction h i s2 = Except.ok w := by
  by_cases hlen : (tokens s1).length < 3
  · rw [encode_i_instruction_short h i s1 _ rfl hlen] at hw
    cases hw
  · obtain ⟨a, b, c, tl, htok⟩ := three_operands (tokens s1) (by omega)
    rw [← hw]
    simp only [encode_i_instruction, strtok_fst, strtok_snd, hs, htok, List.cons_append,
      List.head?_cons, List.tail_cons]

theorem encode_lw_extend (h : Header) (i s1 s2 : List Char)
    (more : List (List Char)) (w : Nat) (hs : tokens s2 = tokens s1 ++ more)
    (hw : encode_lw h i s1 = Except.ok w) :
    encode_lw h i s2 = Except.ok w := by
  by_cases hlen : (tokens s1).length < 3
  · rw [encode_lw_short h i s1 _ rfl hlen] at hw
    cases hw
  · obtain ⟨a, b, c, tl, htok⟩ := three_operands (tokens s1) (by omega)
    rw [← hw]
    simp only [encode_lw, strtok_fst, strtok_snd, hs, htok, List.cons_append,
      List.head?_cons, List.tail_cons]

theorem encode_mult_extend (h : Header) (i s1 s2 : List Char)
    (more : List (List Char)) (w : Nat) (hs : tokens s2 = tokens s1 ++ more)
    (hw : encode_mult h i s1 = Except.ok w) :
    encode_mult h i s2 = Except.ok w := by
  by_cases hlen : (tokens s1).length < 2
  · rw [encode_mult_short h i s1 _ rfl hlen] at hw
    cases hw
  · obtain ⟨a, b, tl, htok⟩ := two_operands (tokens s1) (by omega)
    rw [← hw]
    simp only [encode_mult, strtok_fst, strtok_snd, hs, htok, List.cons_append,
      List.head?_cons, List.tail_cons]

theorem encode_jr_extend (h : Header) (i s1 s2 : List Char)
    (more : List (List Char)) (w : Nat) (hs : tokens s2 = tokens s1 ++ more)
    (hw : encode_jr h i s1 = Except.ok w) :
    encode_jr h i s2 = Except.ok w := by
  by_cases hlen : (tokens s1).length < 1
  · rw [encode_jr_missing h i s1 (List.length_eq_zero.mp (by omega))] at hw
    cases hw
  · obtain ⟨a, tl, htok⟩ := one_operand (tokens s1) (by omega)
    rw [← hw]
    simp only [encode_jr, strtok_fst, hs, htok, List.cons_append, List.head?_cons]

theorem encode_j_instruction_extend (h : Header) (i s1 s2 : List Char)
    (more : List (List Char)) (w : Nat) (hs : tokens s2 = tokens s1 ++ more)
    (hw : encode_j_instruction h i s1 = Except.ok w) :
    encode_j_instruction h i s2 = Except.ok w := by
  by_cases hlen : (tokens s1).length < 1
  · rw [encode_j_instruction_missing h i s1 (List.length_eq_zero.mp (by omega))] at hw
    cases hw
  · obtain ⟨a, tl, htok⟩ := one_operand (tokens s1) (by omega)
    rw [← hw]
    simp only [encode_j_instruction, strtok_fst, hs, htok, List.cons_append, List.head?_cons]

/-- A builder that returns a word returns it again when further tokens follow
the tokens it was given. -/
theorem call_extend (h : Header) (f : Encoder) (i s1 s2 : List Char)
    (more : List (List Char)) (w : Nat) (hs : tokens s2 = tokens s1 ++ more)
    (hw : call h f i s1 = Except.ok w) : call h f i s2 = Except.ok w := by
  cases f
  case encode_add | encode_sub | encode_and | encode_or | encode_xor | encode_nor
      | encode_slt =>
    exact encode_r_instruction_extend h i s1 s2 more w hs hw
  case encode_mult | encode_div => exact encode_mult_extend h i s1 s2 more w hs hw
  case encode_sll | encode_srl => exact encode_sll_extend h i s1 s2 more w hs hw
  case encode_jr => exact encode_jr_extend h i s1 s2 more w hs hw
  case encode_addi | encode_andi | encode_ori | encode_slti | encode_beq | encode_bne =>
    exact encode_i_instruction_extend h i s1 s2 more w hs hw
  case encode_lw | encode_sw => exact encode_lw_extend h i s1 s2 more w hs hw
  case encode_j | encode_jal => exact encode_j_instruction_extend h i s1 s2 more w hs hw

/-- C27: tokens after the operands a builder reads are ignored.  For every line
that encodes successfully, a line with a mnemonic whose builder returns a word,
the line followed by a delimiter and any further text, at most 80 characters in
all, encodes to the same word: the builder reads its operands and stops. -/
theorem extra_tokens_ignored (h : Header) (l more : List Char) (d : Char) (w : Nat)
    (hd : delim.contains d = true) (hlen : (l ++ d :: more).length ≤ 80)
    (hne : tokens l ≠ []) (hw : arch_mips32_encode h l = Except.ok w) :
    arch_mips32_encode h (l ++ d :: more) = Except.ok w := by
  have hl : l.length ≤ 80 := by
    simp only [List.length_append, List.length_cons] at hlen
    omega
  have h1 : strncpy l 80 = l := List.take_of_length_le hl
  have h2 : strncpy (l ++ d :: more) 80 = l ++ d :: more := List.take_of_length_le hlen
  obtain ⟨token, ops, hops⟩ := List.exists_cons_of_ne_nil hne
  have htok : tokens (l ++ d :: more) = token :: (ops ++ tokens more) := by
    rw [tokens_append_delim l more d hd, hops, List.cons_append]
  have hrest : tokens (strtok (l ++ d :: more) delim).2
      = tokens (strtok l delim).2 ++ tokens more := by
    rw [strtok_snd, strtok_snd, htok, hops, List.tail_cons, List.tail_cons]
  simp only [arch_mips32_encode, h1, strtok_fst, hops, List.head?_cons] at hw
  simp only [arch_mips32_encode, h2, strtok_fst, htok, List.head?_cons]
  cases hf : (instructions h).find? (fun e => decide (token = e.name)) with
  | none =>
    rw [hf] at hw
    exact hw
  | some e =>
    rw [hf] at hw
    exact call_extend h e.encode token _ _ _ w hrest hw

/-- C27, the case of the claim: `add s0, s1, s2, s3` after `add s0, s1, s2`. -/
theorem extra_tokens_ignored_witness :
    arch_mips32_encode mips32 "add s0, s1, s2".toList = Except.ok 36864032
      ∧ arch_mips32_encode mips32 "add s0, s1, s2, s3".toList = Except.ok 36864032 :=
  ⟨by rfl, extra_tokens_ignored mips32 "add s0, s1, s2".toList " s3".toList ',' 36864032
    (by decide) (by decide) (by decide) (by rfl)⟩

/-- A line without a mnemonic is not encoded by a builder: the empty line
returns the word 0, and followed by a delimiter and the tokens of
`add s0, s1, s2` it returns the word of that instruction. -/
theorem empty_line_extended :
    arch_mips32_encode mips32 [] = Except.ok 0
      ∧ ([] ++ ' ' :: "add s0, s1, s2".toList).length ≤ 80
      ∧ arch_mips32_encode mips32 ([] ++ ' ' :: "add s0, s1, s2".toList)
        = Except.ok 36864032
      ∧ arch_mips32_encode mips32 ([] ++ ' ' :: "add s0, s1, s2".toList)
        ≠ arch_mips32_encode mips32 [] := by
  have e1 : arch_mips32_encode mips32 [] = Except.ok 0 := by rfl
  have e2 : arch_mips32_encode mips32 ([] ++ ' ' :: "add s0, s1, s2".toList)
      = Except.ok 36864032 := by rfl
  refine ⟨e1, by decide, e2, ?_⟩
  rw [e1, e2]
  intro heq
  cases heq

end Nanvix
